import Mathlib

/-! # Composite row iterators (`sql/composite_iterators.cc`)

A shallow embedding of `FilterIterator`, `LimitOffsetIterator`,
`AggregateIterator` and `PrecomputedAggregateIterator`.

The iterators drive collaborators that live outside this file of the server
(the child iterator `m_source`, the condition `m_condition`, the session
`thd()` and the `JOIN`).  They are gathered in `Env`, a record of functions
over an arbitrary world type `W`.  Every call an iterator makes on a
collaborator goes through one of the wrappers below, which performs the call
on the world and appends one `Call` to the record of calls, in the order the
calls are made.
-/

namespace CompositeIterators

/-- One call made by an iterator on a collaborator, with the value it got back. -/
inductive Call (ι : Type) where
  | source_Init (failed : Bool)
  | source_Read (err : Int)
  | source_UnlockRow
  | val_int (matched : Bool)
  | killed (flag : Bool)
  | send_kill_message
  | is_error (flag : Bool)
  | set_ref_item_slice (slice_num : Nat)
  | Switch_ref_item_slice (slice_num : Nat)
  | Switch_ref_item_slice_leave
  | no_rows_in_result (item : ι)
  | clear_fields (save_nullinfo : Nat) (failed : Bool)
  | restore_fields (save_nullinfo : Nat)
  | copy_fields (failed : Bool)
  | update_item_cache_if_changed (idx : Int)
  | init_sum_functions (failed : Bool)
  | update_sum_func (failed : Bool)
  deriving DecidableEq, Repr

/-- The collaborators of the iterators, as functions over a world `W`.
`ι` is the type of the items of the current field list. -/
structure Env (W ι : Type) where
  /-- Call `m_source->Init()`; `true` is failure. -/
  source_Init : W → Bool × W
  /-- Call `m_source->Read()`; 0 is a row, -1 end of stream, 1 an error. -/
  source_Read : W → Int × W
  /-- Call `m_source->UnlockRow()`. -/
  source_UnlockRow : W → W
  /-- Call `m_condition->val_int()`, converted to `bool`. -/
  val_int : W → Bool × W
  /-- Read of `thd()->killed`. -/
  killed : W → Bool
  /-- Call `thd()->send_kill_message()`. -/
  send_kill_message : W → W
  /-- Call `thd()->is_error()`. -/
  is_error : W → Bool
  /-- Test `join->ref_items[slice_num].is_null()`. -/
  ref_items_is_null : W → Nat → Bool
  /-- Call `join->set_ref_item_slice(slice_num)`. -/
  set_ref_item_slice : Nat → W → W
  /-- Call `join->get_ref_item_slice()`. -/
  get_ref_item_slice : W → Nat
  /-- Constructor of the scope guard `Switch_ref_item_slice slice_switch(m_join,
  slice_num)`, a class declared outside this file of the server. -/
  Switch_ref_item_slice : Nat → W → W
  /-- Destructor of that scope guard, run when its block is left. -/
  Switch_ref_item_slice_leave : W → W
  /-- The slice number `REF_SLICE_ORDERED_GROUP_BY`. -/
  REF_SLICE_ORDERED_GROUP_BY : Nat
  /-- Read of `m_join->tmp_table_param.precomputed_group_by`. -/
  precomputed_group_by : W → Bool
  /-- Read of `m_join->grouped`. -/
  grouped : W → Bool
  /-- Read of `m_join->group_optimized_away`. -/
  group_optimized_away : W → Bool
  /-- List `*m_join->get_current_fields()`. -/
  get_current_fields : W → List ι
  /-- Call `item.no_rows_in_result()`. -/
  no_rows_in_result : ι → W → W
  /-- Call `m_join->clear_fields(&m_save_nullinfo)`: takes the value of
  `m_save_nullinfo`, gives back the failure flag and its new value. -/
  clear_fields : Nat → W → Bool × Nat × W
  /-- Call `m_join->restore_fields(m_save_nullinfo)`. -/
  restore_fields : Nat → W → W
  /-- Call `copy_fields(&m_join->tmp_table_param, m_join->thd)`; `true` is failure. -/
  copy_fields : W → Bool × W
  /-- Call `update_item_cache_if_changed(m_join->group_fields)`: index of the first
  changed group expression, negative when none changed. -/
  update_item_cache_if_changed : W → Int × W
  /-- Call `init_sum_functions(m_join->sum_funcs, m_join->sum_funcs_end[0])`. -/
  init_sum_functions : W → Bool × W
  /-- Call `update_sum_func(m_join->sum_funcs)`. -/
  update_sum_func : W → Bool × W

/-- A world together with the calls made on the collaborators so far. -/
structure Exec (W ι : Type) where
  world : W
  calls : List (Call ι)
  deriving DecidableEq, Repr

variable {W ι : Type}

/-- Values of `ha_rows` (an unsigned 64-bit integer) are taken modulo this. -/
def HA_ROWS_RANGE : Nat := 2 ^ 64

def m_source_Init (E : Env W ι) (x : Exec W ι) : Bool × Exec W ι :=
  let r := E.source_Init x.world
  (r.1, ⟨r.2, x.calls ++ [Call.source_Init r.1]⟩)

def m_source_Read (E : Env W ι) (x : Exec W ι) : Int × Exec W ι :=
  let r := E.source_Read x.world
  (r.1, ⟨r.2, x.calls ++ [Call.source_Read r.1]⟩)

def m_source_UnlockRow (E : Env W ι) (x : Exec W ι) : Exec W ι :=
  ⟨E.source_UnlockRow x.world, x.calls ++ [Call.source_UnlockRow]⟩

def m_condition_val_int (E : Env W ι) (x : Exec W ι) : Bool × Exec W ι :=
  let r := E.val_int x.world
  (r.1, ⟨r.2, x.calls ++ [Call.val_int r.1]⟩)

def thd_killed (E : Env W ι) (x : Exec W ι) : Bool × Exec W ι :=
  (E.killed x.world, ⟨x.world, x.calls ++ [Call.killed (E.killed x.world)]⟩)

def thd_send_kill_message (E : Env W ι) (x : Exec W ι) : Exec W ι :=
  ⟨E.send_kill_message x.world, x.calls ++ [Call.send_kill_message]⟩

def thd_is_error (E : Env W ι) (x : Exec W ι) : Bool × Exec W ι :=
  (E.is_error x.world, ⟨x.world, x.calls ++ [Call.is_error (E.is_error x.world)]⟩)

def join_set_ref_item_slice (E : Env W ι) (slice_num : Nat) (x : Exec W ι) : Exec W ι :=
  ⟨E.set_ref_item_slice slice_num x.world, x.calls ++ [Call.set_ref_item_slice slice_num]⟩

def slice_switch (E : Env W ι) (slice_num : Nat) (x : Exec W ι) : Exec W ι :=
  ⟨E.Switch_ref_item_slice slice_num x.world, x.calls ++ [Call.Switch_ref_item_slice slice_num]⟩

def slice_switch_leave (E : Env W ι) (x : Exec W ι) : Exec W ι :=
  ⟨E.Switch_ref_item_slice_leave x.world, x.calls ++ [Call.Switch_ref_item_slice_leave]⟩

def item_no_rows_in_result (E : Env W ι) (item : ι) (x : Exec W ι) : Exec W ι :=
  ⟨E.no_rows_in_result item x.world, x.calls ++ [Call.no_rows_in_result item]⟩

def join_clear_fields (E : Env W ι) (save_nullinfo : Nat) (x : Exec W ι) :
    Bool × Nat × Exec W ι :=
  let r := E.clear_fields save_nullinfo x.world
  (r.1, r.2.1, ⟨r.2.2, x.calls ++ [Call.clear_fields save_nullinfo r.1]⟩)

def join_restore_fields (E : Env W ι) (save_nullinfo : Nat) (x : Exec W ι) : Exec W ι :=
  ⟨E.restore_fields save_nullinfo x.world, x.calls ++ [Call.restore_fields save_nullinfo]⟩

def copy_fields (E : Env W ι) (x : Exec W ι) : Bool × Exec W ι :=
  let r := E.copy_fields x.world
  (r.1, ⟨r.2, x.calls ++ [Call.copy_fields r.1]⟩)

def update_item_cache_if_changed (E : Env W ι) (x : Exec W ι) : Int × Exec W ι :=
  let r := E.update_item_cache_if_changed x.world
  (r.1, ⟨r.2, x.calls ++ [Call.update_item_cache_if_changed r.1]⟩)

def init_sum_functions (E : Env W ι) (x : Exec W ι) : Bool × Exec W ι :=
  let r := E.init_sum_functions x.world
  (r.1, ⟨r.2, x.calls ++ [Call.init_sum_functions r.1]⟩)

def update_sum_func (E : Env W ι) (x : Exec W ι) : Bool × Exec W ι :=
  let r := E.update_sum_func x.world
  (r.1, ⟨r.2, x.calls ++ [Call.update_sum_func r.1]⟩)

/-- The helper `SwitchSlice(join, slice_num)`: switch only to a slice that is allocated. -/
def SwitchSlice (E : Env W ι) (slice_num : Nat) (x : Exec W ι) : Exec W ι :=
  if !E.ref_items_is_null x.world slice_num then
    join_set_ref_item_slice E slice_num x
  else
    x

/-- What a recorded call does to the world: the collaborator's own effect.
The reads of `thd()->killed` and `thd()->is_error()` leave the world as it is. -/
def Call.apply (E : Env W ι) : Call ι → W → W
  | Call.source_Init _, w => (E.source_Init w).2
  | Call.source_Read _, w => (E.source_Read w).2
  | Call.source_UnlockRow, w => E.source_UnlockRow w
  | Call.val_int _, w => (E.val_int w).2
  | Call.killed _, w => w
  | Call.send_kill_message, w => E.send_kill_message w
  | Call.is_error _, w => w
  | Call.set_ref_item_slice n, w => E.set_ref_item_slice n w
  | Call.Switch_ref_item_slice n, w => E.Switch_ref_item_slice n w
  | Call.Switch_ref_item_slice_leave, w => E.Switch_ref_item_slice_leave w
  | Call.no_rows_in_result item, w => E.no_rows_in_result item w
  | Call.clear_fields m _, w => (E.clear_fields m w).2.2
  | Call.restore_fields m, w => E.restore_fields m w
  | Call.copy_fields _, w => (E.copy_fields w).2
  | Call.update_item_cache_if_changed _, w => (E.update_item_cache_if_changed w).2
  | Call.init_sum_functions _, w => (E.init_sum_functions w).2
  | Call.update_sum_func _, w => (E.update_sum_func w).2

/-- The world after the collaborators have served the calls of `t` in turn. -/
def replay (E : Env W ι) (t : List (Call ι)) (w : W) : W :=
  t.foldl (fun v c => c.apply E v) w

/-! ## FilterIterator -/

/-- Method `FilterIterator::Read()`.  The `for (;;)` loop takes one unit of fuel per
child row; `none` means the fuel ran out before the loop returned. -/
def FilterIterator.Read (E : Env W ι) : Nat → Exec W ι → Option (Int × Exec W ι)
  | 0, _ => none
  | fuel + 1, x =>
    let r := m_source_Read E x
    if r.1 ≠ 0 then some (r.1, r.2)
    else
      let m := m_condition_val_int E r.2
      let k := thd_killed E m.2
      if k.1 then some (1, thd_send_kill_message E k.2)
      else
        let e := thd_is_error E k.2
        if e.1 then some (1, e.2)
        else if !m.1 then FilterIterator.Read E fuel (m_source_UnlockRow E e.2)
        else some (0, e.2)

/-- The calls of one round of the loop of `FilterIterator::Read()` that drops
the row it read. -/
def FilterIterator.rejected : List (Call ι) :=
  [Call.source_Read 0, Call.val_int false, Call.killed false, Call.is_error false,
    Call.source_UnlockRow]

/-- The calls of `k` rounds that drop their row. -/
def FilterIterator.rejections : Nat → List (Call ι)
  | 0 => []
  | k + 1 => FilterIterator.rejected ++ FilterIterator.rejections k

/-- The calls of the round in which `FilterIterator::Read()` returns, by the
status returned. -/
inductive FilterIterator.LastRound : Int → List (Call ι) → Prop where
  | child (err : Int) (h : err ≠ 0) : LastRound err [Call.source_Read err]
  | killed (matched : Bool) :
      LastRound 1 [Call.source_Read 0, Call.val_int matched, Call.killed true,
        Call.send_kill_message]
  | error (matched : Bool) :
      LastRound 1 [Call.source_Read 0, Call.val_int matched, Call.killed false,
        Call.is_error true]
  | row :
      LastRound 0 [Call.source_Read 0, Call.val_int true, Call.killed false,
        Call.is_error false]

/-! ## LimitOffsetIterator -/

/-- The fields of `LimitOffsetIterator`.  `m_skipped_rows` is the counter the
pointer of that name points to, `none` for `nullptr`. -/
structure LimitOffsetIterator where
  m_limit : Nat
  m_offset : Nat
  m_seen_rows : Nat
  m_skipped_rows : Option Nat
  deriving DecidableEq, Repr

/-- The skip loop of `LimitOffsetIterator::Init()`, with `remaining` being
`m_offset - row_idx`.  The result is what `Init()` returns from there. -/
def LimitOffsetIterator.skip (E : Env W ι) :
    Nat → LimitOffsetIterator → Exec W ι → Bool × LimitOffsetIterator × Exec W ι
  | 0, it, x => (false, { it with m_seen_rows := it.m_offset }, x)
  | remaining + 1, it, x =>
    let r := m_source_Read E x
    if r.1 = 1 then (true, it, r.2)
    else if r.1 = -1 then (false, { it with m_seen_rows := it.m_offset }, r.2)
    else
      let it1 := { it with
        m_skipped_rows := it.m_skipped_rows.map (fun c => (c + 1) % HA_ROWS_RANGE) }
      LimitOffsetIterator.skip E remaining it1 (m_source_UnlockRow E r.2)

/-- Method `LimitOffsetIterator::Init()`; `true` is failure. -/
def LimitOffsetIterator.Init (E : Env W ι) (it : LimitOffsetIterator) (x : Exec W ι) :
    Bool × LimitOffsetIterator × Exec W ι :=
  let r := m_source_Init E x
  if r.1 then (true, it, r.2)
  else LimitOffsetIterator.skip E it.m_offset it r.2

/-- Method `LimitOffsetIterator::Read()`: `m_seen_rows++ >= m_limit` compares the old
value and increments the unsigned 64-bit counter in either case. -/
def LimitOffsetIterator.Read (E : Env W ι) (it : LimitOffsetIterator) (x : Exec W ι) :
    Int × LimitOffsetIterator × Exec W ι :=
  let it1 := { it with m_seen_rows := (it.m_seen_rows + 1) % HA_ROWS_RANGE }
  if it.m_seen_rows ≥ it.m_limit then (-1, it1, x)
  else
    let r := m_source_Read E x
    (r.1, it1, r.2)

/-! ## AggregateIterator -/

/-- The fields of `AggregateIterator`. -/
structure AggregateIterator where
  m_first_row : Bool
  m_eof : Bool
  m_save_nullinfo : Nat
  m_input_slice : Nat
  deriving DecidableEq, Repr

/-- Method `AggregateIterator::Init()`; `true` is failure, and `none` is a violated
`DBUG_ASSERT`. -/
def AggregateIterator.Init (E : Env W ι) (it : AggregateIterator) (x : Exec W ι) :
    Option (Bool × AggregateIterator × Exec W ι) :=
  if E.precomputed_group_by x.world then none
  else
    let r := m_source_Init E x
    if r.1 then some (true, it, r.2)
    else
      some (false,
        { m_input_slice := E.get_ref_item_slice r.2.world,
          m_first_row := true, m_eof := false, m_save_nullinfo := 0 },
        r.2)

/-- The block of `AggregateIterator::Read()` that starts a new group; the
flag is `true` when `Read()` returns 1 from inside the block.  The scope guard
`slice_switch` is constructed on entry and destroyed when the block is left,
by its end or by a `return`. -/
def AggregateIterator.startGroup (E : Env W ι) (x : Exec W ι) : Bool × Exec W ι :=
  let x1 := slice_switch E E.REF_SLICE_ORDERED_GROUP_BY x
  let c := copy_fields E x1
  if c.1 then (true, slice_switch_leave E c.2)
  else
    let u := update_item_cache_if_changed E c.2
    let i := init_sum_functions E u.2
    if i.1 then (true, slice_switch_leave E i.2)
    else (false, slice_switch_leave E i.2)

/-- The `for (;;)` loop of `AggregateIterator::Read()` that reads the rows of
the current group; one unit of fuel per child row. -/
def AggregateIterator.readGroup (E : Env W ι) :
    Nat → AggregateIterator → Exec W ι → Option (Int × AggregateIterator × Exec W ι)
  | 0, _, _ => none
  | fuel + 1, it, x =>
    let r := m_source_Read E x
    if r.1 = 1 then some (1, it, r.2)
    else if r.1 = -1 then
      some (0, { it with m_eof := true }, SwitchSlice E E.REF_SLICE_ORDERED_GROUP_BY r.2)
    else
      let u := update_item_cache_if_changed E r.2
      if u.1 ≥ 0 then some (0, it, SwitchSlice E E.REF_SLICE_ORDERED_GROUP_BY u.2)
      else
        let s := update_sum_func E u.2
        if s.1 then some (1, it, s.2)
        else AggregateIterator.readGroup E fuel it s.2

/-- The part of `AggregateIterator::Read()` from the start of a new group on. -/
def AggregateIterator.newGroup (E : Env W ι) (fuel : Nat) (it : AggregateIterator)
    (x : Exec W ι) : Option (Int × AggregateIterator × Exec W ι) :=
  let g := AggregateIterator.startGroup E x
  if g.1 then some (1, it, g.2)
  else AggregateIterator.readGroup E fuel it g.2

/-- Method `AggregateIterator::Read()`. -/
def AggregateIterator.Read (E : Env W ι) (fuel : Nat) (it : AggregateIterator)
    (x : Exec W ι) : Option (Int × AggregateIterator × Exec W ι) :=
  if it.m_eof then
    if it.m_save_nullinfo ≠ 0 then
      some (-1, { it with m_save_nullinfo := 0 }, join_restore_fields E it.m_save_nullinfo x)
    else some (-1, it, x)
  else
    let x1 := SwitchSlice E it.m_input_slice x
    if it.m_first_row then
      let it1 := { it with m_first_row := false }
      let r := m_source_Read E x1
      if r.1 = -1 then
        let it2 := { it1 with m_eof := true }
        if E.grouped r.2.world || E.group_optimized_away r.2.world then some (-1, it2, r.2)
        else
          let x3 := (E.get_current_fields r.2.world).foldl
            (fun y item => item_no_rows_in_result E item y) r.2
          let c := join_clear_fields E it2.m_save_nullinfo x3
          let it3 := { it2 with m_save_nullinfo := c.2.1 }
          if c.1 then some (1, it3, c.2.2)
          else some (0, it3, c.2.2)
      else if r.1 ≠ 0 then some (r.1, it1, r.2)
      else AggregateIterator.newGroup E fuel it1 r.2
    else AggregateIterator.newGroup E fuel it x1

/-- Method `AggregateIterator::UnlockRow()`: an empty body. -/
def AggregateIterator.UnlockRow (_E : Env W ι) (it : AggregateIterator) (x : Exec W ι) :
    AggregateIterator × Exec W ι :=
  (it, x)

/-! ## PrecomputedAggregateIterator -/

/-- Method `PrecomputedAggregateIterator::Init()`; `none` is a violated `DBUG_ASSERT`. -/
def PrecomputedAggregateIterator.Init (E : Env W ι) (x : Exec W ι) :
    Option (Bool × Exec W ι) :=
  if !E.precomputed_group_by x.world then none
  else if !(E.grouped x.world || E.group_optimized_away x.world) then none
  else some (m_source_Init E x)

/-- Method `PrecomputedAggregateIterator::Read()`. -/
def PrecomputedAggregateIterator.Read (E : Env W ι) (x : Exec W ι) : Int × Exec W ι :=
  let r := m_source_Read E x
  if r.1 ≠ 0 then (r.1, r.2)
  else
    let c := copy_fields E r.2
    if c.1 then (1, c.2)
    else (0, SwitchSlice E E.REF_SLICE_ORDERED_GROUP_BY c.2)

/-- Method `PrecomputedAggregateIterator::UnlockRow()`: an empty body. -/
def PrecomputedAggregateIterator.UnlockRow (_E : Env W ι) (x : Exec W ι) : Exec W ι :=
  x

/-- The calls `t` of one `Read()` that returned `st` pass an error of the
child through: a child `Read()` that returned 1 is followed by no call at
all, and the status is then 1. -/
def ChildErrorEndsRead (st : Int) (t : List (Call ι)) : Prop :=
  ∀ pre post, t = pre ++ Call.source_Read 1 :: post → post = [] ∧ st = 1

/-- The child keeps returning -1 once it has returned -1: `Done` holds of the
world after a child `Read()` that returned -1, and in a world where `Done`
holds the child's `Read()` returns -1 and `Done` holds again. -/
structure StickyChild (E : Env W ι) (Done : W → Prop) : Prop where
  enters : ∀ w, (E.source_Read w).1 = -1 → Done (E.source_Read w).2
  stays : ∀ w, Done w → (E.source_Read w).1 = -1 ∧ Done (E.source_Read w).2

/-! ## Driving an iterator -/

/-- Calls `read` until it returns a status other than 0 and collects `out` of
the state after every call that returned 0.  The result is the rows put out,
the status that ended the run and the state then; `none` means that the fuel
(one unit per call) ran out first. -/
def drain {S β : Type} (read : S → Option (Int × S)) (out : S → β) :
    Nat → S → Option (List β × Int × S)
  | 0, _ => none
  | fuel + 1, s =>
    match read s with
    | none => none
    | some (st, s1) =>
      if st = 0 then
        match drain read out fuel s1 with
        | none => none
        | some (rows, r) => some (out s1 :: rows, r)
      else some ([], st, s1)

/-- One round of `drain` whose first call is `read0` instead of `read`. -/
def drainFrom {S β : Type} (read0 read : S → Option (Int × S)) (out : S → β)
    (fuel : Nat) (s : S) : Option (List β × Int × S) :=
  match read0 s with
  | none => none
  | some (st, s1) =>
    if st = 0 then
      match drain read out fuel s1 with
      | none => none
      | some (rows, r) => some (out s1 :: rows, r)
    else some ([], st, s1)

/-- Calls `read` exactly `n` times, whatever the statuses, and lists the
statuses returned; `none` means that one of the calls ran out of fuel. -/
def readSeq {S : Type} (read : S → Option (Int × S)) : Nat → S → Option (List Int × S)
  | 0, s => some ([], s)
  | n + 1, s =>
    match read s with
    | none => none
    | some (st, s1) =>
      match readSeq read n s1 with
      | none => none
      | some (sts, s2) => some (st :: sts, s2)

/-- The step `LimitOffsetIterator::Read()` as a function of the whole state. -/
def LimitOffsetIterator.step (E : Env W ι) (s : LimitOffsetIterator × Exec W ι) :
    Option (Int × LimitOffsetIterator × Exec W ι) :=
  some (LimitOffsetIterator.Read E s.1 s.2)

/-- The step `AggregateIterator::Read()` as a function of the whole state. -/
def AggregateIterator.step (E : Env W ι) (fuel : Nat) (s : AggregateIterator × Exec W ι) :
    Option (Int × AggregateIterator × Exec W ι) :=
  AggregateIterator.Read E fuel s.1 s.2

/-! ## A world with a finite child stream

The child hands out the rows of `input`, one per `Read()`, then returns the
status `after` once, and goes on in the same way with the rows of `later`.
With `later` empty it returns `after` for ever once `input` is used up.
`row` is the row buffer the child reads into. -/

/-- The state of the simulated collaborators. -/
structure Sim (α κ : Type) where
  /-- Rows the child has not returned yet. -/
  input : List α
  /-- Status of the child once `input` is used up. -/
  after : Int
  /-- Rows the child returns after it has returned `after`. -/
  later : List α
  /-- The row read last. -/
  row : Option α
  killed : Bool
  is_error : Bool
  /-- The active slice. -/
  slice : Nat
  /-- The slice a live scope guard will set again. -/
  saved_slice : Nat
  /-- The row whose fields `copy_fields` copied last. -/
  group_row : Option α
  /-- The cached group key. -/
  cache : Option κ
  /-- The accumulator of COUNT. -/
  count : Nat
  /-- Set while the table columns are marked NULL. -/
  null_row : Bool
  deriving DecidableEq, Repr

/-- The world before the first call: a child about to return `rows` and then
-1 for ever. -/
def Sim.start {α κ : Type} (rows : List α) : Sim α κ :=
  { input := rows, after := -1, later := [], row := none, killed := false, is_error := false,
    slice := 0, saved_slice := 0, group_row := none, cache := none, count := 0, null_row := false }

/-- The simulated collaborators: a child over a list of rows, a condition
`pred` on the row read last, group key `key` and a COUNT accumulator. -/
def simEnv {α κ : Type} [DecidableEq κ] (key : α → κ) (pred : α → Bool) (grouped : Bool) :
    Env (Sim α κ) Unit where
  source_Init := fun w => (false, w)
  source_Read := fun w =>
    match w.input with
    | [] => (w.after, { w with input := w.later, later := [] })
    | r :: rs => (0, { w with input := rs, row := some r })
  source_UnlockRow := fun w => w
  val_int := fun w => (match w.row with
    | some r => pred r
    | none => false, w)
  killed := fun w => w.killed
  send_kill_message := fun w => w
  is_error := fun w => w.is_error
  ref_items_is_null := fun _ _ => false
  set_ref_item_slice := fun n w => { w with slice := n }
  get_ref_item_slice := fun w => w.slice
  Switch_ref_item_slice := fun n w => { w with saved_slice := w.slice, slice := n }
  Switch_ref_item_slice_leave := fun w => { w with slice := w.saved_slice }
  REF_SLICE_ORDERED_GROUP_BY := 3
  precomputed_group_by := fun _ => false
  grouped := fun _ => grouped
  group_optimized_away := fun _ => false
  get_current_fields := fun _ => [()]
  no_rows_in_result := fun _ w => { w with count := 0 }
  clear_fields := fun m w => (false, m ||| 1, { w with null_row := true })
  restore_fields := fun _ w => { w with null_row := false }
  copy_fields := fun w => (false, { w with group_row := w.row })
  update_item_cache_if_changed := fun w =>
    if w.cache = w.row.map key then (-1, w) else (0, { w with cache := w.row.map key })
  init_sum_functions := fun w => (false, { w with count := 1 })
  update_sum_func := fun w => (false, { w with count := w.count + 1 })

/-- The calls `FilterIterator` makes while it drains a child that returns
`rows`: for each row the child read, the condition, the two checks of the
session and, for a row that does not match, `UnlockRow()`; at the end the
child read that returns -1. -/
def filterCalls {α : Type} (pred : α → Bool) : List α → List (Call Unit)
  | [] => [Call.source_Read (-1)]
  | r :: rs =>
    [Call.source_Read 0, Call.val_int (pred r), Call.killed false, Call.is_error false]
      ++ (if pred r then [] else [Call.source_UnlockRow]) ++ filterCalls pred rs

/-- The runs still to come when `AggregateIterator` is inside the group that
started with row `g`, has counted `c` rows of it and the child has yet to
return `rows`: each run with its first row and its length. -/
def runsFrom {α κ : Type} [DecidableEq κ] (key : α → κ) : α → Nat → List α → List (α × Nat)
  | g, c, [] => [(g, c)]
  | g, c, r :: rs =>
    if key r = key g then runsFrom key g (c + 1) rs else (g, c) :: runsFrom key r 1 rs

/-- What `AggregateIterator` puts out for a row: the row whose fields
`copy_fields` copied, and the value of the COUNT accumulator. -/
def countOut {α κ : Type} (s : AggregateIterator × Exec (Sim α κ) Unit) : Option α × Nat :=
  (s.2.world.group_row, s.2.world.count)

/-- The world is inside the group that started with row `g`, with `c` rows of
it counted and `rs` still to be returned by the child. -/
def InGroup {α κ : Type} (key : α → κ) (g : α) (c : Nat) (rs : List α) (w : Sim α κ) : Prop :=
  w.input = rs ∧ w.after = -1 ∧ w.cache = some (key g) ∧ w.group_row = some g ∧ w.count = c

/-- The states of `AggregateIterator` that can be reached: by a successful
`Init()` from any state, and from a reachable state by `Read()` (with any
fuel, whatever it returns) or by `UnlockRow()`. -/
inductive AggregateIterator.Reachable (E : Env W ι) :
    AggregateIterator × Exec W ι → Prop where
  | init (it0 it : AggregateIterator) (x0 x : Exec W ι)
      (h : AggregateIterator.Init E it0 x0 = some (false, it, x)) : Reachable E (it, x)
  | read (fuel : Nat) (st : Int) (it it1 : AggregateIterator) (x x1 : Exec W ι)
      (hr : Reachable E (it, x))
      (h : AggregateIterator.Read E fuel it x = some (st, it1, x1)) : Reachable E (it1, x1)
  | unlock (it : AggregateIterator) (x : Exec W ι) (hr : Reachable E (it, x)) :
      Reachable E (AggregateIterator.UnlockRow E it x)

/-- The calls of the skip loop of `LimitOffsetIterator::Init()` for rows read
with the statuses `es`: a `Read()` and an `UnlockRow()` on the child for each. -/
def skipCalls : List Int → List (Call ι)
  | [] => []
  | e :: es => Call.source_Read e :: Call.source_UnlockRow :: skipCalls es

/-- The number of rows the child in world `w` returns before its first status
other than 0, when each row is unlocked after it is read; `none` when the
first `fuel` statuses are all 0. -/
def rowsBeforeStop (E : Env W ι) : Nat → W → Option Nat
  | 0, _ => none
  | fuel + 1, w =>
    let r := E.source_Read w
    if r.1 = 0 then (rowsBeforeStop E fuel (E.source_UnlockRow r.2)).map (fun n => n + 1)
    else some 0

/-- The step `PrecomputedAggregateIterator::Read()` as a function of the whole state. -/
def PrecomputedAggregateIterator.step (E : Env W ι) (x : Exec W ι) :
    Option (Int × Exec W ι) :=
  some (PrecomputedAggregateIterator.Read E x)

/-! ## The slice registry

`JOIN::ref_items`, `Ref_item_array::is_null()` and `JOIN::set_ref_item_slice()`
are used by `SwitchSlice` and declared outside `composite_iterators.cc`. -/

/-- Modelled from the spec: the slice registry, an indexed arena of buffers
(`ref_items`, with `none` for a slice that is not allocated, so for which
`is_null()` holds) and the index of the active slice. -/
structure JOIN (σ : Type) where
  ref_items : Nat → Option (List σ)
  current_ref_item_slice : Nat

/-- Modelled from the spec: `set_ref_item_slice(sliceno)` is a pure change of the
index of the active slice, with no copy of data. -/
def JOIN.set_ref_item_slice {σ : Type} (sliceno : Nat) (join : JOIN σ) : JOIN σ :=
  { join with current_ref_item_slice := sliceno }

/-- The call is a `Read()` on the child. -/
def Call.isRead : Call ι → Bool
  | Call.source_Read _ => true
  | _ => false

/-- The call is a `Read()` on the child or one that counts a row into the
accumulators: `init_sum_functions` or `update_sum_func`. -/
def Call.isReadOrCount : Call ι → Bool
  | Call.source_Read _ => true
  | Call.init_sum_functions _ => true
  | Call.update_sum_func _ => true
  | _ => false

/-- The calls `AggregateIterator` makes from inside the loop of a `Read()` for
the group that started with row `g`, with the child still to return `rows`,
until a `Read()` returns -1; `sl` is the input slice.  A row of the same group
is counted by `update_sum_func`; a row with another key ends the `Read()`, and
the next `Read()` starts the group of that row before it reads on. -/
def aggCalls {α κ : Type} [DecidableEq κ] (key : α → κ) (sl : Nat) :
    α → List α → List (Call Unit)
  | _, [] => [Call.source_Read (-1), Call.set_ref_item_slice 3]
  | g, r :: rs =>
    if key r = key g then
      [Call.source_Read 0, Call.update_item_cache_if_changed (-1), Call.update_sum_func false]
        ++ aggCalls key sl g rs
    else
      [Call.source_Read 0, Call.update_item_cache_if_changed 0, Call.set_ref_item_slice 3,
        Call.set_ref_item_slice sl, Call.Switch_ref_item_slice 3, Call.copy_fields false,
        Call.update_item_cache_if_changed (-1), Call.init_sum_functions false,
        Call.Switch_ref_item_slice_leave] ++ aggCalls key sl r rs

/-- The calls `AggregateIterator` makes after `Init()` until a `Read()`
returns -1, over a child that returns `rows` and then -1. -/
def aggDrainCalls {α κ : Type} [DecidableEq κ] (key : α → κ) (sl : Nat) (grouped : Bool) :
    List α → List (Call Unit)
  | [] =>
    [Call.set_ref_item_slice sl, Call.source_Read (-1)]
      ++ (if grouped then []
          else [Call.no_rows_in_result (), Call.clear_fields 0 false, Call.restore_fields 1])
  | r :: rs =>
    [Call.set_ref_item_slice sl, Call.source_Read 0, Call.Switch_ref_item_slice 3,
      Call.copy_fields false, Call.update_item_cache_if_changed 0,
      Call.init_sum_functions false, Call.Switch_ref_item_slice_leave]
      ++ aggCalls key sl r rs

/-- For a child that returns `rows` and then -1: each `Read()` on the child
that returns a row, followed by the one call that counts the row, which is
`update_sum_func` when the row has the key `prev` of the row before it and
`init_sum_functions` when it starts a group; then the `Read()` that returns -1. -/
def countEvents {α κ : Type} [DecidableEq κ] (key : α → κ) :
    Option κ → List α → List (Call Unit)
  | _, [] => [Call.source_Read (-1)]
  | prev, r :: rs =>
    Call.source_Read 0
      :: (if prev = some (key r) then Call.update_sum_func false
          else Call.init_sum_functions false)
      :: countEvents key (some (key r)) rs

/-! ## Rounds of the loops

The states a loop passes through before the round in which it returns, read
off the body of the loop: what makes a round go on to the next one, and the
calls such a round makes. -/

/-- The round of the loop of `FilterIterator::Read()` that starts in `x` reaches
`continue`: the child returned 0, neither `thd()->killed` nor
`thd()->is_error()` was set after the condition was evaluated, and the row did
not match. -/
def FilterIterator.drops (E : Env W ι) (x : Exec W ι) : Bool :=
  let r := m_source_Read E x
  let m := m_condition_val_int E r.2
  let k := thd_killed E m.2
  let e := thd_is_error E k.2
  decide (r.1 = 0) && !k.1 && !e.1 && !m.1

/-- The state after a round of the loop of `FilterIterator::Read()` that
reaches `continue`: after `UnlockRow()` on the child. -/
def FilterIterator.dropRow (E : Env W ι) (x : Exec W ι) : Exec W ι :=
  let r := m_source_Read E x
  let m := m_condition_val_int E r.2
  let k := thd_killed E m.2
  let e := thd_is_error E k.2
  m_source_UnlockRow E e.2

/-- The state after `k` rounds of the loop of `FilterIterator::Read()` that each
reach `continue`; `none` when one of them does not. -/
def FilterIterator.afterDrops (E : Env W ι) : Nat → Exec W ι → Option (Exec W ι)
  | 0, x => some x
  | k + 1, x =>
    if FilterIterator.drops E x then
      FilterIterator.afterDrops E k (FilterIterator.dropRow E x)
    else none

/-- The round of the `for (;;)` loop of `AggregateIterator::Read()` that starts
in `x` goes on to the next round: the child returned neither 1 nor -1,
`update_item_cache_if_changed` returned a negative index and `update_sum_func`
did not fail. -/
def AggregateIterator.adds (E : Env W ι) (x : Exec W ι) : Bool :=
  let r := m_source_Read E x
  let u := update_item_cache_if_changed E r.2
  let s := update_sum_func E u.2
  decide (r.1 ≠ 1) && decide (r.1 ≠ -1) && decide (u.1 < 0) && !s.1

/-- The state after a round of the `for (;;)` loop of `AggregateIterator::Read()`
that goes on to the next round: after `update_sum_func`. -/
def AggregateIterator.addRow (E : Env W ι) (x : Exec W ι) : Exec W ι :=
  let r := m_source_Read E x
  let u := update_item_cache_if_changed E r.2
  (update_sum_func E u.2).2

/-- The state after `k` rounds of the `for (;;)` loop of
`AggregateIterator::Read()` that each go on to the next round; `none` when one
of them does not. -/
def AggregateIterator.afterAdds (E : Env W ι) : Nat → Exec W ι → Option (Exec W ι)
  | 0, x => some x
  | k + 1, x =>
    if AggregateIterator.adds E x then
      AggregateIterator.afterAdds E k (AggregateIterator.addRow E x)
    else none

/-! # Theorems -/

theorem drain_succ {S β : Type} (read : S → Option (Int × S)) (out : S → β)
    (fuel : Nat) (s : S) :
    drain read out (fuel + 1) s = drainFrom read read out fuel s := rfl

/-! ## FilterIterator over a finite child stream -/

theorem FilterIterator.Read_sim_nil {α κ : Type} [DecidableEq κ] (key : α → κ)
    (pred : α → Bool) (grouped : Bool) (f : Nat) (w : Sim α κ) (cs : List (Call Unit))
    (hin : w.input = []) (haf : w.after ≠ 0) :
    FilterIterator.Read (simEnv key pred grouped) (f + 1) ⟨w, cs⟩
      = some (w.after,
          ⟨{ w with input := w.later, later := [] }, cs ++ [Call.source_Read w.after]⟩) := by
  simp [FilterIterator.Read, m_source_Read, simEnv, hin, haf]

theorem FilterIterator.Read_sim_match {α κ : Type} [DecidableEq κ] (key : α → κ)
    (pred : α → Bool) (grouped : Bool) (f : Nat) (w : Sim α κ) (cs : List (Call Unit))
    (r : α) (rs : List α) (hin : w.input = r :: rs) (hk : w.killed = false)
    (he : w.is_error = false) (hp : pred r = true) :
    FilterIterator.Read (simEnv key pred grouped) (f + 1) ⟨w, cs⟩
      = some (0, ⟨{ w with input := rs, row := some r },
          cs ++ [Call.source_Read 0, Call.val_int true, Call.killed false,
            Call.is_error false]⟩) := by
  simp [FilterIterator.Read, m_source_Read, m_condition_val_int, thd_killed,
    thd_is_error, simEnv, hin, hk, he, hp]

theorem FilterIterator.Read_sim_reject {α κ : Type} [DecidableEq κ] (key : α → κ)
    (pred : α → Bool) (grouped : Bool) (f : Nat) (w : Sim α κ) (cs : List (Call Unit))
    (r : α) (rs : List α) (hin : w.input = r :: rs) (hk : w.killed = false)
    (he : w.is_error = false) (hp : pred r = false) :
    FilterIterator.Read (simEnv key pred grouped) (f + 1) ⟨w, cs⟩
      = FilterIterator.Read (simEnv key pred grouped) f
          ⟨{ w with input := rs, row := some r },
            cs ++ [Call.source_Read 0, Call.val_int false, Call.killed false,
              Call.is_error false, Call.source_UnlockRow]⟩ := by
  simp [FilterIterator.Read, m_source_Read, m_condition_val_int, thd_killed,
    thd_is_error, m_source_UnlockRow, simEnv, hin, hk, he, hp]

theorem FilterIterator.filter_drainFrom_sim {α κ : Type} [DecidableEq κ] (key : α → κ)
    (pred : α → Bool) (grouped : Bool) (F : Nat) :
    ∀ (rows : List α) (f1 f2 : Nat) (w : Sim α κ) (cs : List (Call Unit)),
      rows.length < F → rows.length < f1 → rows.length ≤ f2 →
      w.input = rows → w.after = -1 → w.killed = false → w.is_error = false →
      ∃ x, drainFrom (FilterIterator.Read (simEnv key pred grouped) f1)
            (FilterIterator.Read (simEnv key pred grouped) F)
            (fun y => y.world.row) f2 ⟨w, cs⟩
          = some ((rows.filter pred).map some, -1, x)
        ∧ x.calls = cs ++ filterCalls pred rows := by
  intro rows
  induction rows with
  | nil =>
    intro f1 f2 w cs _ h1 _ hin haf _ _
    obtain ⟨f1, rfl⟩ : ∃ n, f1 = n + 1 := ⟨f1 - 1, by omega⟩
    refine ⟨⟨{ w with input := w.later, later := [] }, cs ++ [Call.source_Read (-1)]⟩, ?_, ?_⟩
    · rw [drainFrom, FilterIterator.Read_sim_nil _ _ _ _ _ _ hin (by simp [haf])]
      simp [haf]
    · simp [filterCalls]
  | cons r rs ih =>
    intro f1 f2 w cs hF h1 h2 hin haf hk he
    simp only [List.length_cons] at hF h1 h2
    obtain ⟨f1, rfl⟩ : ∃ n, f1 = n + 1 := ⟨f1 - 1, by omega⟩
    by_cases hp : pred r = true
    · obtain ⟨f2, rfl⟩ : ∃ n, f2 = n + 1 := ⟨f2 - 1, by omega⟩
      obtain ⟨x, hx, hc⟩ := ih F f2 { w with input := rs, row := some r }
        (cs ++ [Call.source_Read 0, Call.val_int true, Call.killed false,
          Call.is_error false]) (by omega) (by omega) (by omega) rfl haf hk he
      refine ⟨x, ?_, ?_⟩
      · rw [drainFrom, FilterIterator.Read_sim_match _ _ _ _ _ _ r rs hin hk he hp]
        simp only [if_true]
        rw [drain_succ, hx]
        simp [hp]
      · simp [hc, filterCalls, hp]
    · simp only [Bool.not_eq_true] at hp
      obtain ⟨x, hx, hc⟩ := ih f1 f2 { w with input := rs, row := some r }
        (cs ++ [Call.source_Read 0, Call.val_int false, Call.killed false,
          Call.is_error false, Call.source_UnlockRow]) (by omega) (by omega) (by omega)
        rfl haf hk he
      refine ⟨x, ?_, ?_⟩
      · rw [drainFrom, FilterIterator.Read_sim_reject _ _ _ _ _ _ r rs hin hk he hp]
        rw [drainFrom] at hx
        rw [hx]
        simp [hp]
      · simp [hc, filterCalls, hp]

/-- C3: over a child that returns the rows of a finite list and then -1
(whatever it would return after that), with the kill flag and the error flag
clear, draining `FilterIterator` puts out exactly the rows on which the
condition holds, in the order of the child, and then returns -1.  The calls
made are exactly `filterCalls`: after each child row that does not match one
`UnlockRow()` on the child, before the next `Read()` of the child, and no
`UnlockRow()` after a row that is returned. -/
theorem C3_filter_subsequence_and_unlock {α κ : Type} [DecidableEq κ] (key : α → κ)
    (pred : α → Bool) (grouped : Bool) (rows later : List α) (fuel : Nat)
    (hfuel : rows.length < fuel) :
    ∃ x, drain (FilterIterator.Read (simEnv key pred grouped) fuel)
          (fun y => y.world.row) fuel ⟨{ Sim.start rows with later := later }, []⟩
        = some ((rows.filter pred).map some, -1, x)
      ∧ x.calls = filterCalls pred rows := by
  obtain ⟨f, rfl⟩ : ∃ n, fuel = n + 1 := ⟨fuel - 1, by omega⟩
  obtain ⟨x, hx, hc⟩ := FilterIterator.filter_drainFrom_sim key pred grouped (f + 1) rows
    (f + 1) f { Sim.start rows with later := later } [] hfuel hfuel (by omega) rfl rfl rfl rfl
  exact ⟨x, by rw [drain_succ, hx], by simpa using hc⟩

theorem C3_filter_subsequence_and_unlock_witness :
    ∃ x, drain (FilterIterator.Read (simEnv (fun n : Nat => n) (fun n => n % 2 == 0) false) 6)
          (fun y => y.world.row) 6 ⟨{ Sim.start [1, 2, 3, 4, 5] with later := [6] }, []⟩
        = some ([some 2, some 4], -1, x)
      ∧ x.calls = filterCalls (fun n => n % 2 == 0) [1, 2, 3, 4, 5] :=
  C3_filter_subsequence_and_unlock (fun n : Nat => n) (fun n => n % 2 == 0) false
    [1, 2, 3, 4, 5] [6] 6 (by decide)

/-! ## LimitOffsetIterator over a finite child stream -/

theorem LimitOffsetIterator.skip_sim {α κ : Type} [DecidableEq κ] (key : α → κ)
    (pred : α → Bool) (grouped : Bool) :
    ∀ (k : Nat) (rows : List α) (it : LimitOffsetIterator) (w : Sim α κ)
      (cs : List (Call Unit)),
      w.input = rows → w.after = -1 → w.later = [] →
      ∃ it1 x1, LimitOffsetIterator.skip (simEnv key pred grouped) k it ⟨w, cs⟩
          = (false, it1, x1)
        ∧ it1.m_limit = it.m_limit ∧ it1.m_offset = it.m_offset
        ∧ it1.m_seen_rows = it.m_offset
        ∧ ((∀ c ∈ it.m_skipped_rows, c < HA_ROWS_RANGE) →
            it1.m_skipped_rows
              = it.m_skipped_rows.map (fun c => (c + min k rows.length) % HA_ROWS_RANGE))
        ∧ x1.world.input = rows.drop k ∧ x1.world.after = -1 ∧ x1.world.later = [] := by
  intro k
  induction k with
  | zero =>
    intro rows it w cs hin haf hla
    refine ⟨_, _, rfl, rfl, rfl, rfl, ?_, by simpa using hin, haf, hla⟩
    intro hc
    cases hm : it.m_skipped_rows with
    | none => rfl
    | some c =>
      have := hc c (by simp [hm])
      simp [Nat.mod_eq_of_lt this]
  | succ k ih =>
    intro rows it w cs hin haf hla
    cases rows with
    | nil =>
      refine ⟨{ it with m_seen_rows := it.m_offset },
        ⟨{ w with input := w.later, later := [] }, cs ++ [Call.source_Read (-1)]⟩,
        ?_, rfl, rfl, rfl, ?_, by simpa using hla, haf, rfl⟩
      · simp [LimitOffsetIterator.skip, m_source_Read, simEnv, hin, haf]
      · intro hc
        cases hm : it.m_skipped_rows with
        | none => rfl
        | some c =>
          have := hc c (by simp [hm])
          simp [Nat.mod_eq_of_lt this]
    | cons r rs =>
      obtain ⟨it1, x1, h, h1, h2, h3, h4, h5, h6, h7⟩ := ih rs
        { it with m_skipped_rows := it.m_skipped_rows.map (fun c => (c + 1) % HA_ROWS_RANGE) }
        { w with input := rs, row := some r }
        (cs ++ [Call.source_Read 0, Call.source_UnlockRow]) rfl haf hla
      refine ⟨it1, x1, ?_, h1, h2, h3, ?_, by simpa using h5, h6, h7⟩
      · simp [LimitOffsetIterator.skip, m_source_Read, m_source_UnlockRow, simEnv, hin]
        simpa [simEnv] using h
      · intro _
        rw [h4 (by
          intro c hc1
          simp only [Option.mem_def, Option.map_eq_some'] at hc1
          obtain ⟨a, _, rfl⟩ := hc1
          exact Nat.mod_lt _ (by decide))]
        cases it.m_skipped_rows with
        | none => rfl
        | some c =>
          simp only [Option.map_some', List.length_cons, Nat.add_min_add_right]
          congr 1
          rw [Nat.mod_add_mod]
          congr 1
          omega

theorem drain_stop {S β : Type} (read : S → Option (Int × S)) (out : S → β)
    (fuel : Nat) (s s1 : S) (st : Int) (h : read s = some (st, s1)) (hst : st ≠ 0) :
    drain read out (fuel + 1) s = some ([], st, s1) := by
  simp [drain, h, hst]

theorem drain_row {S β : Type} (read : S → Option (Int × S)) (out : S → β)
    (fuel : Nat) (s s1 : S) (rows : List β) (r : Int × S) (h : read s = some (0, s1))
    (hrest : drain read out fuel s1 = some (rows, r)) :
    drain read out (fuel + 1) s = some (out s1 :: rows, r) := by
  simp [drain, h, hrest]

theorem LimitOffsetIterator.Read_at_limit (E : Env W ι) (it : LimitOffsetIterator)
    (x : Exec W ι) (h : it.m_limit ≤ it.m_seen_rows) :
    LimitOffsetIterator.Read E it x
      = (-1, { it with m_seen_rows := (it.m_seen_rows + 1) % HA_ROWS_RANGE }, x) := by
  simp [LimitOffsetIterator.Read, h]

theorem LimitOffsetIterator.Read_below_limit (E : Env W ι) (it : LimitOffsetIterator)
    (x : Exec W ι) (h : it.m_seen_rows < it.m_limit) :
    LimitOffsetIterator.Read E it x
      = ((m_source_Read E x).1,
          { it with m_seen_rows := (it.m_seen_rows + 1) % HA_ROWS_RANGE },
          (m_source_Read E x).2) := by
  simp [LimitOffsetIterator.Read, Nat.not_le.mpr h]

theorem m_source_Read_sim_nil {α κ : Type} [DecidableEq κ] (key : α → κ)
    (pred : α → Bool) (grouped : Bool) (w : Sim α κ) (cs : List (Call Unit)) (st : Int)
    (hin : w.input = []) (haf : w.after = st) :
    m_source_Read (simEnv key pred grouped) ⟨w, cs⟩
      = (st, ⟨{ w with input := w.later, later := [] }, cs ++ [Call.source_Read st]⟩) := by
  simp [m_source_Read, simEnv, hin, haf]

theorem m_source_Read_sim_cons {α κ : Type} [DecidableEq κ] (key : α → κ)
    (pred : α → Bool) (grouped : Bool) (w : Sim α κ) (cs : List (Call Unit))
    (r : α) (rs : List α) (hin : w.input = r :: rs) :
    m_source_Read (simEnv key pred grouped) ⟨w, cs⟩
      = (0, ⟨{ w with input := rs, row := some r }, cs ++ [Call.source_Read 0]⟩) := by
  simp [m_source_Read, simEnv, hin]

theorem LimitOffsetIterator.step_at_limit (E : Env W ι) (it : LimitOffsetIterator)
    (x : Exec W ι) (h : it.m_limit ≤ it.m_seen_rows) :
    LimitOffsetIterator.step E (it, x)
      = some (-1, { it with m_seen_rows := (it.m_seen_rows + 1) % HA_ROWS_RANGE }, x) := by
  rw [LimitOffsetIterator.step, LimitOffsetIterator.Read_at_limit E it x h]

theorem LimitOffsetIterator.step_below_limit (E : Env W ι) (it : LimitOffsetIterator)
    (x : Exec W ι) (h : it.m_seen_rows < it.m_limit) :
    LimitOffsetIterator.step E (it, x)
      = some ((m_source_Read E x).1,
          { it with m_seen_rows := (it.m_seen_rows + 1) % HA_ROWS_RANGE },
          (m_source_Read E x).2) := by
  rw [LimitOffsetIterator.step, LimitOffsetIterator.Read_below_limit E it x h]

theorem LimitOffsetIterator.drain_sim {α κ : Type} [DecidableEq κ] (key : α → κ)
    (pred : α → Bool) (grouped : Bool) :
    ∀ (rest : List α) (j fuel : Nat) (it : LimitOffsetIterator) (w : Sim α κ)
      (cs : List (Call Unit)),
      w.input = rest → w.after = -1 → it.m_seen_rows + j = it.m_limit →
      it.m_limit < HA_ROWS_RANGE → rest.length < fuel →
      ∃ s, drain (LimitOffsetIterator.step (simEnv key pred grouped))
          (fun s => s.2.world.row) fuel (it, ⟨w, cs⟩)
        = some ((rest.take j).map some, -1, s) := by
  intro rest
  induction rest with
  | nil =>
    intro j fuel it w cs hin haf hj hl hf
    obtain ⟨f, rfl⟩ : ∃ n, fuel = n + 1 := ⟨fuel - 1, by simp at hf; omega⟩
    rw [List.take_nil, List.map_nil]
    by_cases hlim : it.m_limit ≤ it.m_seen_rows
    · exact ⟨_, drain_stop _ _ _ _ _ (-1)
        (LimitOffsetIterator.step_at_limit _ it _ hlim) (by decide)⟩
    · have h := LimitOffsetIterator.step_below_limit (simEnv key pred grouped) it ⟨w, cs⟩
        (Nat.lt_of_not_le hlim)
      rw [m_source_Read_sim_nil _ _ _ _ _ (-1) hin haf] at h
      exact ⟨_, drain_stop _ _ _ _ _ (-1) h (by decide)⟩
  | cons r rs ih =>
    intro j fuel it w cs hin haf hj hl hf
    simp only [List.length_cons] at hf
    obtain ⟨f, rfl⟩ : ∃ n, fuel = n + 1 := ⟨fuel - 1, by omega⟩
    cases j with
    | zero =>
      rw [List.take_zero, List.map_nil]
      exact ⟨_, drain_stop _ _ _ _ _ (-1)
        (LimitOffsetIterator.step_at_limit _ it _ (by omega)) (by decide)⟩
    | succ j =>
      have hmod : (it.m_seen_rows + 1) % HA_ROWS_RANGE = it.m_seen_rows + 1 :=
        Nat.mod_eq_of_lt (by omega)
      obtain ⟨s, hs⟩ := ih j f { it with m_seen_rows := it.m_seen_rows + 1 }
        { w with input := rs, row := some r } (cs ++ [Call.source_Read 0]) rfl haf
        (by simp only; omega) hl (by omega)
      have h := LimitOffsetIterator.step_below_limit (simEnv key pred grouped) it ⟨w, cs⟩
        (by omega)
      rw [m_source_Read_sim_cons _ _ _ _ _ r rs hin, hmod] at h
      exact ⟨s, by rw [drain_row _ _ _ _ _ _ _ h hs]; rfl⟩

theorem LimitOffsetIterator.readSeq_sim_exhausted {α κ : Type} [DecidableEq κ]
    (key : α → κ) (pred : α → Bool) (grouped : Bool) :
    ∀ (k : Nat) (it : LimitOffsetIterator) (w : Sim α κ) (cs : List (Call Unit)),
      w.input = [] → w.after = -1 → w.later = [] →
      ∃ s, readSeq (LimitOffsetIterator.step (simEnv key pred grouped)) k (it, ⟨w, cs⟩)
        = some (List.replicate k (-1), s) := by
  intro k
  induction k with
  | zero => intro it w cs _ _ _; exact ⟨_, rfl⟩
  | succ k ih =>
    intro it w cs hin haf hla
    by_cases hlim : it.m_limit ≤ it.m_seen_rows
    · obtain ⟨s, hs⟩ := ih { it with m_seen_rows := (it.m_seen_rows + 1) % HA_ROWS_RANGE }
        w cs hin haf hla
      exact ⟨s, by
        simp only [readSeq, LimitOffsetIterator.step_at_limit _ it _ hlim, hs,
          List.replicate_succ]⟩
    · have h := LimitOffsetIterator.step_below_limit (simEnv key pred grouped) it ⟨w, cs⟩
        (Nat.lt_of_not_le hlim)
      rw [m_source_Read_sim_nil _ _ _ _ _ (-1) hin haf] at h
      obtain ⟨s, hs⟩ := ih { it with m_seen_rows := (it.m_seen_rows + 1) % HA_ROWS_RANGE }
        { w with input := w.later, later := [] } (cs ++ [Call.source_Read (-1)]) hla haf rfl
      exact ⟨s, by simp only [readSeq, h, hs, List.replicate_succ]⟩

theorem LimitOffsetIterator.Init_sim {α κ : Type} [DecidableEq κ] (key : α → κ)
    (pred : α → Bool) (grouped : Bool) (rows : List α) (it : LimitOffsetIterator) :
    ∃ it1 x1, LimitOffsetIterator.Init (simEnv key pred grouped) it ⟨Sim.start rows, []⟩
        = (false, it1, x1)
      ∧ it1.m_limit = it.m_limit ∧ it1.m_offset = it.m_offset
      ∧ it1.m_seen_rows = it.m_offset
      ∧ ((∀ c ∈ it.m_skipped_rows, c < HA_ROWS_RANGE) →
          it1.m_skipped_rows = it.m_skipped_rows.map
            (fun c => (c + min it.m_offset rows.length) % HA_ROWS_RANGE))
      ∧ x1.world.input = rows.drop it.m_offset ∧ x1.world.after = -1
      ∧ x1.world.later = [] := by
  obtain ⟨it1, x1, h, hrest⟩ := LimitOffsetIterator.skip_sim key pred grouped it.m_offset rows
    it (Sim.start rows) [Call.source_Init false] rfl rfl rfl
  exact ⟨it1, x1, by simpa [LimitOffsetIterator.Init, m_source_Init, simEnv] using h, hrest⟩

/-- The window of `LimitOffsetIterator` over a child that returns the rows of
a finite list and then -1 for ever: with `m_limit = o + l` and `m_offset = o`
the rows returned before the first -1 are the rows with index in `[o, o + l)`,
`max(0, min(l, n - o))` of them, and with `l = 0` the first `Read()` returns
-1 without a call on the child. -/
theorem LimitOffsetIterator.window_sticky_child {α κ : Type} [DecidableEq κ] (key : α → κ)
    (pred : α → Bool) (grouped : Bool) (o l : Nat) (rows : List α)
    (it0 : LimitOffsetIterator) (fuel : Nat)
    (ho : it0.m_offset = o) (hl : it0.m_limit = o + l) (hrange : o + l < HA_ROWS_RANGE)
    (hfuel : rows.length < fuel) :
    ∃ it1 x1 s,
      LimitOffsetIterator.Init (simEnv key pred grouped) it0 ⟨Sim.start rows, []⟩
        = (false, it1, x1)
      ∧ drain (LimitOffsetIterator.step (simEnv key pred grouped))
          (fun s => s.2.world.row) fuel (it1, x1)
        = some (((rows.drop o).take l).map some, -1, s)
      ∧ (((rows.drop o).take l).length : Int)
          = max 0 (min (l : Int) ((rows.length : Int) - (o : Int)))
      ∧ (l = 0 → (LimitOffsetIterator.Read (simEnv key pred grouped) it1 x1).1 = -1
          ∧ (LimitOffsetIterator.Read (simEnv key pred grouped) it1 x1).2.2 = x1) := by
  obtain ⟨it1, x1, hInit, h1, _, h3, _, h5, h6, _⟩ :=
    LimitOffsetIterator.Init_sim key pred grouped rows it0
  obtain ⟨w, cs⟩ := x1
  obtain ⟨s, hs⟩ := LimitOffsetIterator.drain_sim key pred grouped (rows.drop o) l fuel it1
    w cs (by simpa [ho] using h5) h6 (by omega) (by omega)
    (by simp only [List.length_drop]; omega)
  refine ⟨it1, ⟨w, cs⟩, s, hInit, hs, ?_, ?_⟩
  · simp only [List.length_take, List.length_drop]
    omega
  · intro hl0
    rw [LimitOffsetIterator.Read_at_limit _ _ _ (by omega)]
    exact ⟨rfl, rfl⟩

theorem LimitOffsetIterator.skip_sim_within {α κ : Type} [DecidableEq κ] (key : α → κ)
    (pred : α → Bool) (grouped : Bool) :
    ∀ (k : Nat) (rows : List α) (it : LimitOffsetIterator) (w : Sim α κ)
      (cs : List (Call Unit)),
      w.input = rows → w.after = -1 → k ≤ rows.length →
      ∃ it1 x1, LimitOffsetIterator.skip (simEnv key pred grouped) k it ⟨w, cs⟩
          = (false, it1, x1)
        ∧ it1.m_limit = it.m_limit ∧ it1.m_seen_rows = it.m_offset
        ∧ x1.world.input = rows.drop k ∧ x1.world.after = -1 := by
  intro k
  induction k with
  | zero =>
    intro rows it w cs hin haf _
    exact ⟨_, _, rfl, rfl, rfl, by simpa using hin, haf⟩
  | succ k ih =>
    intro rows it w cs hin haf hk
    cases rows with
    | nil => simp at hk
    | cons r rs =>
      simp only [List.length_cons, Nat.add_le_add_iff_right] at hk
      obtain ⟨it1, x1, h, h1, h3, h5, h6⟩ := ih rs
        { it with m_skipped_rows := it.m_skipped_rows.map (fun c => (c + 1) % HA_ROWS_RANGE) }
        { w with input := rs, row := some r }
        (cs ++ [Call.source_Read 0, Call.source_UnlockRow]) rfl haf hk
      refine ⟨it1, x1, ?_, h1, h3, by simpa using h5, h6⟩
      simp [LimitOffsetIterator.skip, m_source_Read, m_source_UnlockRow, simEnv, hin]
      simpa [simEnv] using h

/-- The window of `LimitOffsetIterator` when the offset does not pass the end
of the child (`o <= n`), whatever the child would return after its first -1:
the rows returned before the first -1 are the rows with index in
`[o, o + l)`. -/
theorem LimitOffsetIterator.window_offset_within {α κ : Type} [DecidableEq κ]
    (key : α → κ) (pred : α → Bool) (grouped : Bool) (o l : Nat) (rows later : List α)
    (it0 : LimitOffsetIterator) (fuel : Nat)
    (ho : it0.m_offset = o) (hl : it0.m_limit = o + l) (hrange : o + l < HA_ROWS_RANGE)
    (hwithin : o ≤ rows.length) (hfuel : rows.length < fuel) :
    ∃ it1 x1 s,
      LimitOffsetIterator.Init (simEnv key pred grouped) it0
          ⟨{ Sim.start rows with later := later }, []⟩
        = (false, it1, x1)
      ∧ drain (LimitOffsetIterator.step (simEnv key pred grouped))
          (fun s => s.2.world.row) fuel (it1, x1)
        = some (((rows.drop o).take l).map some, -1, s) := by
  obtain ⟨it1, x1, h, h1, h3, h5, h6⟩ := LimitOffsetIterator.skip_sim_within key pred grouped
    it0.m_offset rows it0 { Sim.start rows with later := later } [Call.source_Init false]
    rfl rfl (by omega)
  have hInit : LimitOffsetIterator.Init (simEnv key pred grouped) it0
      ⟨{ Sim.start rows with later := later }, []⟩ = (false, it1, x1) := by
    simpa [LimitOffsetIterator.Init, m_source_Init, simEnv] using h
  obtain ⟨w, cs⟩ := x1
  obtain ⟨s, hs⟩ := LimitOffsetIterator.drain_sim key pred grouped (rows.drop o) l fuel it1
    w cs (by simpa [ho] using h5) h6 (by omega) (by omega)
    (by simp only [List.length_drop]; omega)
  exact ⟨it1, ⟨w, cs⟩, s, hInit, hs⟩

/-- C2, at the failing input: `m_offset = 2` and `m_limit = 3` (offset 2,
limit 1) over a child that returns row 10, then -1, then row 11.  `Init()`
meets the end of the child while it skips and leaves `m_seen_rows = m_offset`,
which is below `m_limit`; the first `Read()` then reads the child again and
returns row 11 with status 0, although rows `[2, 3)` of the child are none. -/
theorem C2_limit_offset_reads_past_end_of_child :
    ∃ it1 x1 s,
      LimitOffsetIterator.Init (simEnv (fun n : Nat => n) (fun _ => true) false)
          ⟨3, 2, 0, none⟩ ⟨{ Sim.start [10] with later := [11] }, []⟩
        = (false, it1, x1)
      ∧ it1.m_seen_rows = 2 ∧ it1.m_limit = 3
      ∧ x1.calls = [Call.source_Init false, Call.source_Read 0, Call.source_UnlockRow,
          Call.source_Read (-1)]
      ∧ drain (LimitOffsetIterator.step (simEnv (fun n : Nat => n) (fun _ => true) false))
          (fun s => s.2.world.row) 3 (it1, x1)
        = some ([some 11], -1, s)
      ∧ ((([10] : List Nat).drop 2).take 1).map some = ([] : List (Option Nat)) :=
  ⟨⟨3, 2, 2, none⟩,
    ⟨{ Sim.start [11] with row := some 10 },
      [Call.source_Init false, Call.source_Read 0, Call.source_UnlockRow,
        Call.source_Read (-1)]⟩,
    (⟨3, 2, 4, none⟩,
      ⟨{ Sim.start [] with row := some 11 },
        [Call.source_Init false, Call.source_Read 0, Call.source_UnlockRow,
          Call.source_Read (-1), Call.source_Read 0]⟩),
    rfl, rfl, rfl, rfl, rfl, rfl⟩

/-- C6: with `n <= m_offset` for a child that returns `n` rows and then -1 for
ever, `Init()` returns `false`, the counter behind `m_skipped_rows` has gone
up by `n` (in `ha_rows` arithmetic), and each of any number of `Read()` calls
after it returns -1. -/
theorem C6_offset_past_end {α κ : Type} [DecidableEq κ] (key : α → κ)
    (pred : α → Bool) (grouped : Bool) (rows : List α) (it0 : LimitOffsetIterator)
    (c : Nat) (hn : rows.length ≤ it0.m_offset) (hc : it0.m_skipped_rows = some c)
    (hcr : c < HA_ROWS_RANGE) :
    ∃ it1 x1,
      LimitOffsetIterator.Init (simEnv key pred grouped) it0 ⟨Sim.start rows, []⟩
        = (false, it1, x1)
      ∧ it1.m_skipped_rows = some ((c + rows.length) % HA_ROWS_RANGE)
      ∧ ∀ k, ∃ s, readSeq (LimitOffsetIterator.step (simEnv key pred grouped)) k (it1, x1)
          = some (List.replicate k (-1), s) := by
  obtain ⟨it1, x1, hInit, _, _, _, h4, h5, h6, h7⟩ :=
    LimitOffsetIterator.Init_sim key pred grouped rows it0
  obtain ⟨w, cs⟩ := x1
  refine ⟨it1, ⟨w, cs⟩, hInit, ?_, ?_⟩
  · rw [h4 (by intro a ha; rw [hc] at ha; cases ha; exact hcr), hc]
    simp [Nat.min_eq_right hn]
  · intro k
    exact LimitOffsetIterator.readSeq_sim_exhausted key pred grouped k it1 w cs
      (by simpa [List.drop_eq_nil_iff] using h5 ▸ List.drop_eq_nil_of_le hn) h6 h7

theorem C6_offset_past_end_witness :
    ∃ it1 x1,
      LimitOffsetIterator.Init (simEnv (fun n : Nat => n) (fun _ => true) false)
          ⟨9, 4, 0, some 5⟩ ⟨Sim.start [10, 11, 12], []⟩
        = (false, it1, x1)
      ∧ it1.m_skipped_rows = some ((5 + [10, 11, 12].length) % HA_ROWS_RANGE)
      ∧ ∀ k, ∃ s, readSeq
          (LimitOffsetIterator.step (simEnv (fun n : Nat => n) (fun _ => true) false)) k
          (it1, x1)
          = some (List.replicate k (-1), s) :=
  C6_offset_past_end (fun n : Nat => n) (fun _ => true) false [10, 11, 12]
    ⟨9, 4, 0, some 5⟩ 5 (by decide) rfl (by decide)

theorem LimitOffsetIterator.readSeq_saturated (E : Env W ι) :
    ∀ (k : Nat) (it : LimitOffsetIterator) (x : Exec W ι),
      it.m_limit ≤ it.m_seen_rows → it.m_seen_rows < HA_ROWS_RANGE →
      it.m_seen_rows + k ≤ HA_ROWS_RANGE →
      readSeq (LimitOffsetIterator.step E) k (it, x)
        = some (List.replicate k (-1),
            { it with m_seen_rows := (it.m_seen_rows + k) % HA_ROWS_RANGE }, x) := by
  intro k
  induction k with
  | zero =>
    intro it x _ hlt _
    simp [readSeq, Nat.mod_eq_of_lt hlt]
  | succ k ih =>
    intro it x hlim hlt hk
    simp only [readSeq, LimitOffsetIterator.step_at_limit E it x hlim, List.replicate_succ]
    cases k with
    | zero => simp [readSeq]
    | succ k =>
      have hmod : (it.m_seen_rows + 1) % HA_ROWS_RANGE = it.m_seen_rows + 1 :=
        Nat.mod_eq_of_lt (by omega)
      rw [hmod, ih { it with m_seen_rows := it.m_seen_rows + 1 } x
        (by simp only; omega) (by simp only; omega) (by simp only; omega)]
      simp only [Option.some.injEq, Prod.mk.injEq, true_and]
      refine ⟨?_, trivial⟩
      congr 2
      omega

/-- C7, at the failing inputs.  (1) With `m_offset = m_limit = 2^64 - 1` over an
empty child, `Init()` succeeds with the limit reached; the first `Read()`
returns -1 without a call on the child and wraps `m_seen_rows` to 0, and the
second `Read()` calls `Read()` on the child again.  (2) With `m_limit = 1`,
`m_offset = 0` over a child with the rows 7 and 8, the first `Read()` returns
row 7, the next `2^64 - 1` calls return -1, and the call after them returns 0
with row 8. -/
theorem C7_limit_offset_counter_wraps :
    (∃ it1 x1 it2 it3 x3,
      LimitOffsetIterator.Init (simEnv (fun n : Nat => n) (fun _ => true) false)
          ⟨2 ^ 64 - 1, 2 ^ 64 - 1, 0, none⟩ ⟨Sim.start [], []⟩ = (false, it1, x1)
      ∧ it1.m_limit ≤ it1.m_seen_rows
      ∧ LimitOffsetIterator.Read (simEnv (fun n : Nat => n) (fun _ => true) false) it1 x1
          = (-1, it2, x1)
      ∧ LimitOffsetIterator.Read (simEnv (fun n : Nat => n) (fun _ => true) false) it2 x1
          = (-1, it3, x3)
      ∧ x3.calls = x1.calls ++ [Call.source_Read (-1)])
    ∧ (∃ s1 s2 s3 s4,
      LimitOffsetIterator.Init (simEnv (fun n : Nat => n) (fun _ => true) false)
          ⟨1, 0, 0, none⟩ ⟨Sim.start [7, 8], []⟩ = (false, s1)
      ∧ LimitOffsetIterator.step (simEnv (fun n : Nat => n) (fun _ => true) false) s1
          = some (0, s2)
      ∧ s2.2.world.row = some 7
      ∧ readSeq (LimitOffsetIterator.step (simEnv (fun n : Nat => n) (fun _ => true) false))
          (2 ^ 64 - 1) s2 = some (List.replicate (2 ^ 64 - 1) (-1), s3)
      ∧ LimitOffsetIterator.step (simEnv (fun n : Nat => n) (fun _ => true) false) s3
          = some (0, s4)
      ∧ s4.2.world.row = some 8) := by
  refine ⟨⟨⟨2 ^ 64 - 1, 2 ^ 64 - 1, 2 ^ 64 - 1, none⟩,
    ⟨Sim.start [], [Call.source_Init false, Call.source_Read (-1)]⟩,
    ⟨2 ^ 64 - 1, 2 ^ 64 - 1, 0, none⟩, ⟨2 ^ 64 - 1, 2 ^ 64 - 1, 1, none⟩,
    ⟨Sim.start [], [Call.source_Init false, Call.source_Read (-1), Call.source_Read (-1)]⟩,
    rfl, by decide, rfl, rfl, rfl⟩, ?_⟩
  refine ⟨(⟨1, 0, 0, none⟩, ⟨Sim.start [7, 8], [Call.source_Init false]⟩),
    (⟨1, 0, 1, none⟩, ⟨{ Sim.start [8] with row := some 7 },
      [Call.source_Init false, Call.source_Read 0]⟩),
    (⟨1, 0, 0, none⟩, ⟨{ Sim.start [8] with row := some 7 },
      [Call.source_Init false, Call.source_Read 0]⟩),
    (⟨1, 0, 1, none⟩, ⟨{ Sim.start [] with row := some 8 },
      [Call.source_Init false, Call.source_Read 0, Call.source_Read 0]⟩),
    rfl, rfl, rfl, ?_, rfl, rfl⟩
  exact LimitOffsetIterator.readSeq_saturated _ (2 ^ 64 - 1) _ _ (by decide) (by decide)
    (by decide)

/-! ## The calls of one `FilterIterator::Read()` -/

theorem replay_append (E : Env W ι) (a b : List (Call ι)) (w : W) :
    replay E (a ++ b) w = replay E b (replay E a w) := by
  simp [replay, List.foldl_append]

theorem FilterIterator.Read_rounds (E : Env W ι) :
    ∀ (fuel : Nat) (x : Exec W ι) (st : Int) (x1 : Exec W ι),
      FilterIterator.Read E fuel x = some (st, x1) →
      ∃ k fin, x1.calls = x.calls ++ (FilterIterator.rejections k ++ fin)
        ∧ FilterIterator.LastRound st fin
        ∧ x1.world = replay E (FilterIterator.rejections k ++ fin) x.world := by
  intro fuel
  induction fuel with
  | zero => intro x st x1 h; simp [FilterIterator.Read] at h
  | succ fuel ih =>
    intro x st x1 h
    rw [FilterIterator.Read] at h
    by_cases h0 : (E.source_Read x.world).1 = 0
    · by_cases hk : E.killed (E.val_int (E.source_Read x.world).2).2 = true
      · simp [m_source_Read, m_condition_val_int, thd_killed, thd_send_kill_message, h0, hk]
          at h
        obtain ⟨rfl, rfl⟩ := h
        exact ⟨0, _, by simp [FilterIterator.rejections],
          FilterIterator.LastRound.killed (E.val_int (E.source_Read x.world).2).1,
          by simp [FilterIterator.rejections, replay, Call.apply]⟩
      · by_cases he : E.is_error (E.val_int (E.source_Read x.world).2).2 = true
        · simp [m_source_Read, m_condition_val_int, thd_killed, thd_is_error, h0, hk, he] at h
          obtain ⟨rfl, rfl⟩ := h
          exact ⟨0, _, by simp [FilterIterator.rejections],
            FilterIterator.LastRound.error (E.val_int (E.source_Read x.world).2).1,
            by simp [FilterIterator.rejections, replay, Call.apply]⟩
        · by_cases hm : (E.val_int (E.source_Read x.world).2).1 = true
          · simp [m_source_Read, m_condition_val_int, thd_killed, thd_is_error, h0, hk, he, hm]
              at h
            obtain ⟨rfl, rfl⟩ := h
            refine ⟨0, _, ?_, FilterIterator.LastRound.row, ?_⟩
            · simp [FilterIterator.rejections, hm]
            · simp [FilterIterator.rejections, replay, Call.apply]
          · simp [m_source_Read, m_condition_val_int, thd_killed, thd_is_error,
              m_source_UnlockRow, h0, hk, he, hm] at h
            obtain ⟨k, fin, hc, hl, hw⟩ := ih _ _ _ h
            refine ⟨k + 1, fin, ?_, hl, ?_⟩
            · simp [hc, FilterIterator.rejections, FilterIterator.rejected]
            · rw [hw]
              simp [FilterIterator.rejections, FilterIterator.rejected, replay, Call.apply]
    · simp [m_source_Read, h0] at h
      obtain ⟨rfl, rfl⟩ := h
      exact ⟨0, _, by simp [FilterIterator.rejections],
        FilterIterator.LastRound.child _ h0,
        by simp [FilterIterator.rejections, replay, Call.apply]⟩

theorem cons_eq_append_cons {β : Type} (a c : β) (l pre post : List β) :
    a :: l = pre ++ c :: post ↔
      (pre = [] ∧ a = c ∧ l = post) ∨ ∃ pre1, pre = a :: pre1 ∧ l = pre1 ++ c :: post := by
  cases pre with
  | nil => simp
  | cons p pre =>
    simp only [List.cons_append, List.cons.injEq, reduceCtorEq, false_and, false_or]
    constructor
    · rintro ⟨rfl, h⟩
      exact ⟨_, ⟨rfl, rfl⟩, h⟩
    · rintro ⟨_, ⟨rfl, rfl⟩, h⟩
      exact ⟨rfl, h⟩

theorem nil_ne_append_cons {β : Type} (c : β) (pre post : List β) :
    ([] : List β) = pre ++ c :: post ↔ False := by
  cases pre <;> simp

theorem split_of_not_mem {β : Type} {c : β} :
    ∀ (l fin pre post : List β), c ∉ l → l ++ fin = pre ++ c :: post →
      ∃ pre1, pre = l ++ pre1 ∧ fin = pre1 ++ c :: post := by
  intro l
  induction l with
  | nil => intro fin pre post _ h; exact ⟨pre, rfl, by simpa using h⟩
  | cons a l ih =>
    intro fin pre post hc h
    rw [List.cons_append, cons_eq_append_cons] at h
    rcases h with ⟨_, rfl, _⟩ | ⟨pre1, rfl, h⟩
    · simp at hc
    · obtain ⟨pre2, rfl, h2⟩ := ih fin pre1 post (fun hm => hc (List.mem_cons_of_mem _ hm)) h
      exact ⟨pre2, rfl, h2⟩

theorem FilterIterator.mem_rejections {c : Call ι} :
    ∀ k, c ∈ (FilterIterator.rejections k : List (Call ι)) →
      c ∈ (FilterIterator.rejected : List (Call ι)) := by
  intro k
  induction k with
  | zero => intro h; simp [FilterIterator.rejections] at h
  | succ k ih =>
    intro h
    simp only [FilterIterator.rejections, List.mem_append] at h
    rcases h with h | h
    · exact h
    · exact ih h

theorem FilterIterator.killed_after_val_int {st : Int} {fin : List (Call ι)}
    (hl : FilterIterator.LastRound st fin) :
    ∀ (k : Nat) (pre post : List (Call ι)) (flag : Bool),
      FilterIterator.rejections k ++ fin = pre ++ Call.killed flag :: post →
      ∃ pre0 m, pre = pre0 ++ [Call.source_Read 0, Call.val_int m] := by
  intro k
  induction k with
  | zero =>
    intro pre post flag h
    cases hl <;>
      simp [FilterIterator.rejections, cons_eq_append_cons, nil_ne_append_cons] at h
    all_goals
      obtain ⟨_, rfl, _, rfl, rfl, _⟩ := h
      exact ⟨[], _, rfl⟩
  | succ k ih =>
    intro pre post flag h
    simp [FilterIterator.rejections, FilterIterator.rejected, cons_eq_append_cons,
      nil_ne_append_cons] at h
    obtain ⟨_, rfl, _, rfl, h⟩ := h
    rcases h with ⟨rfl, _, _⟩ | ⟨_, rfl, _, rfl, pre1, rfl, h⟩
    · exact ⟨[], _, rfl⟩
    · obtain ⟨pre0, m, rfl⟩ := ih pre1 post flag h
      exact ⟨Call.source_Read 0 :: Call.val_int false :: Call.killed false
        :: Call.is_error false :: Call.source_UnlockRow :: pre0, m, by simp⟩

theorem FilterIterator.not_mem_rejections {c : Call ι}
    (hc : c ∉ (FilterIterator.rejected : List (Call ι))) (k : Nat) :
    c ∉ (FilterIterator.rejections k : List (Call ι)) :=
  fun h => hc (FilterIterator.mem_rejections k h)

theorem FilterIterator.Read_drop (E : Env W ι) (f : Nat) (x : Exec W ι)
    (h : FilterIterator.drops E x = true) :
    FilterIterator.Read E (f + 1) x
      = FilterIterator.Read E f (FilterIterator.dropRow E x) := by
  simp only [FilterIterator.drops, Bool.and_eq_true, decide_eq_true_eq,
    Bool.not_eq_true'] at h
  obtain ⟨⟨⟨h0, hk⟩, he⟩, hm⟩ := h
  rw [FilterIterator.Read]
  simp [h0, hk, he, hm, FilterIterator.dropRow]

theorem FilterIterator.dropRow_calls (E : Env W ι) (x : Exec W ι)
    (h : FilterIterator.drops E x = true) :
    (FilterIterator.dropRow E x).calls = x.calls ++ FilterIterator.rejected := by
  simp only [FilterIterator.drops, Bool.and_eq_true, decide_eq_true_eq,
    Bool.not_eq_true', m_source_Read, m_condition_val_int, thd_killed, thd_is_error] at h
  obtain ⟨⟨⟨h0, hk⟩, he⟩, hm⟩ := h
  simp [FilterIterator.dropRow, FilterIterator.rejected, m_source_UnlockRow, thd_is_error,
    thd_killed, m_condition_val_int, m_source_Read, h0, hk, he, hm]

/-- After `k` rounds that each reach `continue`, `Read()` goes on as from the
state they leave, and their calls are those of `k` dropped rows. -/
theorem FilterIterator.Read_after_drops (E : Env W ι) (f : Nat) :
    ∀ (k : Nat) (x y : Exec W ι), FilterIterator.afterDrops E k x = some y →
      FilterIterator.Read E (f + k) x = FilterIterator.Read E f y
      ∧ y.calls = x.calls ++ FilterIterator.rejections k := by
  intro k
  induction k with
  | zero =>
    intro x y h
    simp only [FilterIterator.afterDrops, Option.some.injEq] at h
    subst h
    simp [FilterIterator.rejections]
  | succ k ih =>
    intro x y h
    rw [FilterIterator.afterDrops] at h
    by_cases hd : FilterIterator.drops E x = true
    · rw [if_pos hd] at h
      obtain ⟨h1, h2⟩ := ih _ _ h
      refine ⟨?_, ?_⟩
      · rw [← Nat.add_assoc, FilterIterator.Read_drop E (f + k) x hd, h1]
      · rw [h2, FilterIterator.dropRow_calls E x hd, FilterIterator.rejections,
          List.append_assoc]
    · rw [if_neg hd] at h
      cases h

theorem FilterIterator.Read_kill (E : Env W ι) (f : Nat) (y : Exec W ι)
    (h0 : (E.source_Read y.world).1 = 0)
    (hk : E.killed (E.val_int (E.source_Read y.world).2).2 = true) :
    FilterIterator.Read E (f + 1) y
      = some (1, ⟨E.send_kill_message (E.val_int (E.source_Read y.world).2).2,
          y.calls ++ [Call.source_Read 0,
            Call.val_int (E.val_int (E.source_Read y.world).2).1, Call.killed true,
            Call.send_kill_message]⟩) := by
  rw [FilterIterator.Read]
  simp [m_source_Read, m_condition_val_int, thd_killed, thd_send_kill_message, h0, hk]

theorem FilterIterator.Read_evaluation_error (E : Env W ι) (f : Nat) (y : Exec W ι)
    (h0 : (E.source_Read y.world).1 = 0)
    (hk : E.killed (E.val_int (E.source_Read y.world).2).2 = false)
    (he : E.is_error (E.val_int (E.source_Read y.world).2).2 = true) :
    FilterIterator.Read E (f + 1) y
      = some (1, ⟨(E.val_int (E.source_Read y.world).2).2,
          y.calls ++ [Call.source_Read 0,
            Call.val_int (E.val_int (E.source_Read y.world).2).1, Call.killed false,
            Call.is_error true]⟩) := by
  rw [FilterIterator.Read]
  simp [m_source_Read, m_condition_val_int, thd_killed, thd_is_error, h0, hk, he]

theorem FilterIterator.Read_child_status (E : Env W ι) (f : Nat) (y : Exec W ι)
    (h0 : (E.source_Read y.world).1 ≠ 0) :
    FilterIterator.Read E (f + 1) y
      = some ((E.source_Read y.world).1, ⟨(E.source_Read y.world).2,
          y.calls ++ [Call.source_Read (E.source_Read y.world).1]⟩) := by
  rw [FilterIterator.Read]
  simp [m_source_Read, h0]

/-- C8: in `FilterIterator::Read()`, after any number `k` of rounds that
dropped their row, if the child returns a row and `thd()->killed` is set once
the condition has been evaluated on it, then, whatever the condition and
`thd()->is_error()` would give, `Read()` (with fuel for the rounds) returns 1,
and its calls in that round are the child's `Read()`, the condition, the read
of the kill flag and one `send_kill_message()`, with no `UnlockRow()` or
`Read()` on the child after it.  In every `Read()` that returns, the world
changes only by the calls made on the collaborators (a read of the kill flag
changes nothing), the kill flag is read only right after `Read()` on the child
returned 0 and the condition was evaluated, and when it is read as set,
`send_kill_message()` is the one call that follows, not called before. -/
theorem C8_filter_kill_check (E : Env W ι) :
    (∀ (k fuel : Nat) (x y : Exec W ι),
      FilterIterator.afterDrops E k x = some y → k < fuel →
      (E.source_Read y.world).1 = 0 →
      E.killed (E.val_int (E.source_Read y.world).2).2 = true →
      FilterIterator.Read E fuel x
        = some (1, ⟨E.send_kill_message (E.val_int (E.source_Read y.world).2).2,
            x.calls ++ (FilterIterator.rejections k ++ [Call.source_Read 0,
              Call.val_int (E.val_int (E.source_Read y.world).2).1, Call.killed true,
              Call.send_kill_message])⟩))
    ∧ (∀ (fuel : Nat) (x x1 : Exec W ι) (st : Int),
      FilterIterator.Read E fuel x = some (st, x1) →
      ∃ t, x1.calls = x.calls ++ t ∧ x1.world = replay E t x.world
        ∧ (∀ pre flag post, t = pre ++ Call.killed flag :: post →
            ∃ pre0 m, pre = pre0 ++ [Call.source_Read 0, Call.val_int m])
        ∧ (∀ pre post, t = pre ++ Call.killed true :: post →
            st = 1 ∧ post = [Call.send_kill_message]
            ∧ Call.send_kill_message ∉ pre)) := by
  constructor
  · intro k fuel x y hy hfuel h0 hk
    obtain ⟨f, rfl⟩ : ∃ f, fuel = (f + 1) + k := ⟨fuel - k - 1, by omega⟩
    obtain ⟨h1, h2⟩ := FilterIterator.Read_after_drops E (f + 1) k x y hy
    rw [h1, FilterIterator.Read_kill E f y h0 hk, h2, List.append_assoc]
  · intro fuel x x1 st h
    obtain ⟨k, fin, hc, hl, hw⟩ := FilterIterator.Read_rounds E fuel x st x1 h
    refine ⟨_, hc, hw, ?_, ?_⟩
    · intro pre flag post ht
      exact FilterIterator.killed_after_val_int hl k pre post flag ht
    · intro pre post ht
      obtain ⟨pre1, rfl, hfin⟩ := split_of_not_mem _ _ _ _
        (FilterIterator.not_mem_rejections (by simp [FilterIterator.rejected]) k) ht
      have hno : Call.send_kill_message ∉ (FilterIterator.rejections k : List (Call ι)) :=
        FilterIterator.not_mem_rejections (by simp [FilterIterator.rejected]) k
      cases hl <;> simp [cons_eq_append_cons, nil_ne_append_cons] at hfin
      obtain ⟨_, rfl, _, rfl, rfl, rfl⟩ := hfin
      exact ⟨rfl, rfl, by simp [hno]⟩

/-- C10: in `FilterIterator::Read()`, after any number `k` of rounds that
dropped their row, if the child returns a row and, once the condition has
been evaluated on it, `thd()->killed` is not set and `thd()->is_error()` is
set, then, whatever the condition gave, `Read()` (with fuel for the rounds)
returns 1 and the read of the error flag is its last call: no `UnlockRow()`
and no further `Read()` on the child.  In every `Read()` that returns, the
error flag is read only after the kill flag was read as clear, which follows
the evaluation of the condition on a row the child returned, and when it is
read as set no call follows and the status is 1. -/
theorem C10_filter_evaluation_error (E : Env W ι) :
    (∀ (k fuel : Nat) (x y : Exec W ι),
      FilterIterator.afterDrops E k x = some y → k < fuel →
      (E.source_Read y.world).1 = 0 →
      E.killed (E.val_int (E.source_Read y.world).2).2 = false →
      E.is_error (E.val_int (E.source_Read y.world).2).2 = true →
      FilterIterator.Read E fuel x
        = some (1, ⟨(E.val_int (E.source_Read y.world).2).2,
            x.calls ++ (FilterIterator.rejections k ++ [Call.source_Read 0,
              Call.val_int (E.val_int (E.source_Read y.world).2).1, Call.killed false,
              Call.is_error true])⟩))
    ∧ (∀ (fuel : Nat) (x x1 : Exec W ι) (st : Int),
      FilterIterator.Read E fuel x = some (st, x1) →
      ∃ t, x1.calls = x.calls ++ t
        ∧ ∀ pre post, t = pre ++ Call.is_error true :: post →
            st = 1 ∧ post = []
            ∧ ∃ pre0 m, pre = pre0
                ++ [Call.source_Read 0, Call.val_int m, Call.killed false]) := by
  constructor
  · intro k fuel x y hy hfuel h0 hk he
    obtain ⟨f, rfl⟩ : ∃ f, fuel = (f + 1) + k := ⟨fuel - k - 1, by omega⟩
    obtain ⟨h1, h2⟩ := FilterIterator.Read_after_drops E (f + 1) k x y hy
    rw [h1, FilterIterator.Read_evaluation_error E f y h0 hk he, h2, List.append_assoc]
  · intro fuel x x1 st h
    obtain ⟨k, fin, hc, hl, _⟩ := FilterIterator.Read_rounds E fuel x st x1 h
    refine ⟨_, hc, ?_⟩
    intro pre post ht
    obtain ⟨pre1, rfl, hfin⟩ := split_of_not_mem _ _ _ _
      (FilterIterator.not_mem_rejections (by simp [FilterIterator.rejected]) k) ht
    cases hl <;> simp [cons_eq_append_cons, nil_ne_append_cons] at hfin
    obtain ⟨_, rfl, _, rfl, _, rfl, rfl, rfl⟩ := hfin
    exact ⟨rfl, rfl, FilterIterator.rejections k, _, rfl⟩

/-! ## Errors of the child -/

/-- A list of calls in which a child `Read()` that returned 1 can only be the
last call, and then the status is 1. -/
theorem err_last_of_not_mem (st : Int) (l : List (Call ι)) (last : Call ι)
    (hl : Call.source_Read 1 ∉ l) (hst : last = Call.source_Read 1 → st = 1)
    (pre post : List (Call ι)) (h : l ++ [last] = pre ++ Call.source_Read 1 :: post) :
    post = [] ∧ st = 1 := by
  obtain ⟨pre1, rfl, h1⟩ := split_of_not_mem _ _ _ _ hl h
  simp [cons_eq_append_cons, nil_ne_append_cons] at h1
  obtain ⟨rfl, rfl, rfl⟩ := h1
  exact ⟨rfl, hst rfl⟩

theorem no_err_of_not_mem (l : List (Call ι)) (hl : Call.source_Read 1 ∉ l)
    (pre post : List (Call ι)) (h : l = pre ++ Call.source_Read 1 :: post) : False := by
  apply hl
  rw [h]
  simp

theorem ChildErrorEndsRead.of_not_mem (st : Int) (t : List (Call ι))
    (h : Call.source_Read 1 ∉ t) : ChildErrorEndsRead st t :=
  fun pre post ht => (no_err_of_not_mem t h pre post ht).elim

theorem ChildErrorEndsRead.single (st err : Int) (h : err = 1 → st = 1) :
    ChildErrorEndsRead st ([Call.source_Read err] : List (Call ι)) := by
  intro pre post ht
  exact err_last_of_not_mem st [] (Call.source_Read err) (by simp)
    (by intro he; injection he with he; exact h he) pre post (by simpa using ht)

theorem ChildErrorEndsRead.append (st : Int) (a t : List (Call ι))
    (ha : Call.source_Read 1 ∉ a) (h : ChildErrorEndsRead st t) :
    ChildErrorEndsRead st (a ++ t) := by
  intro pre post ht
  obtain ⟨pre1, rfl, h1⟩ := split_of_not_mem _ _ _ _ ha ht
  exact h pre1 post h1

theorem m_source_Read_calls (E : Env W ι) (x : Exec W ι) :
    (m_source_Read E x).2.calls = x.calls ++ [Call.source_Read (m_source_Read E x).1] := rfl

theorem copy_fields_calls (E : Env W ι) (x : Exec W ι) :
    (copy_fields E x).2.calls = x.calls ++ [Call.copy_fields (copy_fields E x).1] := rfl

theorem update_item_cache_if_changed_calls (E : Env W ι) (x : Exec W ι) :
    (update_item_cache_if_changed E x).2.calls
      = x.calls ++ [Call.update_item_cache_if_changed (update_item_cache_if_changed E x).1] :=
  rfl

theorem init_sum_functions_calls (E : Env W ι) (x : Exec W ι) :
    (init_sum_functions E x).2.calls
      = x.calls ++ [Call.init_sum_functions (init_sum_functions E x).1] := rfl

theorem update_sum_func_calls (E : Env W ι) (x : Exec W ι) :
    (update_sum_func E x).2.calls
      = x.calls ++ [Call.update_sum_func (update_sum_func E x).1] := rfl

theorem join_set_ref_item_slice_calls (E : Env W ι) (n : Nat) (x : Exec W ι) :
    (join_set_ref_item_slice E n x).calls = x.calls ++ [Call.set_ref_item_slice n] := rfl

theorem SwitchSlice_calls (E : Env W ι) (n : Nat) (x : Exec W ι) :
    ∃ a, (SwitchSlice E n x).calls = x.calls ++ a ∧ Call.source_Read 1 ∉ a := by
  unfold SwitchSlice
  split
  · exact ⟨[Call.set_ref_item_slice n], rfl, by simp⟩
  · exact ⟨[], by simp, by simp⟩

theorem slice_switch_calls (E : Env W ι) (n : Nat) (x : Exec W ι) :
    (slice_switch E n x).calls = x.calls ++ [Call.Switch_ref_item_slice n] := rfl

theorem slice_switch_leave_calls (E : Env W ι) (x : Exec W ι) :
    (slice_switch_leave E x).calls = x.calls ++ [Call.Switch_ref_item_slice_leave] := rfl

theorem AggregateIterator.startGroup_calls (E : Env W ι) (x : Exec W ι) :
    ∃ a, (AggregateIterator.startGroup E x).2.calls = x.calls ++ a
      ∧ Call.source_Read 1 ∉ a := by
  unfold AggregateIterator.startGroup
  simp only
  split
  · refine ⟨[Call.Switch_ref_item_slice E.REF_SLICE_ORDERED_GROUP_BY, Call.copy_fields
        (copy_fields E (slice_switch E E.REF_SLICE_ORDERED_GROUP_BY x)).1,
      Call.Switch_ref_item_slice_leave], ?_, by simp⟩
    rw [slice_switch_leave_calls, copy_fields_calls, slice_switch_calls]
    simp
  · have hcalls : (slice_switch_leave E
        (init_sum_functions E (update_item_cache_if_changed E
          (copy_fields E (slice_switch E E.REF_SLICE_ORDERED_GROUP_BY x)).2).2).2).calls
        = x.calls ++ [Call.Switch_ref_item_slice E.REF_SLICE_ORDERED_GROUP_BY,
          Call.copy_fields
            (copy_fields E (slice_switch E E.REF_SLICE_ORDERED_GROUP_BY x)).1,
          Call.update_item_cache_if_changed (update_item_cache_if_changed E
            (copy_fields E (slice_switch E E.REF_SLICE_ORDERED_GROUP_BY x)).2).1,
          Call.init_sum_functions (init_sum_functions E (update_item_cache_if_changed E
            (copy_fields E (slice_switch E E.REF_SLICE_ORDERED_GROUP_BY x)).2).2).1,
          Call.Switch_ref_item_slice_leave] := by
      rw [slice_switch_leave_calls, init_sum_functions_calls,
        update_item_cache_if_changed_calls, copy_fields_calls, slice_switch_calls]
      simp
    split
    · exact ⟨_, hcalls, by simp⟩
    · exact ⟨_, hcalls, by simp⟩

theorem AggregateIterator.readGroup_calls (E : Env W ι) :
    ∀ (fuel : Nat) (it : AggregateIterator) (x : Exec W ι) (st : Int)
      (it1 : AggregateIterator) (x1 : Exec W ι),
      AggregateIterator.readGroup E fuel it x = some (st, it1, x1) →
      ∃ t, x1.calls = x.calls ++ t ∧ ChildErrorEndsRead st t := by
  intro fuel
  induction fuel with
  | zero => intro it x st it1 x1 h; simp [AggregateIterator.readGroup] at h
  | succ fuel ih =>
    intro it x st it1 x1 h
    rw [AggregateIterator.readGroup] at h
    simp only at h
    split at h
    · simp only [Option.some.injEq, Prod.mk.injEq] at h
      obtain ⟨rfl, rfl, rfl⟩ := h
      exact ⟨[Call.source_Read (m_source_Read E x).1], m_source_Read_calls E x,
        ChildErrorEndsRead.single _ _ (fun _ => rfl)⟩
    · rename_i h1
      have hne : (Call.source_Read 1 : Call ι) ≠ Call.source_Read (m_source_Read E x).1 := by
        intro he; injection he with he; exact h1 he.symm
      split at h
      · simp only [Option.some.injEq, Prod.mk.injEq] at h
        obtain ⟨rfl, rfl, rfl⟩ := h
        obtain ⟨a, ha, hn⟩ := SwitchSlice_calls E E.REF_SLICE_ORDERED_GROUP_BY
          (m_source_Read E x).2
        refine ⟨Call.source_Read (m_source_Read E x).1 :: a, ?_,
          ChildErrorEndsRead.of_not_mem _ _ (by simp [hn, hne])⟩
        rw [ha, m_source_Read_calls]
        simp
      · split at h
        · simp only [Option.some.injEq, Prod.mk.injEq] at h
          obtain ⟨rfl, rfl, rfl⟩ := h
          obtain ⟨a, ha, hn⟩ := SwitchSlice_calls E E.REF_SLICE_ORDERED_GROUP_BY
            (update_item_cache_if_changed E (m_source_Read E x).2).2
          refine ⟨Call.source_Read (m_source_Read E x).1
            :: Call.update_item_cache_if_changed
                (update_item_cache_if_changed E (m_source_Read E x).2).1 :: a, ?_,
            ChildErrorEndsRead.of_not_mem _ _ (by simp [hn, hne])⟩
          rw [ha, update_item_cache_if_changed_calls, m_source_Read_calls]
          simp
        · have hcalls : (update_sum_func E
              (update_item_cache_if_changed E (m_source_Read E x).2).2).2.calls
              = x.calls ++ [Call.source_Read (m_source_Read E x).1,
                Call.update_item_cache_if_changed
                  (update_item_cache_if_changed E (m_source_Read E x).2).1,
                Call.update_sum_func (update_sum_func E
                  (update_item_cache_if_changed E (m_source_Read E x).2).2).1] := by
            rw [update_sum_func_calls, update_item_cache_if_changed_calls, m_source_Read_calls]
            simp
          split at h
          · simp only [Option.some.injEq, Prod.mk.injEq] at h
            obtain ⟨rfl, rfl, rfl⟩ := h
            exact ⟨_, hcalls, ChildErrorEndsRead.of_not_mem _ _ (by simp [hne])⟩
          · obtain ⟨t, ht, hgood⟩ := ih _ _ _ _ _ h
            rw [hcalls, List.append_assoc] at ht
            exact ⟨_, ht, ChildErrorEndsRead.append _ _ _ (by simp [hne]) hgood⟩

theorem AggregateIterator.newGroup_calls (E : Env W ι) (fuel : Nat)
    (it : AggregateIterator) (x : Exec W ι) (st : Int) (it1 : AggregateIterator)
    (x1 : Exec W ι) (h : AggregateIterator.newGroup E fuel it x = some (st, it1, x1)) :
    ∃ t, x1.calls = x.calls ++ t ∧ ChildErrorEndsRead st t := by
  obtain ⟨a, ha, hn⟩ := AggregateIterator.startGroup_calls E x
  unfold AggregateIterator.newGroup at h
  simp only at h
  split at h
  · simp only [Option.some.injEq, Prod.mk.injEq] at h
    obtain ⟨rfl, rfl, rfl⟩ := h
    exact ⟨a, ha, ChildErrorEndsRead.of_not_mem _ _ hn⟩
  · obtain ⟨t, ht, hgood⟩ := AggregateIterator.readGroup_calls E _ _ _ _ _ _ h
    rw [ha, List.append_assoc] at ht
    exact ⟨_, ht, ChildErrorEndsRead.append _ _ _ hn hgood⟩

theorem no_rows_in_result_calls (E : Env W ι) :
    ∀ (items : List ι) (x : Exec W ι),
      (items.foldl (fun y item => item_no_rows_in_result E item y) x).calls
        = x.calls ++ items.map Call.no_rows_in_result := by
  intro items
  induction items with
  | nil => intro x; simp
  | cons i items ih =>
    intro x
    rw [List.foldl_cons, ih]
    simp [item_no_rows_in_result]

theorem no_rows_in_result_world (E : Env W ι) :
    ∀ (items : List ι) (x : Exec W ι),
      (items.foldl (fun y item => item_no_rows_in_result E item y) x).world
        = items.foldl (fun w item => E.no_rows_in_result item w) x.world := by
  intro items
  induction items with
  | nil => intro x; rfl
  | cons i items ih =>
    intro x
    rw [List.foldl_cons, ih]
    rfl

theorem AggregateIterator.Read_child_error_last (E : Env W ι) (fuel : Nat)
    (it : AggregateIterator) (x : Exec W ι) (st : Int) (it1 : AggregateIterator)
    (x1 : Exec W ι) (h : AggregateIterator.Read E fuel it x = some (st, it1, x1)) :
    ∃ t, x1.calls = x.calls ++ t ∧ ChildErrorEndsRead st t := by
  obtain ⟨a, ha, hn⟩ := SwitchSlice_calls E it.m_input_slice x
  unfold AggregateIterator.Read at h
  simp only at h
  split at h
  · split at h
    · simp only [Option.some.injEq, Prod.mk.injEq] at h
      obtain ⟨rfl, rfl, rfl⟩ := h
      exact ⟨[Call.restore_fields it.m_save_nullinfo], rfl,
        ChildErrorEndsRead.of_not_mem _ _ (by simp)⟩
    · simp only [Option.some.injEq, Prod.mk.injEq] at h
      obtain ⟨rfl, rfl, rfl⟩ := h
      exact ⟨[], by simp, ChildErrorEndsRead.of_not_mem _ _ (by simp)⟩
  · split at h
    · have hr : (m_source_Read E (SwitchSlice E it.m_input_slice x)).2.calls
          = x.calls ++ (a ++ [Call.source_Read
              (m_source_Read E (SwitchSlice E it.m_input_slice x)).1]) := by
        rw [m_source_Read_calls, ha, List.append_assoc]
      split at h
      · rename_i heof
        have hne : (Call.source_Read 1 : Call ι)
            ≠ Call.source_Read (m_source_Read E (SwitchSlice E it.m_input_slice x)).1 := by
          rw [heof]; intro he; injection he with he; exact absurd he (by decide)
        split at h
        · simp only [Option.some.injEq, Prod.mk.injEq] at h
          obtain ⟨rfl, rfl, rfl⟩ := h
          exact ⟨_, hr, ChildErrorEndsRead.of_not_mem _ _ (by simp [hn, hne])⟩
        · have hc : ∀ m, (join_clear_fields E m ((E.get_current_fields
              (m_source_Read E (SwitchSlice E it.m_input_slice x)).2.world).foldl
                (fun y item => item_no_rows_in_result E item y)
                (m_source_Read E (SwitchSlice E it.m_input_slice x)).2)).2.2.calls
              = x.calls ++ (a ++ [Call.source_Read
                  (m_source_Read E (SwitchSlice E it.m_input_slice x)).1]
                ++ (E.get_current_fields
                  (m_source_Read E (SwitchSlice E it.m_input_slice x)).2.world).map
                    Call.no_rows_in_result
                ++ [Call.clear_fields m (join_clear_fields E m ((E.get_current_fields
                  (m_source_Read E (SwitchSlice E it.m_input_slice x)).2.world).foldl
                    (fun y item => item_no_rows_in_result E item y)
                    (m_source_Read E (SwitchSlice E it.m_input_slice x)).2)).1]) := by
            intro m
            simp only [join_clear_fields, no_rows_in_result_calls, hr, List.append_assoc]
          have hmem : (Call.source_Read 1 : Call ι) ∉
              (E.get_current_fields
                (m_source_Read E (SwitchSlice E it.m_input_slice x)).2.world).map
                  Call.no_rows_in_result := by
            simp
          split at h
          · simp only [Option.some.injEq, Prod.mk.injEq] at h
            obtain ⟨rfl, rfl, rfl⟩ := h
            exact ⟨_, hc _, ChildErrorEndsRead.of_not_mem _ _ (by simp [hn, hne])⟩
          · simp only [Option.some.injEq, Prod.mk.injEq] at h
            obtain ⟨rfl, rfl, rfl⟩ := h
            exact ⟨_, hc _, ChildErrorEndsRead.of_not_mem _ _ (by simp [hn, hne])⟩
      · split at h
        · simp only [Option.some.injEq, Prod.mk.injEq] at h
          obtain ⟨rfl, rfl, rfl⟩ := h
          exact ⟨_, hr, ChildErrorEndsRead.append _ _ _ hn
            (ChildErrorEndsRead.single _ _ (fun he => he))⟩
        · rename_i h0
          obtain ⟨t, ht, hgood⟩ := AggregateIterator.newGroup_calls E _ _ _ _ _ _ h
          have hne : (Call.source_Read 1 : Call ι)
              ≠ Call.source_Read (m_source_Read E (SwitchSlice E it.m_input_slice x)).1 := by
            intro he; injection he with he
            simp only [ne_eq, Decidable.not_not] at h0
            rw [h0] at he
            exact absurd he (by decide)
          rw [hr, List.append_assoc] at ht
          exact ⟨_, ht, ChildErrorEndsRead.append _ _ _ (by simp [hn, hne]) hgood⟩
    · obtain ⟨t, ht, hgood⟩ := AggregateIterator.newGroup_calls E _ _ _ _ _ _ h
      rw [ha, List.append_assoc] at ht
      exact ⟨_, ht, ChildErrorEndsRead.append _ _ _ hn hgood⟩

theorem FilterIterator.filter_child_error (E : Env W ι) (fuel : Nat) (x x1 : Exec W ι)
    (st : Int) (h : FilterIterator.Read E fuel x = some (st, x1)) :
    ∃ t, x1.calls = x.calls ++ t ∧ ChildErrorEndsRead st t := by
  obtain ⟨k, fin, hc, hl, _⟩ := FilterIterator.Read_rounds E fuel x st x1 h
  refine ⟨_, hc, ChildErrorEndsRead.append _ _ _
    (FilterIterator.not_mem_rejections (by simp [FilterIterator.rejected]) k) ?_⟩
  cases hl with
  | child err _ => exact ChildErrorEndsRead.single _ _ (fun he => he)
  | killed m => exact ChildErrorEndsRead.of_not_mem _ _ (by simp)
  | error m => exact ChildErrorEndsRead.of_not_mem _ _ (by simp)
  | row => exact ChildErrorEndsRead.of_not_mem _ _ (by simp)

theorem LimitOffsetIterator.limit_child_error (E : Env W ι) (it : LimitOffsetIterator)
    (x : Exec W ι) :
    ∃ t, (LimitOffsetIterator.Read E it x).2.2.calls = x.calls ++ t
      ∧ ChildErrorEndsRead (LimitOffsetIterator.Read E it x).1 t := by
  by_cases hlim : it.m_limit ≤ it.m_seen_rows
  · rw [LimitOffsetIterator.Read_at_limit E it x hlim]
    exact ⟨[], by simp, ChildErrorEndsRead.of_not_mem _ _ (by simp)⟩
  · rw [LimitOffsetIterator.Read_below_limit E it x (Nat.lt_of_not_le hlim)]
    exact ⟨_, m_source_Read_calls E x, ChildErrorEndsRead.single _ _ (fun he => he)⟩

theorem PrecomputedAggregateIterator.precomputed_child_error (E : Env W ι) (x : Exec W ι) :
    ∃ t, (PrecomputedAggregateIterator.Read E x).2.calls = x.calls ++ t
      ∧ ChildErrorEndsRead (PrecomputedAggregateIterator.Read E x).1 t := by
  unfold PrecomputedAggregateIterator.Read
  simp only
  split
  · exact ⟨_, m_source_Read_calls E x, ChildErrorEndsRead.single _ _ (fun he => he)⟩
  · rename_i h0
    have hne : (Call.source_Read 1 : Call ι) ≠ Call.source_Read (m_source_Read E x).1 := by
      intro he; injection he with he
      simp only [ne_eq, Decidable.not_not] at h0
      rw [h0] at he
      exact absurd he (by decide)
    have hc : (copy_fields E (m_source_Read E x).2).2.calls
        = x.calls ++ [Call.source_Read (m_source_Read E x).1,
            Call.copy_fields (copy_fields E (m_source_Read E x).2).1] := by
      rw [copy_fields_calls, m_source_Read_calls]
      simp
    split
    · exact ⟨_, hc, ChildErrorEndsRead.of_not_mem _ _ (by simp [hne])⟩
    · obtain ⟨a, ha, hn⟩ := SwitchSlice_calls E E.REF_SLICE_ORDERED_GROUP_BY
        (copy_fields E (m_source_Read E x).2).2
      rw [hc, List.append_assoc] at ha
      exact ⟨_, ha, ChildErrorEndsRead.of_not_mem _ _ (by simp [hn, hne])⟩

theorem AggregateIterator.readGroup_add (E : Env W ι) (f : Nat) (it : AggregateIterator)
    (x : Exec W ι) (h : AggregateIterator.adds E x = true) :
    AggregateIterator.readGroup E (f + 1) it x
      = AggregateIterator.readGroup E f it (AggregateIterator.addRow E x) := by
  simp only [AggregateIterator.adds, Bool.and_eq_true, decide_eq_true_eq,
    Bool.not_eq_true'] at h
  obtain ⟨⟨⟨h1, hm⟩, hu⟩, hs⟩ := h
  rw [AggregateIterator.readGroup]
  simp [h1, hm, hu, hs, AggregateIterator.addRow]

/-- After `k` rounds that each go on to the next, the loop of `Read()` goes on
as from the state they leave. -/
theorem AggregateIterator.readGroup_after_adds (E : Env W ι) (f : Nat)
    (it : AggregateIterator) :
    ∀ (k : Nat) (x y : Exec W ι), AggregateIterator.afterAdds E k x = some y →
      AggregateIterator.readGroup E (f + k) it x = AggregateIterator.readGroup E f it y := by
  intro k
  induction k with
  | zero =>
    intro x y h
    simp only [AggregateIterator.afterAdds, Option.some.injEq] at h
    subst h
    rfl
  | succ k ih =>
    intro x y h
    rw [AggregateIterator.afterAdds] at h
    by_cases hd : AggregateIterator.adds E x = true
    · rw [if_pos hd] at h
      rw [← Nat.add_assoc, AggregateIterator.readGroup_add E (f + k) it x hd, ih _ _ h]
    · rw [if_neg hd] at h
      cases h

theorem AggregateIterator.readGroup_child_error (E : Env W ι) (f : Nat)
    (it : AggregateIterator) (y : Exec W ι) (h : (E.source_Read y.world).1 = 1) :
    AggregateIterator.readGroup E (f + 1) it y
      = some (1, it, ⟨(E.source_Read y.world).2, y.calls ++ [Call.source_Read 1]⟩) := by
  rw [AggregateIterator.readGroup]
  simp [m_source_Read, h]

theorem AggregateIterator.readGroup_error_after_adds (E : Env W ι) (k fuel : Nat)
    (it : AggregateIterator) (x y : Exec W ι)
    (hy : AggregateIterator.afterAdds E k x = some y) (hfuel : k < fuel)
    (h : (E.source_Read y.world).1 = 1) :
    AggregateIterator.readGroup E fuel it x
      = some (1, it, ⟨(E.source_Read y.world).2, y.calls ++ [Call.source_Read 1]⟩) := by
  obtain ⟨f, rfl⟩ : ∃ f, fuel = (f + 1) + k := ⟨fuel - k - 1, by omega⟩
  rw [AggregateIterator.readGroup_after_adds E (f + 1) it k x y hy,
    AggregateIterator.readGroup_child_error E f it y h]

/-- C9: for `FilterIterator`, `LimitOffsetIterator`, `AggregateIterator` and
`PrecomputedAggregateIterator`, whenever a `Read()` of the child made during
the parent's `Read()` returns 1, the parent makes no further call on any
collaborator in that `Read()` (no child `Read()`, no condition, no
accumulator) and returns 1.  For the two iterators with a loop the result is
produced: in `FilterIterator`, after `k` rounds that dropped their row, and in
`AggregateIterator`, at the first read of the child or after the start of a
group and `k` rounds that added their row to it, a child `Read()` that returns
1 makes `Read()` (with fuel for the rounds) return 1 with that call as its
last. -/
theorem C9_child_error_passes_through (E : Env W ι) :
    (∀ (fuel : Nat) (x x1 : Exec W ι) (st : Int),
      FilterIterator.Read E fuel x = some (st, x1) →
      ∃ t, x1.calls = x.calls ++ t ∧ ChildErrorEndsRead st t)
    ∧ (∀ (it : LimitOffsetIterator) (x : Exec W ι),
      ∃ t, (LimitOffsetIterator.Read E it x).2.2.calls = x.calls ++ t
        ∧ ChildErrorEndsRead (LimitOffsetIterator.Read E it x).1 t)
    ∧ (∀ (fuel : Nat) (it it1 : AggregateIterator) (x x1 : Exec W ι) (st : Int),
      AggregateIterator.Read E fuel it x = some (st, it1, x1) →
      ∃ t, x1.calls = x.calls ++ t ∧ ChildErrorEndsRead st t)
    ∧ (∀ (x : Exec W ι),
      ∃ t, (PrecomputedAggregateIterator.Read E x).2.calls = x.calls ++ t
        ∧ ChildErrorEndsRead (PrecomputedAggregateIterator.Read E x).1 t)
    ∧ (∀ (k fuel : Nat) (x y : Exec W ι),
      FilterIterator.afterDrops E k x = some y → k < fuel →
      (E.source_Read y.world).1 = 1 →
      FilterIterator.Read E fuel x
        = some (1, ⟨(E.source_Read y.world).2,
            x.calls ++ (FilterIterator.rejections k ++ [Call.source_Read 1])⟩))
    ∧ (∀ (fuel : Nat) (it : AggregateIterator) (x : Exec W ι),
      it.m_eof = false → it.m_first_row = true →
      (E.source_Read (SwitchSlice E it.m_input_slice x).world).1 = 1 →
      AggregateIterator.Read E fuel it x
        = some (1, { it with m_first_row := false },
            ⟨(E.source_Read (SwitchSlice E it.m_input_slice x).world).2,
              (SwitchSlice E it.m_input_slice x).calls ++ [Call.source_Read 1]⟩))
    ∧ (∀ (k fuel : Nat) (it : AggregateIterator) (x y : Exec W ι),
      it.m_eof = false → it.m_first_row = true →
      (E.source_Read (SwitchSlice E it.m_input_slice x).world).1 = 0 →
      (AggregateIterator.startGroup E
        (m_source_Read E (SwitchSlice E it.m_input_slice x)).2).1 = false →
      AggregateIterator.afterAdds E k (AggregateIterator.startGroup E
        (m_source_Read E (SwitchSlice E it.m_input_slice x)).2).2 = some y →
      k < fuel → (E.source_Read y.world).1 = 1 →
      AggregateIterator.Read E fuel it x
        = some (1, { it with m_first_row := false },
            ⟨(E.source_Read y.world).2, y.calls ++ [Call.source_Read 1]⟩))
    ∧ (∀ (k fuel : Nat) (it : AggregateIterator) (x y : Exec W ι),
      it.m_eof = false → it.m_first_row = false →
      (AggregateIterator.startGroup E (SwitchSlice E it.m_input_slice x)).1 = false →
      AggregateIterator.afterAdds E k
        (AggregateIterator.startGroup E (SwitchSlice E it.m_input_slice x)).2 = some y →
      k < fuel → (E.source_Read y.world).1 = 1 →
      AggregateIterator.Read E fuel it x
        = some (1, it, ⟨(E.source_Read y.world).2, y.calls ++ [Call.source_Read 1]⟩)) := by
  refine ⟨fun fuel x x1 st h => FilterIterator.filter_child_error E fuel x x1 st h,
    fun it x => LimitOffsetIterator.limit_child_error E it x,
    fun fuel it it1 x x1 st h => AggregateIterator.Read_child_error_last E fuel it x st it1 x1 h,
    fun x => PrecomputedAggregateIterator.precomputed_child_error E x, ?_, ?_, ?_, ?_⟩
  · intro k fuel x y hy hfuel h1
    obtain ⟨f, rfl⟩ : ∃ f, fuel = (f + 1) + k := ⟨fuel - k - 1, by omega⟩
    obtain ⟨h2, h3⟩ := FilterIterator.Read_after_drops E (f + 1) k x y hy
    rw [h2, FilterIterator.Read_child_status E f y (by rw [h1]; decide), h1, h3,
      List.append_assoc]
  · intro fuel it x heof hfr h1
    simp [AggregateIterator.Read, heof, hfr, m_source_Read, h1]
  · intro k fuel it x y heof hfr h0 hg hy hfuel h1
    rw [← AggregateIterator.readGroup_error_after_adds E k fuel { it with m_first_row := false }
      _ y hy hfuel h1]
    simp only [m_source_Read, h0] at hg ⊢
    simp [AggregateIterator.Read, AggregateIterator.newGroup, heof, hfr, m_source_Read, h0, hg]
  · intro k fuel it x y heof hfr hg hy hfuel h1
    rw [← AggregateIterator.readGroup_error_after_adds E k fuel it _ y hy hfuel h1]
    simp [AggregateIterator.Read, AggregateIterator.newGroup, heof, hfr, hg]

theorem C8_filter_kill_check_witness :
    FilterIterator.Read
        { simEnv (fun n : Nat => n) (fun _ => false) false with
          source_UnlockRow := fun w => { w with killed := true } }
        2 ⟨(Sim.start [1, 3] : Sim Nat Nat), []⟩
      = some (1, ⟨{ (Sim.start [] : Sim Nat Nat) with row := some 3, killed := true },
          [] ++ (FilterIterator.rejections 1 ++ [Call.source_Read 0, Call.val_int false,
            Call.killed true, Call.send_kill_message])⟩)
    ∧ ∃ t, ([Call.source_Read 0, Call.val_int false, Call.killed true,
          Call.send_kill_message] : List (Call Unit)) = [] ++ t
      ∧ ({ Sim.start [] with row := some 5, killed := true } : Sim Nat Nat)
          = replay (simEnv (fun n : Nat => n) (fun _ => false) false) t
              { Sim.start [5] with killed := true }
      ∧ (∀ pre flag post, t = pre ++ Call.killed flag :: post →
          ∃ pre0 m, pre = pre0 ++ [Call.source_Read 0, Call.val_int m])
      ∧ (∀ pre post, t = pre ++ Call.killed true :: post →
          (1 : Int) = 1 ∧ post = [Call.send_kill_message]
          ∧ Call.send_kill_message ∉ pre) :=
  ⟨(C8_filter_kill_check
      { simEnv (fun n : Nat => n) (fun _ => false) false with
        source_UnlockRow := fun w => { w with killed := true } }).1
      1 2 ⟨(Sim.start [1, 3] : Sim Nat Nat), []⟩
      ⟨{ (Sim.start [3] : Sim Nat Nat) with row := some 1, killed := true },
        [Call.source_Read 0, Call.val_int false, Call.killed false, Call.is_error false,
          Call.source_UnlockRow]⟩
      rfl (by decide) rfl rfl,
    (C8_filter_kill_check (simEnv (fun n : Nat => n) (fun _ => false) false)).2 1
      ⟨{ Sim.start [5] with killed := true }, []⟩
      ⟨{ Sim.start [] with row := some 5, killed := true },
        [Call.source_Read 0, Call.val_int false, Call.killed true, Call.send_kill_message]⟩
      1 rfl⟩

theorem C10_filter_evaluation_error_witness :
    FilterIterator.Read
        { simEnv (fun n : Nat => n) (fun _ => false) false with
          source_UnlockRow := fun w => { w with is_error := true } }
        2 ⟨(Sim.start [1, 3] : Sim Nat Nat), []⟩
      = some (1, ⟨{ (Sim.start [] : Sim Nat Nat) with row := some 3, is_error := true },
          [] ++ (FilterIterator.rejections 1 ++ [Call.source_Read 0, Call.val_int false,
            Call.killed false, Call.is_error true])⟩)
    ∧ ∃ t, ([Call.source_Read 0, Call.val_int false, Call.killed false,
          Call.is_error true] : List (Call Unit)) = [] ++ t
      ∧ ∀ pre post, t = pre ++ Call.is_error true :: post →
          (1 : Int) = 1 ∧ post = []
          ∧ ∃ pre0 m, pre = pre0
              ++ [Call.source_Read 0, Call.val_int m, Call.killed false] :=
  ⟨(C10_filter_evaluation_error
      { simEnv (fun n : Nat => n) (fun _ => false) false with
        source_UnlockRow := fun w => { w with is_error := true } }).1
      1 2 ⟨(Sim.start [1, 3] : Sim Nat Nat), []⟩
      ⟨{ (Sim.start [3] : Sim Nat Nat) with row := some 1, is_error := true },
        [Call.source_Read 0, Call.val_int false, Call.killed false, Call.is_error false,
          Call.source_UnlockRow]⟩
      rfl (by decide) rfl rfl rfl,
    (C10_filter_evaluation_error (simEnv (fun n : Nat => n) (fun _ => false) false)).2 1
      ⟨{ Sim.start [5] with is_error := true }, []⟩
      ⟨{ Sim.start [] with row := some 5, is_error := true },
        [Call.source_Read 0, Call.val_int false, Call.killed false, Call.is_error true]⟩
      1 rfl⟩

theorem C9_child_error_passes_through_witness :
    (∃ t, ([Call.source_Read 0, Call.val_int false, Call.killed false, Call.is_error false,
          Call.source_UnlockRow, Call.source_Read 1] : List (Call Unit)) = [] ++ t
      ∧ ChildErrorEndsRead 1 t)
    ∧ (∃ t, ([Call.set_ref_item_slice 0, Call.source_Read 0, Call.Switch_ref_item_slice 3,
          Call.copy_fields false, Call.update_item_cache_if_changed 0,
          Call.init_sum_functions false, Call.Switch_ref_item_slice_leave,
          Call.source_Read 1] : List (Call Unit)) = [] ++ t
      ∧ ChildErrorEndsRead 1 t)
    ∧ FilterIterator.Read (simEnv (fun n : Nat => n) (fun _ => false) false) 2
        ⟨{ (Sim.start [5] : Sim Nat Nat) with after := 1 }, []⟩
      = some (1, ⟨{ (Sim.start [] : Sim Nat Nat) with after := 1, row := some 5 },
          [] ++ (FilterIterator.rejections 1 ++ [Call.source_Read 1])⟩)
    ∧ AggregateIterator.Read (simEnv (fun n : Nat => n) (fun _ => false) false) 0
        ⟨true, false, 0, 0⟩ ⟨{ (Sim.start [] : Sim Nat Nat) with after := 1 }, []⟩
      = some (1, ⟨false, false, 0, 0⟩,
          ⟨{ (Sim.start [] : Sim Nat Nat) with after := 1 },
            [Call.set_ref_item_slice 0] ++ [Call.source_Read 1]⟩)
    ∧ AggregateIterator.Read (simEnv (fun n : Nat => n) (fun _ => false) false) 2
        ⟨true, false, 0, 0⟩ ⟨{ (Sim.start [5, 5] : Sim Nat Nat) with after := 1 }, []⟩
      = some (1, ⟨false, false, 0, 0⟩,
          ⟨{ (Sim.start [] : Sim Nat Nat) with
              after := 1, row := some 5, group_row := some 5, cache := some 5, count := 2 },
            [Call.set_ref_item_slice 0, Call.source_Read 0, Call.Switch_ref_item_slice 3,
              Call.copy_fields false, Call.update_item_cache_if_changed 0,
              Call.init_sum_functions false, Call.Switch_ref_item_slice_leave,
              Call.source_Read 0, Call.update_item_cache_if_changed (-1),
              Call.update_sum_func false] ++ [Call.source_Read 1]⟩)
    ∧ AggregateIterator.Read (simEnv (fun n : Nat => n) (fun _ => false) false) 2
        ⟨false, false, 0, 0⟩
        ⟨{ (Sim.start [5] : Sim Nat Nat) with after := 1, row := some 5, cache := some 5 }, []⟩
      = some (1, ⟨false, false, 0, 0⟩,
          ⟨{ (Sim.start [] : Sim Nat Nat) with
              after := 1, row := some 5, group_row := some 5, cache := some 5, count := 2 },
            [Call.set_ref_item_slice 0, Call.Switch_ref_item_slice 3,
              Call.copy_fields false, Call.update_item_cache_if_changed (-1),
              Call.init_sum_functions false, Call.Switch_ref_item_slice_leave,
              Call.source_Read 0, Call.update_item_cache_if_changed (-1),
              Call.update_sum_func false] ++ [Call.source_Read 1]⟩) :=
  ⟨(C9_child_error_passes_through (simEnv (fun n : Nat => n) (fun _ => false) false)).1 2
      ⟨{ Sim.start [5] with after := 1 }, []⟩
      ⟨{ Sim.start [] with after := 1, row := some 5 },
        [Call.source_Read 0, Call.val_int false, Call.killed false, Call.is_error false,
          Call.source_UnlockRow, Call.source_Read 1]⟩
      1 rfl,
    (C9_child_error_passes_through (simEnv (fun n : Nat => n) (fun _ => false) false)).2.2.1 2
      ⟨true, false, 0, 0⟩ ⟨false, false, 0, 0⟩
      ⟨{ Sim.start [5] with after := 1 }, []⟩
      ⟨{ (Sim.start [] : Sim Nat Nat) with
          after := 1, row := some 5, group_row := some 5, cache := some 5, count := 1 },
        [Call.set_ref_item_slice 0, Call.source_Read 0, Call.Switch_ref_item_slice 3,
          Call.copy_fields false, Call.update_item_cache_if_changed 0,
          Call.init_sum_functions false, Call.Switch_ref_item_slice_leave,
          Call.source_Read 1]⟩
      1 rfl,
    (C9_child_error_passes_through
      (simEnv (fun n : Nat => n) (fun _ => false) false)).2.2.2.2.1 1 2
      ⟨{ (Sim.start [5] : Sim Nat Nat) with after := 1 }, []⟩
      ⟨{ (Sim.start [] : Sim Nat Nat) with after := 1, row := some 5 },
        [Call.source_Read 0, Call.val_int false, Call.killed false, Call.is_error false,
          Call.source_UnlockRow]⟩
      rfl (by decide) rfl,
    (C9_child_error_passes_through
      (simEnv (fun n : Nat => n) (fun _ => false) false)).2.2.2.2.2.1 0
      ⟨true, false, 0, 0⟩ ⟨{ (Sim.start [] : Sim Nat Nat) with after := 1 }, []⟩
      rfl rfl rfl,
    (C9_child_error_passes_through
      (simEnv (fun n : Nat => n) (fun _ => false) false)).2.2.2.2.2.2.1 1 2
      ⟨true, false, 0, 0⟩ ⟨{ (Sim.start [5, 5] : Sim Nat Nat) with after := 1 }, []⟩
      ⟨{ (Sim.start [] : Sim Nat Nat) with
          after := 1, row := some 5, group_row := some 5, cache := some 5, count := 2 },
        [Call.set_ref_item_slice 0, Call.source_Read 0, Call.Switch_ref_item_slice 3,
          Call.copy_fields false, Call.update_item_cache_if_changed 0,
          Call.init_sum_functions false, Call.Switch_ref_item_slice_leave,
          Call.source_Read 0, Call.update_item_cache_if_changed (-1),
          Call.update_sum_func false]⟩
      rfl rfl rfl rfl rfl (by decide) rfl,
    (C9_child_error_passes_through
      (simEnv (fun n : Nat => n) (fun _ => false) false)).2.2.2.2.2.2.2 1 2
      ⟨false, false, 0, 0⟩
      ⟨{ (Sim.start [5] : Sim Nat Nat) with after := 1, row := some 5, cache := some 5 }, []⟩
      ⟨{ (Sim.start [] : Sim Nat Nat) with
          after := 1, row := some 5, group_row := some 5, cache := some 5, count := 2 },
        [Call.set_ref_item_slice 0, Call.Switch_ref_item_slice 3,
          Call.copy_fields false, Call.update_item_cache_if_changed (-1),
          Call.init_sum_functions false, Call.Switch_ref_item_slice_leave,
          Call.source_Read 0, Call.update_item_cache_if_changed (-1),
          Call.update_sum_func false]⟩
      rfl rfl rfl rfl (by decide) rfl⟩

/-! ## AggregateIterator on an empty child -/

theorem AggregateIterator.Init_ok (E : Env W ι) (it0 it1 : AggregateIterator)
    (x0 x1 : Exec W ι) (h : AggregateIterator.Init E it0 x0 = some (false, it1, x1)) :
    it1 = ⟨true, false, 0, E.get_ref_item_slice x1.world⟩ := by
  unfold AggregateIterator.Init at h
  split at h
  · simp at h
  · simp only at h
    split at h
    · simp at h
    · simp only [Option.some.injEq, Prod.mk.injEq, true_and] at h
      obtain ⟨rfl, rfl⟩ := h
      rfl

theorem AggregateIterator.Read_eof (E : Env W ι) (fuel : Nat) (it : AggregateIterator)
    (x : Exec W ι) (h : it.m_eof = true) :
    AggregateIterator.Read E fuel it x
      = some (-1, { it with m_save_nullinfo := 0 },
          if it.m_save_nullinfo ≠ 0 then join_restore_fields E it.m_save_nullinfo x else x) := by
  by_cases h0 : it.m_save_nullinfo = 0
  · obtain ⟨a, b, c, d⟩ := it
    simp only at h h0
    subst h
    subst h0
    simp [AggregateIterator.Read]
  · simp [AggregateIterator.Read, h, h0]

theorem AggregateIterator.readSeq_eof (E : Env W ι) (fuel : Nat) :
    ∀ (k : Nat) (it : AggregateIterator) (x : Exec W ι), it.m_eof = true →
      ∃ s, readSeq (AggregateIterator.step E fuel) k (it, x)
        = some (List.replicate k (-1), s) := by
  intro k
  induction k with
  | zero => intro it x _; exact ⟨_, rfl⟩
  | succ k ih =>
    intro it x h
    obtain ⟨s, hs⟩ := ih { it with m_save_nullinfo := 0 }
      (if it.m_save_nullinfo ≠ 0 then join_restore_fields E it.m_save_nullinfo x else x) h
    exact ⟨s, by
      simp only [readSeq, AggregateIterator.step, AggregateIterator.Read_eof E fuel it x h, hs,
        List.replicate_succ]⟩

theorem AggregateIterator.readSeq_eof_clean (E : Env W ι) (fuel : Nat) :
    ∀ (k : Nat) (it : AggregateIterator) (x : Exec W ι), it.m_eof = true →
      it.m_save_nullinfo = 0 →
      readSeq (AggregateIterator.step E fuel) k (it, x)
        = some (List.replicate k (-1), (it, x)) := by
  intro k
  induction k with
  | zero => intro it x _ _; rfl
  | succ k ih =>
    intro it x h h0
    have hit : ({ it with m_save_nullinfo := 0 } : AggregateIterator) = it := by
      cases it; simp only at h0; subst h0; rfl
    simp only [readSeq, AggregateIterator.step, AggregateIterator.Read_eof E fuel it x h, h0,
      ne_eq, not_true_eq_false, if_false, hit]
    have := ih it x h h0
    simp only [AggregateIterator.step] at this
    simp only [this, List.replicate_succ]

/-- C5: after a successful `Init()`, if the first `Read()` of the child returns
-1 and `grouped` or `group_optimized_away` is set, the first `Read()` returns
-1 having made, besides the switch to the input slice, only that one call on
the child; `m_save_nullinfo` is 0 afterwards; and each of any number of later
`Read()` calls returns -1 and makes no call at all, so that neither
`no_rows_in_result()` nor `clear_fields` is ever called. -/
theorem C5_empty_input_group_by (E : Env W ι) (it0 it1 : AggregateIterator)
    (x0 x1 x3 : Exec W ι) (fuel : Nat)
    (hInit : AggregateIterator.Init E it0 x0 = some (false, it1, x1))
    (hRead : m_source_Read E (SwitchSlice E it1.m_input_slice x1) = (-1, x3))
    (hg : (E.grouped x3.world || E.group_optimized_away x3.world) = true) :
    AggregateIterator.Read E fuel it1 x1
        = some (-1, ⟨false, true, 0, it1.m_input_slice⟩, x3)
      ∧ (x3.calls = x1.calls ++ [Call.source_Read (-1)]
          ∨ x3.calls = x1.calls
              ++ [Call.set_ref_item_slice it1.m_input_slice, Call.source_Read (-1)])
      ∧ ∀ k fuel1, readSeq (AggregateIterator.step E fuel1) k
            (⟨false, true, 0, it1.m_input_slice⟩, x3)
          = some (List.replicate k (-1), (⟨false, true, 0, it1.m_input_slice⟩, x3)) := by
  have hit := AggregateIterator.Init_ok E it0 it1 x0 x1 hInit
  refine ⟨?_, ?_, ?_⟩
  · subst hit
    simp only [AggregateIterator.Read] at hRead ⊢
    simp [hRead, hg]
  · have h3 : x3 = (m_source_Read E (SwitchSlice E it1.m_input_slice x1)).2 := by rw [hRead]
    have h1 : (m_source_Read E (SwitchSlice E it1.m_input_slice x1)).1 = -1 := by rw [hRead]
    rw [h3, m_source_Read_calls, h1]
    unfold SwitchSlice
    split
    · right; simp [join_set_ref_item_slice]
    · left; rfl
  · intro k fuel1
    exact AggregateIterator.readSeq_eof_clean E fuel1 k _ x3 rfl rfl

theorem C5_empty_input_group_by_witness :
    AggregateIterator.Read (simEnv (fun n : Nat => n) (fun _ => true) true) 1
          ⟨true, false, 0, 0⟩ ⟨Sim.start [], [Call.source_Init false]⟩
        = some (-1, ⟨false, true, 0, 0⟩,
            ⟨Sim.start [],
              [Call.source_Init false, Call.set_ref_item_slice 0, Call.source_Read (-1)]⟩)
      ∧ (([Call.source_Init false, Call.set_ref_item_slice 0, Call.source_Read (-1)] :
            List (Call Unit))
            = [Call.source_Init false] ++ [Call.source_Read (-1)]
          ∨ ([Call.source_Init false, Call.set_ref_item_slice 0, Call.source_Read (-1)] :
            List (Call Unit))
            = [Call.source_Init false]
              ++ [Call.set_ref_item_slice 0, Call.source_Read (-1)])
      ∧ ∀ k fuel1,
          readSeq (AggregateIterator.step (simEnv (fun n : Nat => n) (fun _ => true) true) fuel1)
            k (⟨false, true, 0, 0⟩,
              ⟨Sim.start [],
                [Call.source_Init false, Call.set_ref_item_slice 0, Call.source_Read (-1)]⟩)
          = some (List.replicate k (-1), (⟨false, true, 0, 0⟩,
              ⟨Sim.start [],
                [Call.source_Init false, Call.set_ref_item_slice 0,
                  Call.source_Read (-1)]⟩)) :=
  C5_empty_input_group_by (simEnv (fun n : Nat => n) (fun _ => true) true)
    ⟨false, true, 7, 9⟩ ⟨true, false, 0, 0⟩ ⟨Sim.start [], []⟩
    ⟨Sim.start [], [Call.source_Init false]⟩
    ⟨Sim.start [], [Call.source_Init false, Call.set_ref_item_slice 0, Call.source_Read (-1)]⟩
    1 rfl rfl rfl

/-- C4: after a successful `Init()`, if the first `Read()` of the child returns
-1 and neither `grouped` nor `group_optimized_away` is set, the first `Read()`
calls, after the read of the child, `no_rows_in_result()` once on every item
of the current field list, in order, and then `clear_fields`, whose mask is
kept in `m_save_nullinfo`.  When `clear_fields` reports success, the first
`Read()` returns 0, draining puts out that one row and ends with -1, and each
of any number of later `Read()` calls returns -1.  When `clear_fields` reports
failure, the first `Read()` returns 1 and draining puts out no row. -/
theorem C4_empty_input_no_group_by (E : Env W ι) (it0 it1 : AggregateIterator)
    (x0 x1 x3 x5 : Exec W ι) (mask fuel : Nat) (failed : Bool)
    (hInit : AggregateIterator.Init E it0 x0 = some (false, it1, x1))
    (hRead : m_source_Read E (SwitchSlice E it1.m_input_slice x1) = (-1, x3))
    (hg : E.grouped x3.world = false) (hgo : E.group_optimized_away x3.world = false)
    (hcf : join_clear_fields E 0 ((E.get_current_fields x3.world).foldl
        (fun y item => item_no_rows_in_result E item y) x3) = (failed, mask, x5)) :
    x5.calls = x3.calls ++ (E.get_current_fields x3.world).map Call.no_rows_in_result
        ++ [Call.clear_fields 0 failed]
      ∧ (failed = false →
        AggregateIterator.Read E fuel it1 x1
          = some (0, ⟨false, true, mask, it1.m_input_slice⟩, x5)
        ∧ (∀ k fuel1, ∃ s, readSeq (AggregateIterator.step E fuel1) k
              (⟨false, true, mask, it1.m_input_slice⟩, x5)
            = some (List.replicate k (-1), s))
        ∧ ∀ n, ∃ s,
            drain (AggregateIterator.step E fuel) (fun s => s.2.world) (n + 2) (it1, x1)
              = some ([x5.world], -1, s))
      ∧ (failed = true →
        AggregateIterator.Read E fuel it1 x1
          = some (1, ⟨false, true, mask, it1.m_input_slice⟩, x5)
        ∧ ∀ n, ∃ s,
            drain (AggregateIterator.step E fuel) (fun s => s.2.world) (n + 1) (it1, x1)
              = some ([], 1, s)) := by
  have hit := AggregateIterator.Init_ok E it0 it1 x0 x1 hInit
  refine ⟨?_, ?_, ?_⟩
  · have h5 : x5 = (join_clear_fields E 0 ((E.get_current_fields x3.world).foldl
        (fun y item => item_no_rows_in_result E item y) x3)).2.2 := by rw [hcf]
    have h1 : (join_clear_fields E 0 ((E.get_current_fields x3.world).foldl
        (fun y item => item_no_rows_in_result E item y) x3)).1 = failed := by rw [hcf]
    rw [h5]
    simp only [join_clear_fields] at h1 ⊢
    rw [h1, no_rows_in_result_calls]
  · intro hf
    subst hf
    have hfirst : AggregateIterator.Read E fuel it1 x1
        = some (0, ⟨false, true, mask, it1.m_input_slice⟩, x5) := by
      subst hit
      simp only [AggregateIterator.Read] at hRead ⊢
      simp [hRead, hg, hgo, hcf]
    refine ⟨hfirst, ?_, ?_⟩
    · intro k fuel1
      exact AggregateIterator.readSeq_eof E fuel1 k _ x5 rfl
    · intro n
      have h2 := AggregateIterator.Read_eof E fuel ⟨false, true, mask, it1.m_input_slice⟩ x5 rfl
      exact ⟨_, drain_row _ _ _ _ _ _ _ hfirst (drain_stop _ _ n _ _ (-1) h2 (by decide))⟩
  · intro hf
    subst hf
    have hfirst : AggregateIterator.Read E fuel it1 x1
        = some (1, ⟨false, true, mask, it1.m_input_slice⟩, x5) := by
      subst hit
      simp only [AggregateIterator.Read] at hRead ⊢
      simp [hRead, hg, hgo, hcf]
    refine ⟨hfirst, ?_⟩
    intro n
    exact ⟨_, drain_stop (AggregateIterator.step E fuel) (fun s => s.2.world) n (it1, x1) _ 1
      hfirst (by decide)⟩

theorem C4_empty_input_no_group_by_witness :
    (AggregateIterator.Read (simEnv (fun n : Nat => n) (fun _ => true) false) 1
          ⟨true, false, 0, 0⟩ ⟨Sim.start [], [Call.source_Init false]⟩
        = some (0, ⟨false, true, 1, 0⟩,
            ⟨{ (Sim.start [] : Sim Nat Nat) with null_row := true },
              [Call.source_Init false, Call.set_ref_item_slice 0, Call.source_Read (-1),
                Call.no_rows_in_result (), Call.clear_fields 0 false]⟩)
      ∧ (∀ k fuel1, ∃ s,
          readSeq (AggregateIterator.step (simEnv (fun n : Nat => n) (fun _ => true) false)
            fuel1) k
            (⟨false, true, 1, 0⟩,
              ⟨{ (Sim.start [] : Sim Nat Nat) with null_row := true },
                [Call.source_Init false, Call.set_ref_item_slice 0, Call.source_Read (-1),
                  Call.no_rows_in_result (), Call.clear_fields 0 false]⟩)
          = some (List.replicate k (-1), s))
      ∧ ∀ n, ∃ s,
          drain (AggregateIterator.step (simEnv (fun n : Nat => n) (fun _ => true) false) 1)
            (fun s => s.2.world) (n + 2)
            (⟨true, false, 0, 0⟩, ⟨Sim.start [], [Call.source_Init false]⟩)
          = some ([{ (Sim.start [] : Sim Nat Nat) with null_row := true }], -1, s))
    ∧ (AggregateIterator.Read
          { simEnv (fun n : Nat => n) (fun _ => true) false with
            clear_fields := fun m w => (true, m, w) }
          1 ⟨true, false, 0, 0⟩ ⟨(Sim.start [] : Sim Nat Nat), [Call.source_Init false]⟩
        = some (1, ⟨false, true, 0, 0⟩,
            ⟨(Sim.start [] : Sim Nat Nat),
              [Call.source_Init false, Call.set_ref_item_slice 0, Call.source_Read (-1),
                Call.no_rows_in_result (), Call.clear_fields 0 true]⟩)
      ∧ ∀ n, ∃ s,
          drain (AggregateIterator.step
              { simEnv (fun n : Nat => n) (fun _ => true) false with
                clear_fields := fun m w => (true, m, w) } 1)
            (fun s => s.2.world) (n + 1)
            (⟨true, false, 0, 0⟩, ⟨(Sim.start [] : Sim Nat Nat), [Call.source_Init false]⟩)
          = some ([], 1, s)) :=
  ⟨(C4_empty_input_no_group_by (simEnv (fun n : Nat => n) (fun _ => true) false)
      ⟨false, true, 7, 9⟩ ⟨true, false, 0, 0⟩ ⟨Sim.start [], []⟩
      ⟨Sim.start [], [Call.source_Init false]⟩
      ⟨Sim.start [],
        [Call.source_Init false, Call.set_ref_item_slice 0, Call.source_Read (-1)]⟩
      ⟨{ (Sim.start [] : Sim Nat Nat) with null_row := true },
        [Call.source_Init false, Call.set_ref_item_slice 0, Call.source_Read (-1),
          Call.no_rows_in_result (), Call.clear_fields 0 false]⟩
      1 1 false rfl rfl rfl rfl rfl).2.1 rfl,
    (C4_empty_input_no_group_by
      { simEnv (fun n : Nat => n) (fun _ => true) false with
        clear_fields := fun m w => (true, m, w) }
      ⟨false, true, 7, 9⟩ ⟨true, false, 0, 0⟩ ⟨(Sim.start [] : Sim Nat Nat), []⟩
      ⟨Sim.start [], [Call.source_Init false]⟩
      ⟨Sim.start [],
        [Call.source_Init false, Call.set_ref_item_slice 0, Call.source_Read (-1)]⟩
      ⟨(Sim.start [] : Sim Nat Nat),
        [Call.source_Init false, Call.set_ref_item_slice 0, Call.source_Read (-1),
          Call.no_rows_in_result (), Call.clear_fields 0 true]⟩
      0 1 true rfl rfl rfl rfl rfl).2.2 rfl⟩

/-- With a `clear_fields` that reports failure, over a child whose first
`Read()` returns -1 and with neither `grouped` nor `group_optimized_away` set,
the first `Read()` after `Init()` returns 1, not 0, after the calls of
`no_rows_in_result()` and `clear_fields`, and draining puts out no row. -/
theorem C4_clear_fields_failure_counterexample :
    AggregateIterator.Init
        { simEnv (fun n : Nat => n) (fun _ => true) false with
          clear_fields := fun m w => (true, m, w) }
        ⟨false, true, 7, 9⟩ ⟨(Sim.start [] : Sim Nat Nat), []⟩
      = some (false, ⟨true, false, 0, 0⟩, ⟨Sim.start [], [Call.source_Init false]⟩)
    ∧ ((simEnv (fun n : Nat => n) (fun _ => true) false).source_Read
        (Sim.start [] : Sim Nat Nat)).1 = -1
    ∧ (simEnv (fun n : Nat => n) (fun _ => true) false).grouped
        (Sim.start [] : Sim Nat Nat) = false
    ∧ (simEnv (fun n : Nat => n) (fun _ => true) false).group_optimized_away
        (Sim.start [] : Sim Nat Nat) = false
    ∧ AggregateIterator.Read
        { simEnv (fun n : Nat => n) (fun _ => true) false with
          clear_fields := fun m w => (true, m, w) }
        1 ⟨true, false, 0, 0⟩ ⟨(Sim.start [] : Sim Nat Nat), [Call.source_Init false]⟩
      = some (1, ⟨false, true, 0, 0⟩,
          ⟨(Sim.start [] : Sim Nat Nat),
            [Call.source_Init false, Call.set_ref_item_slice 0, Call.source_Read (-1),
              Call.no_rows_in_result (), Call.clear_fields 0 true]⟩)
    ∧ drain (AggregateIterator.step
          { simEnv (fun n : Nat => n) (fun _ => true) false with
            clear_fields := fun m w => (true, m, w) } 1)
        (fun s => s.2.world) 3
        (⟨true, false, 0, 0⟩, ⟨(Sim.start [] : Sim Nat Nat), [Call.source_Init false]⟩)
      = some ([], 1, (⟨false, true, 0, 0⟩,
          ⟨(Sim.start [] : Sim Nat Nat),
            [Call.source_Init false, Call.set_ref_item_slice 0, Call.source_Read (-1),
              Call.no_rows_in_result (), Call.clear_fields 0 true]⟩)) :=
  ⟨rfl, rfl, rfl, rfl, rfl, rfl⟩

/-! ## AggregateIterator with COUNT over a finite child stream -/

section Count

variable {α κ : Type} [DecidableEq κ] (key : α → κ) (pred : α → Bool) (grouped : Bool)

theorem AggregateIterator.readGroup_sim_nil (f : Nat) (it : AggregateIterator)
    (w : Sim α κ) (cs : List (Call Unit)) (g : α) (c : Nat) (h : InGroup key g c [] w) :
    ∃ x1, AggregateIterator.readGroup (simEnv key pred grouped) (f + 1) it ⟨w, cs⟩
        = some (0, { it with m_eof := true }, x1)
      ∧ x1.world.group_row = some g ∧ x1.world.count = c := by
  obtain ⟨hin, haf, _, hg, hc⟩ := h
  simp [AggregateIterator.readGroup, m_source_Read, SwitchSlice, join_set_ref_item_slice,
    simEnv, hin, haf, hg, hc]

theorem AggregateIterator.readGroup_sim_same (f : Nat) (it : AggregateIterator)
    (w : Sim α κ) (cs : List (Call Unit)) (g r : α) (rs : List α) (c : Nat)
    (h : InGroup key g c (r :: rs) w) (hk : key r = key g) :
    ∃ w1 cs1, AggregateIterator.readGroup (simEnv key pred grouped) (f + 1) it ⟨w, cs⟩
        = AggregateIterator.readGroup (simEnv key pred grouped) f it ⟨w1, cs1⟩
      ∧ InGroup key g (c + 1) rs w1 := by
  obtain ⟨hin, haf, hca, hg, hc⟩ := h
  refine ⟨{ w with input := rs, row := some r, count := w.count + 1 },
    cs ++ [Call.source_Read 0, Call.update_item_cache_if_changed (-1),
      Call.update_sum_func false], ?_, rfl, haf, hca, hg, by simp [hc]⟩
  simp [AggregateIterator.readGroup, m_source_Read, update_item_cache_if_changed,
    update_sum_func, simEnv, hin, hca, hk]

theorem AggregateIterator.readGroup_sim_change (f : Nat) (it : AggregateIterator)
    (w : Sim α κ) (cs : List (Call Unit)) (g r : α) (rs : List α) (c : Nat)
    (h : InGroup key g c (r :: rs) w) (hk : key r ≠ key g) :
    ∃ x1, AggregateIterator.readGroup (simEnv key pred grouped) (f + 1) it ⟨w, cs⟩
        = some (0, it, x1)
      ∧ x1.world.group_row = some g ∧ x1.world.count = c ∧ x1.world.row = some r
      ∧ x1.world.cache = some (key r) ∧ x1.world.input = rs ∧ x1.world.after = -1 := by
  obtain ⟨hin, haf, hca, hg, hc⟩ := h
  have hk1 : ¬ key g = key r := fun e => hk e.symm
  simp [AggregateIterator.readGroup, m_source_Read, update_item_cache_if_changed,
    SwitchSlice, join_set_ref_item_slice, simEnv, hin, haf, hca, hg, hc, hk1]

theorem AggregateIterator.Read_sim_next_group (F : Nat) (it : AggregateIterator)
    (x : Exec (Sim α κ) Unit) (r : α) (rs : List α)
    (he : it.m_eof = false) (hfr : it.m_first_row = false)
    (hrow : x.world.row = some r) (hca : x.world.cache = some (key r))
    (hin : x.world.input = rs) (haf : x.world.after = -1) :
    ∃ w1 cs1, AggregateIterator.Read (simEnv key pred grouped) F it x
        = AggregateIterator.readGroup (simEnv key pred grouped) F it ⟨w1, cs1⟩
      ∧ InGroup key r 1 rs w1 := by
  obtain ⟨w, cs⟩ := x
  simp only at hrow hca hin haf
  refine ⟨{ w with
      slice := it.m_input_slice, saved_slice := it.m_input_slice, group_row := some r,
      count := 1 },
    cs ++ [Call.set_ref_item_slice it.m_input_slice, Call.Switch_ref_item_slice 3,
      Call.copy_fields false, Call.update_item_cache_if_changed (-1),
      Call.init_sum_functions false, Call.Switch_ref_item_slice_leave],
    ?_, hin, haf, hca, rfl, rfl⟩
  simp [AggregateIterator.Read, AggregateIterator.newGroup, AggregateIterator.startGroup,
    SwitchSlice, join_set_ref_item_slice, slice_switch, slice_switch_leave, copy_fields,
    update_item_cache_if_changed, init_sum_functions, simEnv, he, hfr, hrow, hca]

theorem AggregateIterator.Read_sim_first (F : Nat) (it : AggregateIterator)
    (w : Sim α κ) (cs : List (Call Unit)) (r : α) (rs : List α)
    (he : it.m_eof = false) (hfr : it.m_first_row = true)
    (hin : w.input = r :: rs) (haf : w.after = -1) :
    ∃ w1 cs1, AggregateIterator.Read (simEnv key pred grouped) F it ⟨w, cs⟩
        = AggregateIterator.readGroup (simEnv key pred grouped) F
            { it with m_first_row := false } ⟨w1, cs1⟩
      ∧ InGroup key r 1 rs w1 := by
  by_cases hca : w.cache = some (key r)
  · refine ⟨{ w with
        input := rs, row := some r, slice := it.m_input_slice,
        saved_slice := it.m_input_slice, group_row := some r, count := 1 },
      cs ++ [Call.set_ref_item_slice it.m_input_slice, Call.source_Read 0,
        Call.Switch_ref_item_slice 3,
        Call.copy_fields false, Call.update_item_cache_if_changed (-1),
        Call.init_sum_functions false, Call.Switch_ref_item_slice_leave],
      ?_, rfl, haf, hca, rfl, rfl⟩
    simp [AggregateIterator.Read, AggregateIterator.newGroup, AggregateIterator.startGroup,
      SwitchSlice, join_set_ref_item_slice, slice_switch, slice_switch_leave, copy_fields,
      update_item_cache_if_changed, init_sum_functions, m_source_Read, simEnv, he, hfr, hin,
      hca]
  · refine ⟨{ w with
        input := rs, row := some r, slice := it.m_input_slice,
        saved_slice := it.m_input_slice, group_row := some r, cache := some (key r),
        count := 1 },
      cs ++ [Call.set_ref_item_slice it.m_input_slice, Call.source_Read 0,
        Call.Switch_ref_item_slice 3,
        Call.copy_fields false, Call.update_item_cache_if_changed 0,
        Call.init_sum_functions false, Call.Switch_ref_item_slice_leave],
      ?_, rfl, haf, rfl, rfl, rfl⟩
    simp [AggregateIterator.Read, AggregateIterator.newGroup, AggregateIterator.startGroup,
      SwitchSlice, join_set_ref_item_slice, slice_switch, slice_switch_leave, copy_fields,
      update_item_cache_if_changed, init_sum_functions, m_source_Read, simEnv, he, hfr, hin,
      hca]

theorem drainFrom_congr {S β : Type} (read0 read1 read : S → Option (Int × S))
    (out : S → β) (fuel : Nat) (s s1 : S) (h : read0 s = read1 s1) :
    drainFrom read0 read out fuel s = drainFrom read1 read out fuel s1 := by
  simp only [drainFrom, h]

theorem AggregateIterator.aggregate_drainFrom_sim (F : Nat) :
    ∀ (rs : List α) (g : α) (c f1 f2 : Nat) (it : AggregateIterator) (w : Sim α κ)
      (cs : List (Call Unit)),
      InGroup key g c rs w → it.m_eof = false → it.m_first_row = false →
      rs.length < F → rs.length < f1 → rs.length < f2 →
      ∃ s, drainFrom
            (fun s => AggregateIterator.readGroup (simEnv key pred grouped) f1 s.1 s.2)
            (AggregateIterator.step (simEnv key pred grouped) F) countOut f2 (it, ⟨w, cs⟩)
        = some ((runsFrom key g c rs).map (fun p => (some p.1, p.2)), -1, s) := by
  intro rs
  induction rs with
  | nil =>
    intro g c f1 f2 it w cs hw he hfr _ h1 h2
    obtain ⟨f1, rfl⟩ : ∃ n, f1 = n + 1 := ⟨f1 - 1, by simp at h1; omega⟩
    obtain ⟨f2, rfl⟩ : ∃ n, f2 = n + 1 := ⟨f2 - 1, by simp at h2; omega⟩
    obtain ⟨x1, h, hg, hc⟩ := AggregateIterator.readGroup_sim_nil key pred grouped f1 it w cs
      g c hw
    have h2 := AggregateIterator.Read_eof (simEnv key pred grouped) F
      { it with m_eof := true } x1 rfl
    obtain ⟨sfin, hd⟩ : ∃ sfin,
        drain (AggregateIterator.step (simEnv key pred grouped) F) countOut (f2 + 1)
          ({ it with m_eof := true }, x1) = some ([], -1, sfin) :=
      ⟨_, drain_stop (AggregateIterator.step (simEnv key pred grouped) F) countOut f2
        ({ it with m_eof := true }, x1) _ (-1) h2 (by decide)⟩
    refine ⟨sfin, ?_⟩
    simp only [drainFrom, h, if_true, hd]
    simp only [runsFrom, countOut, hg, hc, List.map_cons, List.map_nil]
  | cons r rs ih =>
    intro g c f1 f2 it w cs hw he hfr hF h1 h2
    simp only [List.length_cons] at hF h1 h2
    obtain ⟨f1, rfl⟩ : ∃ n, f1 = n + 1 := ⟨f1 - 1, by omega⟩
    by_cases hk : key r = key g
    · obtain ⟨w1, cs1, h, hw1⟩ := AggregateIterator.readGroup_sim_same key pred grouped f1 it
        w cs g r rs c hw hk
      obtain ⟨s, hs⟩ := ih g (c + 1) f1 f2 it w1 cs1 hw1 he hfr (by omega) (by omega)
        (by omega)
      refine ⟨s, ?_⟩
      rw [drainFrom_congr _
        (fun s => AggregateIterator.readGroup (simEnv key pred grouped) f1 s.1 s.2)
        _ _ _ _ (it, ⟨w1, cs1⟩) h, hs]
      simp [runsFrom, hk]
    · obtain ⟨f2, rfl⟩ : ∃ n, f2 = n + 1 := ⟨f2 - 1, by omega⟩
      obtain ⟨x1, h, hg, hc, hrow, hca, hin, haf⟩ :=
        AggregateIterator.readGroup_sim_change key pred grouped f1 it w cs g r rs c hw hk
      obtain ⟨w2, cs2, hnext, hw2⟩ := AggregateIterator.Read_sim_next_group key pred grouped F
        it x1 r rs he hfr hrow hca hin haf
      obtain ⟨s, hs⟩ := ih r 1 F f2 it w2 cs2 hw2 he hfr (by omega) (by omega) (by omega)
      refine ⟨s, ?_⟩
      have hd : drain (AggregateIterator.step (simEnv key pred grouped) F) countOut (f2 + 1)
          (it, x1) = some ((runsFrom key r 1 rs).map (fun p => (some p.1, p.2)), -1, s) := by
        rw [drain_succ, drainFrom_congr
          (AggregateIterator.step (simEnv key pred grouped) F)
          (fun s => AggregateIterator.readGroup (simEnv key pred grouped) F s.1 s.2)
          _ _ _ (it, x1) (it, ⟨w2, cs2⟩) hnext, hs]
      simp only [drainFrom, h, if_true, hd]
      simp [runsFrom, hk, countOut, hg, hc]

theorem splitBy_loop_runs :
    ∀ (l : List α) (ag : α) (g : List α) (gs : List (List α)) (first : α),
      (g.reverse ++ [ag]).head? = some first → key ag = key first →
      (List.splitBy.loop (fun a b => key a == key b) l ag g gs).map
          (fun run => (run.head?, run.length))
        = gs.reverse.map (fun run => (run.head?, run.length))
          ++ (runsFrom key first (g.length + 1) l).map (fun p => (some p.1, p.2)) := by
  intro l
  induction l with
  | nil =>
    intro ag g gs first hhead _
    simp [List.splitBy.loop, runsFrom, hhead]
  | cons a l ih =>
    intro ag g gs first hhead hkey
    by_cases hk : key a = key first
    · have hR : (key ag == key a) = true := by simp [hkey, hk]
      simp only [List.splitBy.loop, hR]
      rw [ih a (ag :: g) gs first (by
        simp only [List.reverse_cons, List.head?_append] at hhead ⊢
        rw [hhead]; rfl) hk]
      simp [runsFrom, hk]
    · have hR : (key ag == key a) = false := by
        simp only [beq_eq_false_iff_ne, ne_eq, hkey]
        exact fun e => hk e.symm
      simp only [List.splitBy.loop, hR]
      rw [ih a [] ((ag :: g).reverse :: gs) a (by simp) rfl]
      simp [runsFrom, hk, hhead]

theorem splitBy_runs (r : α) (rs : List α) :
    ((r :: rs).splitBy (fun a b => key a == key b)).map (fun run => (run.head?, run.length))
      = (runsFrom key r 1 rs).map (fun p => (some p.1, p.2)) := by
  have := splitBy_loop_runs key rs r [] [] r (by simp) rfl
  simpa [List.splitBy] using this

end Count

/-- C1: over a child that returns the rows of a non-empty finite list and then
-1 (whatever it would return after that), with a COUNT accumulator
(`init_sum_functions` sets it to 1, `update_sum_func` adds 1), draining
`AggregateIterator` after `Init()` puts out one row for each maximal run of
consecutive rows with equal group key, in the order of the runs, and then
returns -1; the row put out for a run carries the fields of the first row of
the run and the length of the run. -/
theorem C1_aggregate_count_per_run {α κ : Type} [DecidableEq κ] (key : α → κ)
    (pred : α → Bool) (grouped : Bool) (rows later : List α) (it0 : AggregateIterator)
    (fuel : Nat) (hne : rows ≠ []) (hfuel : rows.length < fuel) :
    ∃ it1 x1 s,
      AggregateIterator.Init (simEnv key pred grouped) it0
          ⟨{ Sim.start rows with later := later }, []⟩
        = some (false, it1, x1)
      ∧ drain (AggregateIterator.step (simEnv key pred grouped) fuel) countOut fuel (it1, x1)
        = some ((rows.splitBy (fun a b => key a == key b)).map
            (fun run => (run.head?, run.length)), -1, s) := by
  cases rows with
  | nil => exact absurd rfl hne
  | cons r rs =>
    simp only [List.length_cons] at hfuel
    obtain ⟨f, rfl⟩ : ∃ n, fuel = n + 1 := ⟨fuel - 1, by omega⟩
    obtain ⟨w1, cs1, hfirst, hw1⟩ := AggregateIterator.Read_sim_first key pred grouped (f + 1)
      ⟨true, false, 0, 0⟩ { Sim.start (r :: rs) with later := later }
      [Call.source_Init false] r rs rfl rfl rfl rfl
    obtain ⟨s, hs⟩ := AggregateIterator.aggregate_drainFrom_sim key pred grouped (f + 1) rs r 1
      (f + 1) f ⟨false, false, 0, 0⟩ w1 cs1 hw1 rfl rfl (by omega) (by omega) (by omega)
    refine ⟨⟨true, false, 0, 0⟩,
      ⟨{ Sim.start (r :: rs) with later := later }, [Call.source_Init false]⟩, s, rfl, ?_⟩
    rw [drain_succ, drainFrom_congr
      (AggregateIterator.step (simEnv key pred grouped) (f + 1))
      (fun s => AggregateIterator.readGroup (simEnv key pred grouped) (f + 1) s.1 s.2)
      _ _ _ (⟨true, false, 0, 0⟩,
        ⟨{ Sim.start (r :: rs) with later := later }, [Call.source_Init false]⟩)
      (⟨false, false, 0, 0⟩, ⟨w1, cs1⟩) hfirst, hs, splitBy_runs]

theorem C1_aggregate_count_per_run_witness :
    ∃ it1 x1 s,
      AggregateIterator.Init (simEnv (fun n : Nat => n) (fun _ => true) true)
          ⟨false, false, 0, 0⟩ ⟨{ Sim.start [1, 1, 2, 2, 2, 3] with later := [3] }, []⟩
        = some (false, it1, x1)
      ∧ drain (AggregateIterator.step (simEnv (fun n : Nat => n) (fun _ => true) true) 7)
          countOut 7 (it1, x1)
        = some ([(some 1, 2), (some 2, 3), (some 3, 1)], -1, s) :=
  C1_aggregate_count_per_run (fun n : Nat => n) (fun _ => true) true [1, 1, 2, 2, 2, 3] [3]
    ⟨false, false, 0, 0⟩ 7 (by decide) (by decide)

/-! ## End of stream in the iterators without a row counter -/

theorem FilterIterator.filter_eof_enters (E : Env W ι) (Done : W → Prop)
    (hs : StickyChild E Done) :
    ∀ (fuel : Nat) (x x1 : Exec W ι),
      FilterIterator.Read E fuel x = some (-1, x1) → Done x1.world := by
  intro fuel
  induction fuel with
  | zero => intro x x1 h; simp [FilterIterator.Read] at h
  | succ fuel ih =>
    intro x x1 h
    rw [FilterIterator.Read] at h
    simp only at h
    split at h
    · simp only [Option.some.injEq, Prod.mk.injEq] at h
      obtain ⟨h1, rfl⟩ := h
      exact hs.enters x.world h1
    · split at h
      · simp at h
      · split at h
        · simp at h
        · split at h
          · exact ih _ _ h
          · simp at h

theorem FilterIterator.filter_eof_stays (E : Env W ι) (Done : W → Prop)
    (hs : StickyChild E Done) (fuel : Nat) (x : Exec W ι) (hd : Done x.world) :
    FilterIterator.Read E (fuel + 1) x = some (-1, (m_source_Read E x).2)
      ∧ Done (m_source_Read E x).2.world := by
  have h := hs.stays x.world hd
  refine ⟨?_, h.2⟩
  rw [FilterIterator.Read]
  simp [m_source_Read, h.1]

theorem PrecomputedAggregateIterator.precomputed_eof_enters (E : Env W ι) (Done : W → Prop)
    (hs : StickyChild E Done) (x : Exec W ι)
    (h : (PrecomputedAggregateIterator.Read E x).1 = -1) :
    Done (PrecomputedAggregateIterator.Read E x).2.world := by
  unfold PrecomputedAggregateIterator.Read at h ⊢
  simp only at h ⊢
  split
  · rename_i h0
    rw [if_pos h0] at h
    exact hs.enters x.world h
  · rename_i h0
    rw [if_neg h0] at h
    split at h <;> simp at h

theorem PrecomputedAggregateIterator.precomputed_eof_stays (E : Env W ι) (Done : W → Prop)
    (hs : StickyChild E Done) (x : Exec W ι) (hd : Done x.world) :
    (PrecomputedAggregateIterator.Read E x).1 = -1
      ∧ Done (PrecomputedAggregateIterator.Read E x).2.world := by
  have h := hs.stays x.world hd
  unfold PrecomputedAggregateIterator.Read
  simp [m_source_Read, h.1, h.2]

theorem AggregateIterator.readGroup_status (E : Env W ι) :
    ∀ (fuel : Nat) (it it1 : AggregateIterator) (x x1 : Exec W ι) (st : Int),
      AggregateIterator.readGroup E fuel it x = some (st, it1, x1) → st = 0 ∨ st = 1 := by
  intro fuel
  induction fuel with
  | zero => intro it it1 x x1 st h; simp [AggregateIterator.readGroup] at h
  | succ fuel ih =>
    intro it it1 x x1 st h
    rw [AggregateIterator.readGroup] at h
    simp only at h
    split at h
    · simp only [Option.some.injEq, Prod.mk.injEq] at h
      exact Or.inr h.1.symm
    · split at h
      · simp only [Option.some.injEq, Prod.mk.injEq] at h
        exact Or.inl h.1.symm
      · split at h
        · simp only [Option.some.injEq, Prod.mk.injEq] at h
          exact Or.inl h.1.symm
        · split at h
          · simp only [Option.some.injEq, Prod.mk.injEq] at h
            exact Or.inr h.1.symm
          · exact ih _ _ _ _ _ h

theorem AggregateIterator.aggregate_eof_enters (E : Env W ι) (fuel : Nat)
    (it it1 : AggregateIterator) (x x1 : Exec W ι)
    (h : AggregateIterator.Read E fuel it x = some (-1, it1, x1)) : it1.m_eof = true := by
  have hnew : ∀ (it0 : AggregateIterator) (x0 : Exec W ι),
      AggregateIterator.newGroup E fuel it0 x0 = some (-1, it1, x1) → False := by
    intro it0 x0 h0
    unfold AggregateIterator.newGroup at h0
    simp only at h0
    split at h0
    · simp at h0
    · rcases AggregateIterator.readGroup_status E _ _ _ _ _ _ h0 with h1 | h1 <;>
        exact absurd h1 (by decide)
  unfold AggregateIterator.Read at h
  simp only at h
  split at h
  · rename_i he
    split at h
    · simp only [Option.some.injEq, Prod.mk.injEq, true_and] at h
      rw [← h.1]; exact he
    · simp only [Option.some.injEq, Prod.mk.injEq, true_and] at h
      rw [← h.1]; exact he
  · split at h
    · split at h
      · split at h
        · simp only [Option.some.injEq, Prod.mk.injEq, true_and] at h
          rw [← h.1]
        · split at h <;> simp at h
      · rename_i hne
        split at h
        · simp only [Option.some.injEq, Prod.mk.injEq] at h
          exact absurd h.1 hne
        · exact (hnew _ _ h).elim
    · exact (hnew _ _ h).elim

/-! ## Single steps of `LimitOffsetIterator` and the exhausted `AggregateIterator` -/

/-- C12: in every state of `LimitOffsetIterator` (with `m_limit` a value of
`ha_rows`), if `m_seen_rows` has reached `m_limit`, `Read()` returns -1 and
makes no call, so none on the child; otherwise it adds exactly one to
`m_seen_rows`, makes one call, `Read()` on the child, and returns the status
of the child unchanged. -/
theorem C12_limit_offset_read_step (E : Env W ι) (it : LimitOffsetIterator) (x : Exec W ι)
    (hlimit : it.m_limit < HA_ROWS_RANGE) :
    (it.m_limit ≤ it.m_seen_rows →
      (LimitOffsetIterator.Read E it x).1 = -1
      ∧ (LimitOffsetIterator.Read E it x).2.2 = x)
    ∧ (it.m_seen_rows < it.m_limit →
      (LimitOffsetIterator.Read E it x).1 = (E.source_Read x.world).1
      ∧ (LimitOffsetIterator.Read E it x).2.1.m_seen_rows = it.m_seen_rows + 1
      ∧ (LimitOffsetIterator.Read E it x).2.2.world = (E.source_Read x.world).2
      ∧ (LimitOffsetIterator.Read E it x).2.2.calls
          = x.calls ++ [Call.source_Read (E.source_Read x.world).1]) := by
  constructor
  · intro h
    rw [LimitOffsetIterator.Read_at_limit E it x h]
    exact ⟨rfl, rfl⟩
  · intro h
    rw [LimitOffsetIterator.Read_below_limit E it x h]
    refine ⟨rfl, ?_, rfl, rfl⟩
    exact Nat.mod_eq_of_lt (by omega)

theorem C12_limit_offset_read_step_witness :
    ((LimitOffsetIterator.Read (simEnv (fun n : Nat => n) (fun _ => true) false)
          ⟨3, 1, 3, none⟩ ⟨Sim.start [10, 11], []⟩).1 = -1
      ∧ (LimitOffsetIterator.Read (simEnv (fun n : Nat => n) (fun _ => true) false)
          ⟨3, 1, 3, none⟩ ⟨Sim.start [10, 11], []⟩).2.2 = ⟨Sim.start [10, 11], []⟩)
    ∧ ((LimitOffsetIterator.Read (simEnv (fun n : Nat => n) (fun _ => true) false)
          ⟨3, 1, 1, none⟩ ⟨Sim.start [10, 11], []⟩).1 = 0
      ∧ (LimitOffsetIterator.Read (simEnv (fun n : Nat => n) (fun _ => true) false)
          ⟨3, 1, 1, none⟩ ⟨Sim.start [10, 11], []⟩).2.1.m_seen_rows = 1 + 1
      ∧ (LimitOffsetIterator.Read (simEnv (fun n : Nat => n) (fun _ => true) false)
          ⟨3, 1, 1, none⟩ ⟨Sim.start [10, 11], []⟩).2.2.world
          = { Sim.start [11] with row := some 10 }
      ∧ (LimitOffsetIterator.Read (simEnv (fun n : Nat => n) (fun _ => true) false)
          ⟨3, 1, 1, none⟩ ⟨Sim.start [10, 11], []⟩).2.2.calls
          = [] ++ [Call.source_Read 0]) :=
  ⟨(C12_limit_offset_read_step (simEnv (fun n : Nat => n) (fun _ => true) false)
      ⟨3, 1, 3, none⟩ ⟨Sim.start [10, 11], []⟩ (by decide)).1 (by decide),
    (C12_limit_offset_read_step (simEnv (fun n : Nat => n) (fun _ => true) false)
      ⟨3, 1, 1, none⟩ ⟨Sim.start [10, 11], []⟩ (by decide)).2 (by decide)⟩

/-- C13: in the exhausted state (`m_eof` set) with `m_save_nullinfo` holding a
mask other than 0, any `k + 1` calls of `Read()` all return -1 and make one
call in total, `restore_fields` with that mask, made by the first of them,
which also sets `m_save_nullinfo` to 0; so none of them calls the child,
switches the slice or touches an accumulator.  With `m_save_nullinfo = 0` in
the exhausted state any `k` calls return -1 and make no call at all. -/
theorem C13_exhausted_restores_once (E : Env W ι) (it : AggregateIterator) (x : Exec W ι)
    (fuel k : Nat) (heof : it.m_eof = true) :
    (it.m_save_nullinfo ≠ 0 →
      AggregateIterator.Read E fuel it x
          = some (-1, { it with m_save_nullinfo := 0 },
              ⟨E.restore_fields it.m_save_nullinfo x.world,
                x.calls ++ [Call.restore_fields it.m_save_nullinfo]⟩)
      ∧ readSeq (AggregateIterator.step E fuel) (k + 1) (it, x)
          = some (List.replicate (k + 1) (-1),
              ({ it with m_save_nullinfo := 0 },
                ⟨E.restore_fields it.m_save_nullinfo x.world,
                  x.calls ++ [Call.restore_fields it.m_save_nullinfo]⟩)))
    ∧ (it.m_save_nullinfo = 0 →
      readSeq (AggregateIterator.step E fuel) k (it, x)
        = some (List.replicate k (-1), (it, x))) := by
  constructor
  · intro h0
    have h1 : AggregateIterator.Read E fuel it x
        = some (-1, { it with m_save_nullinfo := 0 },
            ⟨E.restore_fields it.m_save_nullinfo x.world,
              x.calls ++ [Call.restore_fields it.m_save_nullinfo]⟩) := by
      rw [AggregateIterator.Read_eof E fuel it x heof, if_pos h0]
      rfl
    refine ⟨h1, ?_⟩
    have h2 := AggregateIterator.readSeq_eof_clean E fuel k { it with m_save_nullinfo := 0 }
      ⟨E.restore_fields it.m_save_nullinfo x.world,
        x.calls ++ [Call.restore_fields it.m_save_nullinfo]⟩ heof rfl
    simp only [readSeq, AggregateIterator.step] at h2 ⊢
    simp only [h1, h2, List.replicate_succ]
  · intro h0
    exact AggregateIterator.readSeq_eof_clean E fuel k it x heof h0

theorem C13_exhausted_restores_once_witness :
    (AggregateIterator.Read (simEnv (fun n : Nat => n) (fun _ => true) false) 1
          ⟨false, true, 1, 0⟩ ⟨{ (Sim.start [] : Sim Nat Nat) with null_row := true }, []⟩
          = some (-1, ⟨false, true, 0, 0⟩,
              ⟨Sim.start [], [] ++ [Call.restore_fields 1]⟩)
      ∧ readSeq (AggregateIterator.step (simEnv (fun n : Nat => n) (fun _ => true) false) 1)
          (2 + 1)
          (⟨false, true, 1, 0⟩, ⟨{ (Sim.start [] : Sim Nat Nat) with null_row := true }, []⟩)
          = some (List.replicate (2 + 1) (-1),
              (⟨false, true, 0, 0⟩, ⟨Sim.start [], [] ++ [Call.restore_fields 1]⟩)))
    ∧ readSeq (AggregateIterator.step (simEnv (fun n : Nat => n) (fun _ => true) false) 1) 2
          (⟨false, true, 0, 0⟩, ⟨(Sim.start [] : Sim Nat Nat), []⟩)
        = some (List.replicate 2 (-1),
            (⟨false, true, 0, 0⟩, ⟨(Sim.start [] : Sim Nat Nat), []⟩)) :=
  ⟨(C13_exhausted_restores_once (simEnv (fun n : Nat => n) (fun _ => true) false)
      ⟨false, true, 1, 0⟩ ⟨{ (Sim.start [] : Sim Nat Nat) with null_row := true }, []⟩
      1 2 rfl).1 (by decide),
    (C13_exhausted_restores_once (simEnv (fun n : Nat => n) (fun _ => true) false)
      ⟨false, true, 0, 0⟩ ⟨(Sim.start [] : Sim Nat Nat), []⟩ 1 2 rfl).2 rfl⟩

/-- C14: `UnlockRow()` of `AggregateIterator` and of
`PrecomputedAggregateIterator` changes nothing: the fields of the iterator,
the world (with the active slice and the accumulators) and the record of calls
are the same after it, so no call is made on the child. -/
theorem C14_unlock_row_is_noop (E : Env W ι) (it : AggregateIterator) (x : Exec W ι) :
    AggregateIterator.UnlockRow E it x = (it, x)
      ∧ PrecomputedAggregateIterator.UnlockRow E x = x :=
  ⟨rfl, rfl⟩

/-! ## The states of `AggregateIterator` -/

theorem AggregateIterator.readGroup_first_row (E : Env W ι) :
    ∀ (fuel : Nat) (it it1 : AggregateIterator) (x x1 : Exec W ι) (st : Int),
      AggregateIterator.readGroup E fuel it x = some (st, it1, x1) →
      it1.m_first_row = it.m_first_row := by
  intro fuel
  induction fuel with
  | zero => intro it it1 x x1 st h; simp [AggregateIterator.readGroup] at h
  | succ fuel ih =>
    intro it it1 x x1 st h
    rw [AggregateIterator.readGroup] at h
    simp only at h
    split at h
    · simp only [Option.some.injEq, Prod.mk.injEq] at h
      rw [← h.2.1]
    · split at h
      · simp only [Option.some.injEq, Prod.mk.injEq] at h
        rw [← h.2.1]
      · split at h
        · simp only [Option.some.injEq, Prod.mk.injEq] at h
          rw [← h.2.1]
        · split at h
          · simp only [Option.some.injEq, Prod.mk.injEq] at h
            rw [← h.2.1]
          · exact ih _ _ _ _ _ h

theorem AggregateIterator.newGroup_first_row (E : Env W ι) (fuel : Nat)
    (it it1 : AggregateIterator) (x x1 : Exec W ι) (st : Int)
    (h : AggregateIterator.newGroup E fuel it x = some (st, it1, x1)) :
    it1.m_first_row = it.m_first_row := by
  unfold AggregateIterator.newGroup at h
  simp only at h
  split at h
  · simp only [Option.some.injEq, Prod.mk.injEq] at h
    rw [← h.2.1]
  · exact AggregateIterator.readGroup_first_row E _ _ _ _ _ _ h

theorem AggregateIterator.Read_leaves_first_row (E : Env W ι) (fuel : Nat)
    (it it1 : AggregateIterator) (x x1 : Exec W ι) (st : Int)
    (heof : it.m_eof = false)
    (h : AggregateIterator.Read E fuel it x = some (st, it1, x1)) :
    it1.m_first_row = false := by
  unfold AggregateIterator.Read at h
  simp only [heof, Bool.false_eq_true, if_false] at h
  split at h
  · split at h
    · split at h
      · simp only [Option.some.injEq, Prod.mk.injEq] at h
        rw [← h.2.1]
      · split at h
        · simp only [Option.some.injEq, Prod.mk.injEq] at h
          rw [← h.2.1]
        · simp only [Option.some.injEq, Prod.mk.injEq] at h
          rw [← h.2.1]
    · split at h
      · simp only [Option.some.injEq, Prod.mk.injEq] at h
        rw [← h.2.1]
      · exact AggregateIterator.newGroup_first_row E _ _ _ _ _ _ h
  · rename_i hfr
    rw [AggregateIterator.newGroup_first_row E _ _ _ _ _ _ h]
    simpa using hfr

theorem AggregateIterator.Read_exhausted (E : Env W ι) (fuel : Nat)
    (it it1 : AggregateIterator) (x x1 : Exec W ι) (st : Int)
    (heof : it.m_eof = true)
    (h : AggregateIterator.Read E fuel it x = some (st, it1, x1)) :
    st = -1 ∧ it1.m_eof = true ∧ it1.m_first_row = it.m_first_row := by
  rw [AggregateIterator.Read_eof E fuel it x heof] at h
  simp only [Option.some.injEq, Prod.mk.injEq] at h
  obtain ⟨rfl, rfl, _⟩ := h
  exact ⟨rfl, heof, rfl⟩

theorem AggregateIterator.Reachable_states (E : Env W ι)
    (s : AggregateIterator × Exec W ι) (hr : AggregateIterator.Reachable E s) :
    ¬ (s.1.m_first_row = true ∧ s.1.m_eof = true) := by
  induction hr with
  | init it0 it x0 x h =>
    rw [AggregateIterator.Init_ok E it0 it x0 x h]
    simp
  | read fuel st it it1 x x1 _ h ih =>
    cases heof : it.m_eof with
    | false =>
      have := AggregateIterator.Read_leaves_first_row E fuel it it1 x x1 st heof h
      simp [this]
    | true =>
      obtain ⟨_, h1, h2⟩ := AggregateIterator.Read_exhausted E fuel it it1 x x1 st heof h
      simp only [h1, h2, and_true]
      intro hfr
      exact ih ⟨hfr, heof⟩
  | unlock it x _ ih => exact ih

/-- C19: in every state of `AggregateIterator` reachable from a successful
`Init()` by `Read()` and `UnlockRow()` calls, over any collaborators, the pair
(`m_first_row`, `m_eof`) is (true, false), (false, false) or (false, true); a
successful `Init()` yields (true, false) with `m_save_nullinfo = 0` whatever
the state before; a `Read()` in the state (true, false) clears `m_first_row`;
and a `Read()` in a state with `m_eof` set returns -1 and leaves both flags as
they are. -/
theorem C19_aggregate_three_states (E : Env W ι) :
    (∀ (it : AggregateIterator) (x : Exec W ι), AggregateIterator.Reachable E (it, x) →
      (it.m_first_row = true ∧ it.m_eof = false)
      ∨ (it.m_first_row = false ∧ it.m_eof = false)
      ∨ (it.m_first_row = false ∧ it.m_eof = true))
    ∧ (∀ (it0 it : AggregateIterator) (x0 x : Exec W ι),
      AggregateIterator.Init E it0 x0 = some (false, it, x) →
      it.m_first_row = true ∧ it.m_eof = false ∧ it.m_save_nullinfo = 0)
    ∧ (∀ (fuel : Nat) (st : Int) (it it1 : AggregateIterator) (x x1 : Exec W ι),
      it.m_first_row = true → it.m_eof = false →
      AggregateIterator.Read E fuel it x = some (st, it1, x1) → it1.m_first_row = false)
    ∧ (∀ (fuel : Nat) (st : Int) (it it1 : AggregateIterator) (x x1 : Exec W ι),
      it.m_eof = true →
      AggregateIterator.Read E fuel it x = some (st, it1, x1) →
      st = -1 ∧ it1.m_eof = true ∧ it1.m_first_row = it.m_first_row) := by
  refine ⟨?_, ?_, ?_, ?_⟩
  · intro it x hr
    have h := AggregateIterator.Reachable_states E (it, x) hr
    cases h1 : it.m_first_row <;> cases h2 : it.m_eof <;> simp_all
  · intro it0 it x0 x h
    rw [AggregateIterator.Init_ok E it0 it x0 x h]
    exact ⟨rfl, rfl, rfl⟩
  · intro fuel st it it1 x x1 _ heof h
    exact AggregateIterator.Read_leaves_first_row E fuel it it1 x x1 st heof h
  · intro fuel st it it1 x x1 heof h
    exact AggregateIterator.Read_exhausted E fuel it it1 x x1 st heof h

theorem C19_aggregate_three_states_witness :
    ((true = true ∧ false = false) ∨ (true = false ∧ false = false)
        ∨ (true = false ∧ false = true))
    ∧ ((false = true ∧ false = false) ∨ (false = false ∧ false = false)
        ∨ (false = false ∧ false = true))
    ∧ ((false = true ∧ true = false) ∨ (false = false ∧ true = false)
        ∨ (false = false ∧ true = true))
    ∧ (true = true ∧ false = false ∧ 0 = 0)
    ∧ false = false
    ∧ ((-1 : Int) = -1 ∧ true = true ∧ false = false) :=
  have h := C19_aggregate_three_states (simEnv (fun n : Nat => n) (fun _ => true) true)
  have r0 : AggregateIterator.Reachable (simEnv (fun n : Nat => n) (fun _ => true) true)
      (⟨true, false, 0, 0⟩, ⟨Sim.start [1], [Call.source_Init false]⟩) :=
    AggregateIterator.Reachable.init ⟨false, true, 5, 7⟩ _ ⟨Sim.start [1], []⟩ _ rfl
  have r1 : AggregateIterator.Reachable (simEnv (fun n : Nat => n) (fun _ => true) true)
      (⟨false, true, 0, 0⟩,
        ⟨{ (Sim.start [] : Sim Nat Nat) with
            row := some 1, slice := 3, group_row := some 1, cache := some 1, count := 1 },
          [Call.source_Init false, Call.set_ref_item_slice 0, Call.source_Read 0,
            Call.Switch_ref_item_slice 3, Call.copy_fields false,
            Call.update_item_cache_if_changed 0, Call.init_sum_functions false,
            Call.Switch_ref_item_slice_leave, Call.source_Read (-1),
            Call.set_ref_item_slice 3]⟩) :=
    AggregateIterator.Reachable.unlock _ _
      (AggregateIterator.Reachable.read 5 0 _ _ _ _ r0 rfl)
  have r2 : AggregateIterator.Reachable (simEnv (fun n : Nat => n) (fun _ => true) true)
      (⟨false, false, 0, 0⟩,
        ⟨{ (Sim.start [] : Sim Nat Nat) with
            row := some 2, slice := 3, group_row := some 1, cache := some 2, count := 1 },
          [Call.source_Init false, Call.set_ref_item_slice 0, Call.source_Read 0,
            Call.Switch_ref_item_slice 3, Call.copy_fields false,
            Call.update_item_cache_if_changed 0, Call.init_sum_functions false,
            Call.Switch_ref_item_slice_leave, Call.source_Read 0,
            Call.update_item_cache_if_changed 0, Call.set_ref_item_slice 3]⟩) :=
    AggregateIterator.Reachable.read 5 0 ⟨true, false, 0, 0⟩ _
      ⟨Sim.start [1, 2], [Call.source_Init false]⟩ _
      (AggregateIterator.Reachable.init ⟨false, true, 5, 7⟩ _ ⟨Sim.start [1, 2], []⟩ _ rfl) rfl
  ⟨h.1 _ _ r0, h.1 _ _ r2, h.1 _ _ r1,
    h.2.1 ⟨false, true, 5, 7⟩ ⟨true, false, 0, 0⟩ ⟨Sim.start [1], []⟩
      ⟨Sim.start [1], [Call.source_Init false]⟩ rfl,
    h.2.2.1 5 0 ⟨true, false, 0, 0⟩ ⟨false, false, 0, 0⟩
      ⟨Sim.start [1, 2], [Call.source_Init false]⟩ _ rfl rfl rfl,
    h.2.2.2 5 (-1) ⟨false, true, 0, 0⟩ ⟨false, true, 0, 0⟩
      ⟨(Sim.start [] : Sim Nat Nat), []⟩ ⟨Sim.start [], []⟩ rfl rfl⟩

/-! ## The skip loop of `LimitOffsetIterator::Init()` -/

theorem LimitOffsetIterator.skip_err (E : Env W ι) (o : Nat) (it : LimitOffsetIterator)
    (x : Exec W ι) (h : (E.source_Read x.world).1 = 1) :
    LimitOffsetIterator.skip E (o + 1) it x = (true, it, (m_source_Read E x).2) := by
  simp [LimitOffsetIterator.skip, m_source_Read, h]

theorem LimitOffsetIterator.skip_eof (E : Env W ι) (o : Nat) (it : LimitOffsetIterator)
    (x : Exec W ι) (h : (E.source_Read x.world).1 = -1) :
    LimitOffsetIterator.skip E (o + 1) it x
      = (false, { it with m_seen_rows := it.m_offset }, (m_source_Read E x).2) := by
  simp [LimitOffsetIterator.skip, m_source_Read, h]

theorem LimitOffsetIterator.skip_row (E : Env W ι) (o : Nat) (it : LimitOffsetIterator)
    (x : Exec W ι) (h1 : (E.source_Read x.world).1 ≠ 1) (h2 : (E.source_Read x.world).1 ≠ -1) :
    LimitOffsetIterator.skip E (o + 1) it x
      = LimitOffsetIterator.skip E o
          { it with
            m_skipped_rows := it.m_skipped_rows.map (fun c => (c + 1) % HA_ROWS_RANGE) }
          (m_source_UnlockRow E (m_source_Read E x).2) := by
  simp [LimitOffsetIterator.skip, m_source_Read, h1, h2]

theorem mem_skipCalls (e : Int) :
    ∀ es : List Int, Call.source_Read e ∈ (skipCalls es : List (Call ι)) ↔ e ∈ es := by
  intro es
  induction es with
  | nil => simp [skipCalls]
  | cons a es ih => simp [skipCalls, ih]

/-- The skip loop reads rows with statuses `es`, none of them 1 or -1, unlocks
each, and stops after `o` rows (`fin = []`) or at a status 1 or -1. -/
theorem LimitOffsetIterator.skip_calls (E : Env W ι) :
    ∀ (o : Nat) (it : LimitOffsetIterator) (x : Exec W ι),
      ∃ es fin,
        (LimitOffsetIterator.skip E o it x).2.2.calls = x.calls ++ (skipCalls es ++ fin)
        ∧ (∀ e ∈ es, e ≠ 1 ∧ e ≠ -1)
        ∧ ((fin = [] ∧ es.length = o ∧ (LimitOffsetIterator.skip E o it x).1 = false)
          ∨ (fin = [Call.source_Read 1] ∧ es.length < o
              ∧ (LimitOffsetIterator.skip E o it x).1 = true)
          ∨ (fin = [Call.source_Read (-1)] ∧ es.length < o
              ∧ (LimitOffsetIterator.skip E o it x).1 = false))
        ∧ ((∀ c ∈ it.m_skipped_rows, c < HA_ROWS_RANGE) →
            (LimitOffsetIterator.skip E o it x).2.1.m_skipped_rows
              = it.m_skipped_rows.map (fun c => (c + es.length) % HA_ROWS_RANGE))
        ∧ ((∀ e ∈ es, e = 0) → ∀ fuel n, rowsBeforeStop E fuel x.world = some n →
            es.length = min o n) := by
  intro o
  induction o with
  | zero =>
    intro it x
    refine ⟨[], [], by simp [LimitOffsetIterator.skip, skipCalls], by simp,
      Or.inl ⟨rfl, rfl, rfl⟩, ?_, by simp⟩
    intro hc
    cases hm : it.m_skipped_rows with
    | none => simp [LimitOffsetIterator.skip, hm]
    | some c =>
      have := hc c (by simp [hm])
      simp [LimitOffsetIterator.skip, hm, Nat.mod_eq_of_lt this]
  | succ o ih =>
    intro it x
    by_cases h1 : (E.source_Read x.world).1 = 1
    · rw [LimitOffsetIterator.skip_err E o it x h1]
      refine ⟨[], [Call.source_Read 1], by simp [m_source_Read, h1, skipCalls], by simp,
        Or.inr (Or.inl ⟨rfl, by simp, rfl⟩), ?_, ?_⟩
      · intro hc
        cases hm : it.m_skipped_rows with
        | none => simp
        | some c =>
          have := hc c (by simp [hm])
          simp [Nat.mod_eq_of_lt this]
      · intro _ fuel n hn
        cases fuel with
        | zero => simp [rowsBeforeStop] at hn
        | succ fuel =>
          simp only [rowsBeforeStop, h1] at hn
          simp at hn
          simp [← hn]
    · by_cases h2 : (E.source_Read x.world).1 = -1
      · rw [LimitOffsetIterator.skip_eof E o it x h2]
        refine ⟨[], [Call.source_Read (-1)], by simp [m_source_Read, h2, skipCalls], by simp,
          Or.inr (Or.inr ⟨rfl, by simp, rfl⟩), ?_, ?_⟩
        · intro hc
          cases hm : it.m_skipped_rows with
          | none => simp
          | some c =>
            have := hc c (by simp [hm])
            simp [Nat.mod_eq_of_lt this]
        · intro _ fuel n hn
          cases fuel with
          | zero => simp [rowsBeforeStop] at hn
          | succ fuel =>
            simp only [rowsBeforeStop, h2] at hn
            simp at hn
            simp [← hn]
      · rw [LimitOffsetIterator.skip_row E o it x h1 h2]
        obtain ⟨es, fin, hcalls, hes, hfin, hcnt, hmin⟩ := ih
          { it with
            m_skipped_rows := it.m_skipped_rows.map (fun c => (c + 1) % HA_ROWS_RANGE) }
          (m_source_UnlockRow E (m_source_Read E x).2)
        refine ⟨(E.source_Read x.world).1 :: es, fin, ?_, ?_, ?_, ?_, ?_⟩
        · rw [hcalls]
          simp [m_source_UnlockRow, m_source_Read, skipCalls]
        · intro e he
          rcases List.mem_cons.1 he with rfl | he
          · exact ⟨h1, h2⟩
          · exact hes e he
        · rcases hfin with ⟨a, b, c⟩ | ⟨a, b, c⟩ | ⟨a, b, c⟩
          · exact Or.inl ⟨a, by simp [b], c⟩
          · exact Or.inr (Or.inl ⟨a, by simp [b], c⟩)
          · exact Or.inr (Or.inr ⟨a, by simp [b], c⟩)
        · intro _
          rw [hcnt]
          · cases hm : it.m_skipped_rows with
            | none => simp
            | some c =>
              simp
              rw [Nat.add_assoc, Nat.add_comm 1]
          · intro c hc
            cases hm : it.m_skipped_rows with
            | none => simp [hm] at hc
            | some c0 =>
              simp [hm] at hc
              rw [← hc]
              exact Nat.mod_lt _ (by unfold HA_ROWS_RANGE; positivity)
        · intro hz fuel n hn
          have h0 : (E.source_Read x.world).1 = 0 := hz _ (List.mem_cons_self _ _)
          cases fuel with
          | zero => simp [rowsBeforeStop] at hn
          | succ fuel =>
            simp only [rowsBeforeStop, h0, if_true, Option.map_eq_some'] at hn
            obtain ⟨n1, hn1, rfl⟩ := hn
            have := hmin (fun e he => hz e (List.mem_cons_of_mem _ he)) fuel n1
              (by simpa [m_source_UnlockRow, m_source_Read] using hn1)
            simp only [List.length_cons, this]
            omega

/-- The result of the skip loop and the calls it makes do not depend on the
fields of the iterator, so not on the counter behind `m_skipped_rows`. -/
theorem LimitOffsetIterator.skip_counter_free (E : Env W ι) :
    ∀ (o : Nat) (it it1 : LimitOffsetIterator) (x : Exec W ι),
      (LimitOffsetIterator.skip E o it x).1 = (LimitOffsetIterator.skip E o it1 x).1
      ∧ (LimitOffsetIterator.skip E o it x).2.2 = (LimitOffsetIterator.skip E o it1 x).2.2 := by
  intro o
  induction o with
  | zero => intro it it1 x; exact ⟨rfl, rfl⟩
  | succ o ih =>
    intro it it1 x
    by_cases h1 : (E.source_Read x.world).1 = 1
    · rw [LimitOffsetIterator.skip_err E o it x h1, LimitOffsetIterator.skip_err E o it1 x h1]
      exact ⟨rfl, rfl⟩
    · by_cases h2 : (E.source_Read x.world).1 = -1
      · rw [LimitOffsetIterator.skip_eof E o it x h2, LimitOffsetIterator.skip_eof E o it1 x h2]
        exact ⟨rfl, rfl⟩
      · rw [LimitOffsetIterator.skip_row E o it x h1 h2,
          LimitOffsetIterator.skip_row E o it1 x h1 h2]
        exact ih _ _ _

/-- C11: `LimitOffsetIterator::Init()` makes the calls `source_Init` and then
`t` on the child.  It returns `true` exactly when the child's `Init()` failed
or a child `Read()` of `t` returned 1 with no child `Read()` that returned -1
before it; when the child's `Init()` failed, `t` is empty (no `Read()` or
`UnlockRow()` on the child) and the fields of the iterator, the counter behind
`m_skipped_rows` among them, are unchanged; and a child `Read()` that returned
1 is the last call of `t`. -/
theorem C11_limit_offset_init_failure (E : Env W ι) (it : LimitOffsetIterator)
    (x : Exec W ι) :
    ∃ t,
      (LimitOffsetIterator.Init E it x).2.2.calls
        = x.calls ++ Call.source_Init (E.source_Init x.world).1 :: t
      ∧ ((LimitOffsetIterator.Init E it x).1 = true ↔
          ((E.source_Init x.world).1 = true
            ∨ ∃ pre post, t = pre ++ Call.source_Read 1 :: post
                ∧ Call.source_Read (-1) ∉ pre))
      ∧ ((E.source_Init x.world).1 = true →
          t = [] ∧ (LimitOffsetIterator.Init E it x).2.1 = it)
      ∧ (∀ pre post, t = pre ++ Call.source_Read 1 :: post → post = []) := by
  cases hf : (E.source_Init x.world).1 with
  | true =>
    have hI : LimitOffsetIterator.Init E it x = (true, it, (m_source_Init E x).2) := by
      simp [LimitOffsetIterator.Init, m_source_Init, hf]
    refine ⟨[], ?_, ?_, ?_, ?_⟩
    · rw [hI]
      simp [m_source_Init, hf]
    · rw [hI]
      simp
    · intro _
      exact ⟨rfl, by rw [hI]⟩
    · intro pre post h
      exact ((nil_ne_append_cons _ _ _).1 h).elim
  | false =>
    have hI : LimitOffsetIterator.Init E it x
        = LimitOffsetIterator.skip E it.m_offset it (m_source_Init E x).2 := by
      simp [LimitOffsetIterator.Init, m_source_Init, hf]
    obtain ⟨es, fin, hcalls, hes, hfin, _, _⟩ :=
      LimitOffsetIterator.skip_calls E it.m_offset it (m_source_Init E x).2
    have hno1 : Call.source_Read 1 ∉ (skipCalls es : List (Call ι)) :=
      fun h => (hes 1 ((mem_skipCalls 1 es).1 h)).1 rfl
    have hnom : Call.source_Read (-1) ∉ (skipCalls es : List (Call ι)) :=
      fun h => (hes (-1) ((mem_skipCalls (-1) es).1 h)).2 rfl
    refine ⟨skipCalls es ++ fin, ?_, ?_, ?_, ?_⟩
    · rw [hI, hcalls]
      simp [m_source_Init, hf]
    · rw [hI]
      rcases hfin with ⟨rfl, _, hr⟩ | ⟨rfl, _, hr⟩ | ⟨rfl, _, hr⟩
      · constructor
        · intro h
          rw [hr] at h
          cases h
        · rintro (h | ⟨pre, post, h, _⟩)
          · cases h
          · exact (no_err_of_not_mem _ hno1 pre post (by simpa using h)).elim
      · constructor
        · intro _
          exact Or.inr ⟨skipCalls es, [], rfl, hnom⟩
        · intro _
          exact hr
      · constructor
        · intro h
          rw [hr] at h
          cases h
        · rintro (h | ⟨pre, post, h, _⟩)
          · cases h
          · obtain ⟨pre1, _, h1⟩ := split_of_not_mem _ _ _ _ hno1 h
            simp [cons_eq_append_cons, nil_ne_append_cons] at h1
    · intro h
      cases h
    · intro pre post h
      obtain ⟨pre1, _, h1⟩ := split_of_not_mem _ _ _ _ hno1 h
      rcases hfin with ⟨rfl, _, _⟩ | ⟨rfl, _, _⟩ | ⟨rfl, _, _⟩
      · exact ((nil_ne_append_cons _ _ _).1 h1).elim
      · simp [cons_eq_append_cons, nil_ne_append_cons] at h1
        exact h1.2
      · simp [cons_eq_append_cons, nil_ne_append_cons] at h1

theorem C11_limit_offset_init_failure_witness :
    ∃ t,
      (LimitOffsetIterator.Init (simEnv (fun n : Nat => n) (fun _ => true) false)
          ⟨5, 3, 0, some 7⟩ ⟨{ (Sim.start [10] : Sim Nat Nat) with after := 1 }, []⟩).2.2.calls
        = [] ++ Call.source_Init false :: t
      ∧ ((LimitOffsetIterator.Init (simEnv (fun n : Nat => n) (fun _ => true) false)
          ⟨5, 3, 0, some 7⟩ ⟨{ (Sim.start [10] : Sim Nat Nat) with after := 1 }, []⟩).1 = true ↔
          (false = true
            ∨ ∃ pre post, t = pre ++ Call.source_Read 1 :: post
                ∧ Call.source_Read (-1) ∉ pre))
      ∧ (false = true →
          t = [] ∧ (LimitOffsetIterator.Init (simEnv (fun n : Nat => n) (fun _ => true) false)
            ⟨5, 3, 0, some 7⟩
            ⟨{ (Sim.start [10] : Sim Nat Nat) with after := 1 }, []⟩).2.1 = ⟨5, 3, 0, some 7⟩)
      ∧ (∀ pre post, t = pre ++ Call.source_Read 1 :: post → post = []) :=
  C11_limit_offset_init_failure (simEnv (fun n : Nat => n) (fun _ => true) false)
    ⟨5, 3, 0, some 7⟩ ⟨{ (Sim.start [10] : Sim Nat Nat) with after := 1 }, []⟩

/-- C18: after a successful `Init()` of the child, with every status the
child's `Read()` returns during the skip being 0, 1 or -1 and with a counter
`c` behind `m_skipped_rows`, the skip loop of `LimitOffsetIterator::Init()`
makes `j` rounds of a child `Read()` that returns 0 followed by one child
`UnlockRow()`, and then stops: with `j = m_offset`, or after one more child
`Read()` that returned a status other than 0, with `j < m_offset`.  So `j` is
the minimum of `m_offset` and the number of rows the child returns before its
first status other than 0; the counter goes up by `j` (in `ha_rows`
arithmetic); and with no counter (`nullptr`) the result, the world and the
calls are the same. -/
theorem C18_skip_accounting (E : Env W ι) (it : LimitOffsetIterator) (x : Exec W ι)
    (c : Nat) (hinit : (E.source_Init x.world).1 = false)
    (hst : ∀ e, Call.source_Read e
        ∈ (LimitOffsetIterator.Init E it x).2.2.calls.drop x.calls.length →
      e = 0 ∨ e = 1 ∨ e = -1)
    (hc : it.m_skipped_rows = some c) (hcr : c < HA_ROWS_RANGE) :
    ∃ j fin,
      (LimitOffsetIterator.Init E it x).2.2.calls
        = x.calls ++ Call.source_Init false :: (skipCalls (List.replicate j 0) ++ fin)
      ∧ ((fin = [] ∧ j = it.m_offset)
        ∨ (∃ e, e ≠ 0 ∧ fin = [Call.source_Read e] ∧ j < it.m_offset))
      ∧ (∀ fuel n, rowsBeforeStop E fuel (E.source_Init x.world).2 = some n →
          j = min it.m_offset n)
      ∧ (LimitOffsetIterator.Init E it x).2.1.m_skipped_rows
          = some ((c + j) % HA_ROWS_RANGE)
      ∧ (LimitOffsetIterator.Init E { it with m_skipped_rows := none } x).1
          = (LimitOffsetIterator.Init E it x).1
      ∧ (LimitOffsetIterator.Init E { it with m_skipped_rows := none } x).2.2
          = (LimitOffsetIterator.Init E it x).2.2 := by
  have hI : ∀ it1 : LimitOffsetIterator, LimitOffsetIterator.Init E it1 x
      = LimitOffsetIterator.skip E it1.m_offset it1 (m_source_Init E x).2 := by
    intro it1
    simp [LimitOffsetIterator.Init, m_source_Init, hinit]
  obtain ⟨es, fin, hcalls, hes, hfin, hcnt, hmin⟩ :=
    LimitOffsetIterator.skip_calls E it.m_offset it (m_source_Init E x).2
  have hcalls1 : (LimitOffsetIterator.Init E it x).2.2.calls
      = x.calls ++ Call.source_Init false :: (skipCalls es ++ fin) := by
    rw [hI, hcalls]
    simp [m_source_Init, hinit]
  have hz : ∀ e ∈ es, e = 0 := by
    intro e he
    have hm : Call.source_Read e
        ∈ (LimitOffsetIterator.Init E it x).2.2.calls.drop x.calls.length := by
      rw [hcalls1, List.drop_left]
      simp [mem_skipCalls, he]
    rcases hst e hm with h | h | h
    · exact h
    · exact ((hes e he).1 h).elim
    · exact ((hes e he).2 h).elim
  have hrep : es = List.replicate es.length 0 :=
    List.eq_replicate_iff.2 ⟨rfl, hz⟩
  refine ⟨es.length, fin, ?_, ?_, ?_, ?_, ?_, ?_⟩
  · rw [hcalls1, ← hrep]
  · rcases hfin with ⟨a, b, _⟩ | ⟨a, b, _⟩ | ⟨a, b, _⟩
    · exact Or.inl ⟨a, b⟩
    · exact Or.inr ⟨1, by decide, a, b⟩
    · exact Or.inr ⟨-1, by decide, a, b⟩
  · intro fuel n hn
    exact hmin hz fuel n (by simpa [m_source_Init] using hn)
  · rw [hI, hcnt, hc]
    · rfl
    · intro c1 h1
      rw [hc] at h1
      cases h1
      exact hcr
  · rw [hI, hI]
    exact (LimitOffsetIterator.skip_counter_free E it.m_offset _ _ _).1
  · rw [hI, hI]
    exact (LimitOffsetIterator.skip_counter_free E it.m_offset _ _ _).2

theorem C18_skip_accounting_witness :
    ∃ j fin,
      (LimitOffsetIterator.Init (simEnv (fun n : Nat => n) (fun _ => true) false)
          ⟨9, 2, 0, some 5⟩ ⟨(Sim.start [10, 11, 12] : Sim Nat Nat), []⟩).2.2.calls
        = [] ++ Call.source_Init false :: (skipCalls (List.replicate j 0) ++ fin)
      ∧ ((fin = [] ∧ j = 2) ∨ (∃ e, e ≠ 0 ∧ fin = [Call.source_Read e] ∧ j < 2))
      ∧ (∀ fuel n, rowsBeforeStop (simEnv (fun n : Nat => n) (fun _ => true) false) fuel
            (Sim.start [10, 11, 12] : Sim Nat Nat) = some n →
          j = min 2 n)
      ∧ (LimitOffsetIterator.Init (simEnv (fun n : Nat => n) (fun _ => true) false)
          ⟨9, 2, 0, some 5⟩
          ⟨(Sim.start [10, 11, 12] : Sim Nat Nat), []⟩).2.1.m_skipped_rows
          = some ((5 + j) % HA_ROWS_RANGE)
      ∧ (LimitOffsetIterator.Init (simEnv (fun n : Nat => n) (fun _ => true) false)
          ⟨9, 2, 0, none⟩ ⟨(Sim.start [10, 11, 12] : Sim Nat Nat), []⟩).1
          = (LimitOffsetIterator.Init (simEnv (fun n : Nat => n) (fun _ => true) false)
              ⟨9, 2, 0, some 5⟩ ⟨(Sim.start [10, 11, 12] : Sim Nat Nat), []⟩).1
      ∧ (LimitOffsetIterator.Init (simEnv (fun n : Nat => n) (fun _ => true) false)
          ⟨9, 2, 0, none⟩ ⟨(Sim.start [10, 11, 12] : Sim Nat Nat), []⟩).2.2
          = (LimitOffsetIterator.Init (simEnv (fun n : Nat => n) (fun _ => true) false)
              ⟨9, 2, 0, some 5⟩ ⟨(Sim.start [10, 11, 12] : Sim Nat Nat), []⟩).2.2 :=
  C18_skip_accounting (simEnv (fun n : Nat => n) (fun _ => true) false)
    ⟨9, 2, 0, some 5⟩ ⟨(Sim.start [10, 11, 12] : Sim Nat Nat), []⟩ 5 rfl
    (by
      intro e he
      have hl : (LimitOffsetIterator.Init (simEnv (fun n : Nat => n) (fun _ => true) false)
          ⟨9, 2, 0, some 5⟩
          ⟨(Sim.start [10, 11, 12] : Sim Nat Nat), []⟩).2.2.calls.drop
            ([] : List (Call Unit)).length
          = [Call.source_Init false, Call.source_Read 0, Call.source_UnlockRow,
              Call.source_Read 0, Call.source_UnlockRow] := rfl
      rw [hl] at he
      simp at he
      exact Or.inl he)
    rfl (by decide)

/-! ## `PrecomputedAggregateIterator::Read()` -/

theorem PrecomputedAggregateIterator.precomputed_drain_sim {α κ : Type} [DecidableEq κ]
    (key : α → κ) (pred : α → Bool) (grouped : Bool) (st : Int) (hst : st ≠ 0) :
    ∀ (rows : List α) (fuel : Nat) (w : Sim α κ) (cs : List (Call Unit)),
      w.input = rows → w.after = st → rows.length < fuel →
      ∃ s, drain (PrecomputedAggregateIterator.step (simEnv key pred grouped))
          (fun s => s.world.group_row) fuel ⟨w, cs⟩
        = some (rows.map some, st, s) := by
  intro rows
  induction rows with
  | nil =>
    intro fuel w cs hin haf hfuel
    obtain ⟨f, rfl⟩ : ∃ f, fuel = f + 1 := ⟨fuel - 1, by simp at hfuel; omega⟩
    have h : PrecomputedAggregateIterator.step (simEnv key pred grouped) ⟨w, cs⟩
        = some (st, ⟨{ w with input := w.later, later := [] },
            cs ++ [Call.source_Read st]⟩) := by
      simp only [PrecomputedAggregateIterator.step, PrecomputedAggregateIterator.Read]
      rw [m_source_Read_sim_nil key pred grouped w cs st hin haf]
      simp [hst]
    exact ⟨_, drain_stop _ _ f _ _ st h hst⟩
  | cons r rs ih =>
    intro fuel w cs hin haf hfuel
    obtain ⟨f, rfl⟩ : ∃ f, fuel = f + 1 := ⟨fuel - 1, by simp at hfuel; omega⟩
    have h : PrecomputedAggregateIterator.step (simEnv key pred grouped) ⟨w, cs⟩
        = some (0, ⟨{ w with
              input := rs, row := some r, group_row := some r, slice := 3 },
            cs ++ [Call.source_Read 0, Call.copy_fields false,
              Call.set_ref_item_slice 3]⟩) := by
      simp only [PrecomputedAggregateIterator.step, PrecomputedAggregateIterator.Read]
      rw [m_source_Read_sim_cons key pred grouped w cs r rs hin]
      simp [copy_fields, SwitchSlice, join_set_ref_item_slice, simEnv]
    obtain ⟨s, hs⟩ := ih f
      { w with input := rs, row := some r, group_row := some r, slice := 3 }
      (cs ++ [Call.source_Read 0, Call.copy_fields false, Call.set_ref_item_slice 3])
      rfl haf (by simp at hfuel; omega)
    exact ⟨s, by rw [drain_row _ _ f _ _ _ _ h hs]; rfl⟩

/-- C15: one `PrecomputedAggregateIterator::Read()` calls `Read()` on the child
first.  A status other than 0 is returned as it is, with no other call.  At
status 0 it calls `copy_fields` next, in the world the child left, so in the
slice active then; when `copy_fields` fails it returns 1 with no further call,
and otherwise it switches to the slice `REF_SLICE_ORDERED_GROUP_BY` when that
slice is allocated, makes no further call when it is not, and returns 0.  Over
a child that returns `rows` and then a status `st` other than 0, the rows put
out until that status are `rows`, one for each row of the child in its order. -/
theorem C15_precomputed_pass_through (E : Env W ι) (x : Exec W ι) {α κ : Type}
    [DecidableEq κ] (key : α → κ) (pred : α → Bool) (grouped : Bool) :
    ((E.source_Read x.world).1 ≠ 0 →
      PrecomputedAggregateIterator.Read E x
        = ((E.source_Read x.world).1,
            ⟨(E.source_Read x.world).2,
              x.calls ++ [Call.source_Read (E.source_Read x.world).1]⟩))
    ∧ ((E.source_Read x.world).1 = 0 →
        (E.copy_fields (E.source_Read x.world).2).1 = true →
      PrecomputedAggregateIterator.Read E x
        = (1, ⟨(E.copy_fields (E.source_Read x.world).2).2,
            x.calls ++ [Call.source_Read 0, Call.copy_fields true]⟩))
    ∧ ((E.source_Read x.world).1 = 0 →
        (E.copy_fields (E.source_Read x.world).2).1 = false →
        E.ref_items_is_null (E.copy_fields (E.source_Read x.world).2).2
          E.REF_SLICE_ORDERED_GROUP_BY = false →
      PrecomputedAggregateIterator.Read E x
        = (0, ⟨E.set_ref_item_slice E.REF_SLICE_ORDERED_GROUP_BY
              (E.copy_fields (E.source_Read x.world).2).2,
            x.calls ++ [Call.source_Read 0, Call.copy_fields false,
              Call.set_ref_item_slice E.REF_SLICE_ORDERED_GROUP_BY]⟩))
    ∧ ((E.source_Read x.world).1 = 0 →
        (E.copy_fields (E.source_Read x.world).2).1 = false →
        E.ref_items_is_null (E.copy_fields (E.source_Read x.world).2).2
          E.REF_SLICE_ORDERED_GROUP_BY = true →
      PrecomputedAggregateIterator.Read E x
        = (0, ⟨(E.copy_fields (E.source_Read x.world).2).2,
            x.calls ++ [Call.source_Read 0, Call.copy_fields false]⟩))
    ∧ (∀ (rows : List α) (st : Int) (fuel : Nat), st ≠ 0 → rows.length < fuel →
      ∃ s, drain (PrecomputedAggregateIterator.step (simEnv key pred grouped))
          (fun s => s.world.group_row) fuel
          ⟨{ (Sim.start rows : Sim α κ) with after := st }, []⟩
        = some (rows.map some, st, s)) := by
  refine ⟨?_, ?_, ?_, ?_, ?_⟩
  · intro h
    simp [PrecomputedAggregateIterator.Read, m_source_Read, h]
  · intro h hc
    simp [PrecomputedAggregateIterator.Read, m_source_Read, copy_fields, h, hc]
  · intro h hc hn
    simp [PrecomputedAggregateIterator.Read, m_source_Read, copy_fields, SwitchSlice,
      join_set_ref_item_slice, h, hc, hn]
  · intro h hc hn
    simp [PrecomputedAggregateIterator.Read, m_source_Read, copy_fields, SwitchSlice,
      join_set_ref_item_slice, h, hc, hn]
  · intro rows st fuel hst hfuel
    exact PrecomputedAggregateIterator.precomputed_drain_sim key pred grouped st hst rows
      fuel _ [] rfl rfl hfuel

theorem C15_precomputed_pass_through_witness :
    PrecomputedAggregateIterator.Read (simEnv (fun n : Nat => n) (fun _ => true) true)
        ⟨(Sim.start [] : Sim Nat Nat), []⟩
      = (-1, ⟨Sim.start [], [] ++ [Call.source_Read (-1)]⟩)
    ∧ PrecomputedAggregateIterator.Read
        { simEnv (fun n : Nat => n) (fun _ => true) true with
          copy_fields := fun w => (true, w) }
        ⟨(Sim.start [10] : Sim Nat Nat), []⟩
      = (1, ⟨{ (Sim.start [] : Sim Nat Nat) with row := some 10 },
          [] ++ [Call.source_Read 0, Call.copy_fields true]⟩)
    ∧ PrecomputedAggregateIterator.Read (simEnv (fun n : Nat => n) (fun _ => true) true)
        ⟨(Sim.start [10] : Sim Nat Nat), []⟩
      = (0, ⟨{ (Sim.start [] : Sim Nat Nat) with
            row := some 10, group_row := some 10, slice := 3 },
          [] ++ [Call.source_Read 0, Call.copy_fields false, Call.set_ref_item_slice 3]⟩)
    ∧ PrecomputedAggregateIterator.Read
        { simEnv (fun n : Nat => n) (fun _ => true) true with
          ref_items_is_null := fun _ _ => true }
        ⟨(Sim.start [10] : Sim Nat Nat), []⟩
      = (0, ⟨{ (Sim.start [] : Sim Nat Nat) with row := some 10, group_row := some 10 },
          [] ++ [Call.source_Read 0, Call.copy_fields false]⟩)
    ∧ ∃ s, drain
          (PrecomputedAggregateIterator.step (simEnv (fun n : Nat => n) (fun _ => true) true))
          (fun s => s.world.group_row) 3
          ⟨{ (Sim.start [10, 11] : Sim Nat Nat) with after := -1 }, []⟩
        = some ([10, 11].map some, -1, s) :=
  ⟨(C15_precomputed_pass_through (simEnv (fun n : Nat => n) (fun _ => true) true)
      ⟨(Sim.start [] : Sim Nat Nat), []⟩ (fun n : Nat => n) (fun _ => true) true).1
      (by decide),
    (C15_precomputed_pass_through
      { simEnv (fun n : Nat => n) (fun _ => true) true with
        copy_fields := fun w => (true, w) }
      ⟨(Sim.start [10] : Sim Nat Nat), []⟩ (fun n : Nat => n) (fun _ => true) true).2.1
      rfl rfl,
    (C15_precomputed_pass_through (simEnv (fun n : Nat => n) (fun _ => true) true)
      ⟨(Sim.start [10] : Sim Nat Nat), []⟩ (fun n : Nat => n) (fun _ => true) true).2.2.1
      rfl rfl rfl,
    (C15_precomputed_pass_through
      { simEnv (fun n : Nat => n) (fun _ => true) true with
        ref_items_is_null := fun _ _ => true }
      ⟨(Sim.start [10] : Sim Nat Nat), []⟩ (fun n : Nat => n) (fun _ => true) true).2.2.2.1
      rfl rfl rfl,
    (C15_precomputed_pass_through (simEnv (fun n : Nat => n) (fun _ => true) true)
      ⟨(Sim.start [] : Sim Nat Nat), []⟩ (fun n : Nat => n) (fun _ => true) true).2.2.2.2
      [10, 11] (-1) 3 (by decide) (by decide)⟩

/-! ## The helper `SwitchSlice` -/

/-- C16: over collaborators whose world holds a slice registry `reg`, with
`is_null()` and `set_ref_item_slice()` being those of the registry: when
slice `N` is allocated, the active slice after `SwitchSlice(join, N)` is `N`;
when it is not, `SwitchSlice(join, N)` does nothing at all, so the active
slice is the one before; the buffers of all slices are the same after the call
as before; and a second `SwitchSlice(join, N)` right after the first leaves
the registry as the first left it. -/
theorem C16_switch_slice_guarded (E : Env W ι) {σ : Type} (reg : W → JOIN σ)
    (hnull : ∀ w n, E.ref_items_is_null w n = ((reg w).ref_items n).isNone)
    (hset : ∀ w n, reg (E.set_ref_item_slice n w) = (reg w).set_ref_item_slice n)
    (x : Exec W ι) (N : Nat) :
    (((reg x.world).ref_items N).isSome = true →
      (reg (SwitchSlice E N x).world).current_ref_item_slice = N)
    ∧ ((reg x.world).ref_items N = none →
      SwitchSlice E N x = x
      ∧ (reg (SwitchSlice E N x).world).current_ref_item_slice
          = (reg x.world).current_ref_item_slice)
    ∧ (reg (SwitchSlice E N x).world).ref_items = (reg x.world).ref_items
    ∧ reg (SwitchSlice E N (SwitchSlice E N x)).world = reg (SwitchSlice E N x).world := by
  have hsome : ∀ y : Exec W ι, ((reg y.world).ref_items N).isSome = true →
      (SwitchSlice E N y).world = E.set_ref_item_slice N y.world := by
    intro y h
    have hn : E.ref_items_is_null y.world N = false := by
      rw [hnull]
      cases hr : (reg y.world).ref_items N with
      | none => rw [hr] at h; cases h
      | some l => rfl
    simp [SwitchSlice, join_set_ref_item_slice, hn]
  have hnone : ∀ y : Exec W ι, (reg y.world).ref_items N = none → SwitchSlice E N y = y := by
    intro y h
    have hn : E.ref_items_is_null y.world N = true := by
      rw [hnull, h]
      rfl
    simp [SwitchSlice, hn]
  have hitems : (reg (SwitchSlice E N x).world).ref_items = (reg x.world).ref_items := by
    cases hr : (reg x.world).ref_items N with
    | none => rw [hnone x hr]
    | some l =>
      rw [hsome x (by rw [hr]; rfl), hset]
      rfl
  refine ⟨?_, ?_, hitems, ?_⟩
  · intro h
    rw [hsome x h, hset]
    rfl
  · intro h
    rw [hnone x h]
    exact ⟨rfl, rfl⟩
  · cases hr : (reg x.world).ref_items N with
    | none => rw [hnone x hr, hnone x hr]
    | some l =>
      have h1 : ((reg (SwitchSlice E N x).world).ref_items N).isSome = true := by
        rw [hitems, hr]
        rfl
      rw [hsome _ h1, hset, hsome x (by rw [hr]; rfl), hset]
      rfl

theorem C16_switch_slice_guarded_witness :
    (JOIN.mk (fun n => if n = 4 then none else some [n])
        (SwitchSlice
          { simEnv (fun n : Nat => n) (fun _ => true) true with
            ref_items_is_null := fun _ n => decide (n = 4) }
          3 ⟨(Sim.start [] : Sim Nat Nat), []⟩).world.slice).current_ref_item_slice = 3
    ∧ (SwitchSlice
          { simEnv (fun n : Nat => n) (fun _ => true) true with
            ref_items_is_null := fun _ n => decide (n = 4) }
          4 ⟨(Sim.start [] : Sim Nat Nat), []⟩ = ⟨(Sim.start [] : Sim Nat Nat), []⟩
      ∧ (JOIN.mk (fun n => if n = 4 then none else some [n])
          (SwitchSlice
            { simEnv (fun n : Nat => n) (fun _ => true) true with
              ref_items_is_null := fun _ n => decide (n = 4) }
            4 ⟨(Sim.start [] : Sim Nat Nat), []⟩).world.slice).current_ref_item_slice
          = 0) :=
  ⟨(C16_switch_slice_guarded
      { simEnv (fun n : Nat => n) (fun _ => true) true with
        ref_items_is_null := fun _ n => decide (n = 4) }
      (fun w => JOIN.mk (fun n => if n = 4 then none else some [n]) w.slice)
      (by intro w n; by_cases h : n = 4 <;> simp [h]) (fun _ _ => rfl)
      ⟨(Sim.start [] : Sim Nat Nat), []⟩ 3).1 rfl,
    (C16_switch_slice_guarded
      { simEnv (fun n : Nat => n) (fun _ => true) true with
        ref_items_is_null := fun _ n => decide (n = 4) }
      (fun w => JOIN.mk (fun n => if n = 4 then none else some [n]) w.slice)
      (by intro w n; by_cases h : n = 4 <;> simp [h]) (fun _ _ => rfl)
      ⟨(Sim.start [] : Sim Nat Nat), []⟩ 4).2.1 rfl⟩

/-! ## The slices around `AggregateIterator::Read()` -/

theorem AggregateIterator.readGroup_row_ready (E : Env W ι) :
    ∀ (fuel : Nat) (it it1 : AggregateIterator) (x x1 : Exec W ι),
      AggregateIterator.readGroup E fuel it x = some (0, it1, x1) →
      ∃ y, x1 = SwitchSlice E E.REF_SLICE_ORDERED_GROUP_BY y
        ∧ ((∃ pre, y.calls = pre ++ [Call.source_Read (-1)])
          ∨ (∃ pre idx, 0 ≤ idx
              ∧ y.calls = pre ++ [Call.update_item_cache_if_changed idx])) := by
  intro fuel
  induction fuel with
  | zero => intro it it1 x x1 h; simp [AggregateIterator.readGroup] at h
  | succ fuel ih =>
    intro it it1 x x1 h
    rw [AggregateIterator.readGroup] at h
    simp only at h
    split at h
    · simp at h
    · split at h
      · rename_i hm
        simp only [Option.some.injEq, Prod.mk.injEq, true_and] at h
        refine ⟨(m_source_Read E x).2, h.2.symm, Or.inl ⟨x.calls, ?_⟩⟩
        rw [m_source_Read_calls, hm]
      · split at h
        · rename_i hidx
          simp only [Option.some.injEq, Prod.mk.injEq, true_and] at h
          refine ⟨(update_item_cache_if_changed E (m_source_Read E x).2).2, h.2.symm,
            Or.inr ⟨(m_source_Read E x).2.calls, _, hidx, ?_⟩⟩
          rw [update_item_cache_if_changed_calls]
        · split at h
          · simp at h
          · exact ih _ _ _ _ h

theorem AggregateIterator.newGroup_row_ready (E : Env W ι) (fuel : Nat)
    (it it1 : AggregateIterator) (x x1 : Exec W ι)
    (h : AggregateIterator.newGroup E fuel it x = some (0, it1, x1)) :
    ∃ y, x1 = SwitchSlice E E.REF_SLICE_ORDERED_GROUP_BY y
      ∧ ((∃ pre, y.calls = pre ++ [Call.source_Read (-1)])
        ∨ (∃ pre idx, 0 ≤ idx
            ∧ y.calls = pre ++ [Call.update_item_cache_if_changed idx])) := by
  unfold AggregateIterator.newGroup at h
  simp only at h
  split at h
  · simp at h
  · exact AggregateIterator.readGroup_row_ready E _ _ _ _ _ h

/-- A `Read()` that returns 0 either puts out the row for an empty input
(its first child `Read()` returned -1) or ends with `SwitchSlice` to the
ordered group-by slice, right after the child returned -1 or the group key
changed. -/
theorem AggregateIterator.Read_row_ready (E : Env W ι) (fuel : Nat)
    (it it1 : AggregateIterator) (x x1 : Exec W ι)
    (h : AggregateIterator.Read E fuel it x = some (0, it1, x1)) :
    (it.m_first_row = true
        ∧ (E.source_Read (SwitchSlice E it.m_input_slice x).world).1 = -1)
    ∨ ∃ y, x1 = SwitchSlice E E.REF_SLICE_ORDERED_GROUP_BY y
      ∧ ((∃ pre, y.calls = pre ++ [Call.source_Read (-1)])
        ∨ (∃ pre idx, 0 ≤ idx
            ∧ y.calls = pre ++ [Call.update_item_cache_if_changed idx])) := by
  unfold AggregateIterator.Read at h
  simp only at h
  split at h
  · split at h <;> simp at h
  · split at h
    · rename_i hfr
      split at h
      · rename_i hm
        exact Or.inl ⟨hfr, hm⟩
      · split at h
        · rename_i hne
          simp only [Option.some.injEq, Prod.mk.injEq] at h
          exact absurd h.1 hne
        · exact Or.inr (AggregateIterator.newGroup_row_ready E _ _ _ _ _ h)
    · exact Or.inr (AggregateIterator.newGroup_row_ready E _ _ _ _ _ h)

/-- The calls of a `Read()` in a state with `m_eof` not set start with those of
`SwitchSlice` to the input slice, and in the state with `m_first_row` set a
`Read()` on the child is the next call. -/
theorem AggregateIterator.Read_after_switch (E : Env W ι) (fuel : Nat)
    (it it1 : AggregateIterator) (x x1 : Exec W ι) (st : Int) (heof : it.m_eof = false)
    (h : AggregateIterator.Read E fuel it x = some (st, it1, x1)) :
    ∃ t, x1.calls = (SwitchSlice E it.m_input_slice x).calls ++ t
      ∧ (it.m_first_row = true → ∃ t1,
          t = Call.source_Read (E.source_Read (SwitchSlice E it.m_input_slice x).world).1
            :: t1) := by
  unfold AggregateIterator.Read at h
  simp only [heof, Bool.false_eq_true, if_false] at h
  split at h
  · split at h
    · split at h
      · simp only [Option.some.injEq, Prod.mk.injEq] at h
        obtain ⟨_, _, rfl⟩ := h
        exact ⟨_, m_source_Read_calls E _, fun _ => ⟨[], rfl⟩⟩
      · have hc : ∀ m, (join_clear_fields E m ((E.get_current_fields
            (m_source_Read E (SwitchSlice E it.m_input_slice x)).2.world).foldl
              (fun y item => item_no_rows_in_result E item y)
              (m_source_Read E (SwitchSlice E it.m_input_slice x)).2)).2.2.calls
            = (SwitchSlice E it.m_input_slice x).calls
              ++ (Call.source_Read (E.source_Read (SwitchSlice E it.m_input_slice x).world).1
                :: ((E.get_current_fields
                  (m_source_Read E (SwitchSlice E it.m_input_slice x)).2.world).map
                    Call.no_rows_in_result
                ++ [Call.clear_fields m (join_clear_fields E m ((E.get_current_fields
                  (m_source_Read E (SwitchSlice E it.m_input_slice x)).2.world).foldl
                    (fun y item => item_no_rows_in_result E item y)
                    (m_source_Read E (SwitchSlice E it.m_input_slice x)).2)).1])) := by
          intro m
          simp only [join_clear_fields, no_rows_in_result_calls, m_source_Read_calls,
            List.append_assoc]
          rfl
        split at h
        · simp only [Option.some.injEq, Prod.mk.injEq] at h
          obtain ⟨_, _, rfl⟩ := h
          exact ⟨_, hc _, fun _ => ⟨_, rfl⟩⟩
        · simp only [Option.some.injEq, Prod.mk.injEq] at h
          obtain ⟨_, _, rfl⟩ := h
          exact ⟨_, hc _, fun _ => ⟨_, rfl⟩⟩
    · split at h
      · simp only [Option.some.injEq, Prod.mk.injEq] at h
        obtain ⟨_, _, rfl⟩ := h
        exact ⟨_, m_source_Read_calls E _, fun _ => ⟨[], rfl⟩⟩
      · obtain ⟨t, ht, _⟩ := AggregateIterator.newGroup_calls E _ _ _ _ _ _ h
        rw [m_source_Read_calls, List.append_assoc] at ht
        exact ⟨_, ht, fun _ => ⟨t, rfl⟩⟩
  · rename_i hfr
    obtain ⟨t, ht, _⟩ := AggregateIterator.newGroup_calls E _ _ _ _ _ _ h
    exact ⟨t, ht, fun h1 => absurd h1 hfr⟩

/-- C20: with `get_ref_item_slice()` returning the slice that
`set_ref_item_slice()` set last, for a `Read()` of `AggregateIterator` in a
state with `m_eof` not set.  When it returns 0, either it puts out the row for
an empty input (the state was the one after `Init()` and the child returned -1
at once), or it ends with `SwitchSlice` to the ordered group-by slice, made
right after the child returned -1 or the group key changed; when that slice is
allocated then, the switch is the last call and the ordered group-by slice is
the active one on return.  When the input slice `m_input_slice` is allocated,
the first call of this `Read()` sets it, so before any `Read()` on the child,
and in the state after `Init()` the child's `Read()` is the very next call. -/
theorem C20_aggregate_slice_discipline (E : Env W ι)
    (hget : ∀ n w, E.get_ref_item_slice (E.set_ref_item_slice n w) = n)
    (fuel : Nat) (it it1 : AggregateIterator) (x x1 : Exec W ι) (st : Int)
    (heof : it.m_eof = false)
    (hread : AggregateIterator.Read E fuel it x = some (st, it1, x1)) :
    (st = 0 →
      (it.m_first_row = true
        ∧ (E.source_Read (SwitchSlice E it.m_input_slice x).world).1 = -1)
      ∨ ∃ y, x1 = SwitchSlice E E.REF_SLICE_ORDERED_GROUP_BY y
        ∧ ((∃ pre, y.calls = pre ++ [Call.source_Read (-1)])
          ∨ (∃ pre idx, 0 ≤ idx
              ∧ y.calls = pre ++ [Call.update_item_cache_if_changed idx]))
        ∧ (E.ref_items_is_null y.world E.REF_SLICE_ORDERED_GROUP_BY = false →
            x1.calls = y.calls ++ [Call.set_ref_item_slice E.REF_SLICE_ORDERED_GROUP_BY]
            ∧ E.get_ref_item_slice x1.world = E.REF_SLICE_ORDERED_GROUP_BY))
    ∧ (E.ref_items_is_null x.world it.m_input_slice = false →
      ∃ t, x1.calls = x.calls ++ Call.set_ref_item_slice it.m_input_slice :: t
        ∧ E.get_ref_item_slice (SwitchSlice E it.m_input_slice x).world = it.m_input_slice
        ∧ (it.m_first_row = true → ∃ t1,
            t = Call.source_Read
                (E.source_Read (E.set_ref_item_slice it.m_input_slice x.world)).1 :: t1)) := by
  constructor
  · intro h0
    subst h0
    rcases AggregateIterator.Read_row_ready E fuel it it1 x x1 hread with h | ⟨y, hy, hlast⟩
    · exact Or.inl h
    · refine Or.inr ⟨y, hy, hlast, ?_⟩
      intro hn
      rw [hy]
      simp [SwitchSlice, join_set_ref_item_slice, hn, hget]
  · intro hn
    obtain ⟨t, ht, hfirst⟩ := AggregateIterator.Read_after_switch E fuel it it1 x x1 st heof hread
    have hs : SwitchSlice E it.m_input_slice x
        = ⟨E.set_ref_item_slice it.m_input_slice x.world,
            x.calls ++ [Call.set_ref_item_slice it.m_input_slice]⟩ := by
      simp [SwitchSlice, join_set_ref_item_slice, hn]
    rw [hs] at ht hfirst
    refine ⟨t, ?_, ?_, hfirst⟩
    · rw [ht]
      simp
    · rw [hs]
      exact hget _ _

theorem C20_aggregate_slice_discipline_witness :
    ((true = true
        ∧ ((simEnv (fun n : Nat => n) (fun _ => true) true).source_Read
            (SwitchSlice (simEnv (fun n : Nat => n) (fun _ => true) true) 0
              ⟨(Sim.start [1, 2] : Sim Nat Nat), []⟩).world).1 = -1)
      ∨ ∃ y : Exec (Sim Nat Nat) Unit,
        (⟨{ (Sim.start [] : Sim Nat Nat) with
              row := some 2, slice := 3, group_row := some 1, cache := some 2, count := 1 },
            [Call.set_ref_item_slice 0, Call.source_Read 0, Call.Switch_ref_item_slice 3,
              Call.copy_fields false, Call.update_item_cache_if_changed 0,
              Call.init_sum_functions false, Call.Switch_ref_item_slice_leave,
              Call.source_Read 0, Call.update_item_cache_if_changed 0,
              Call.set_ref_item_slice 3]⟩ : Exec (Sim Nat Nat) Unit)
          = SwitchSlice (simEnv (fun n : Nat => n) (fun _ => true) true) 3 y
        ∧ ((∃ pre, y.calls = pre ++ [Call.source_Read (-1)])
          ∨ (∃ pre idx, 0 ≤ idx
              ∧ y.calls = pre ++ [Call.update_item_cache_if_changed idx]))
        ∧ ((simEnv (fun n : Nat => n) (fun _ => true) true).ref_items_is_null y.world 3
              = false →
            [Call.set_ref_item_slice 0, Call.source_Read 0, Call.Switch_ref_item_slice 3,
              Call.copy_fields false, Call.update_item_cache_if_changed 0,
              Call.init_sum_functions false, Call.Switch_ref_item_slice_leave,
              Call.source_Read 0, Call.update_item_cache_if_changed 0,
              Call.set_ref_item_slice 3]
              = y.calls ++ [Call.set_ref_item_slice 3]
            ∧ (3 : Nat) = 3))
    ∧ ∃ t : List (Call Unit),
        [Call.set_ref_item_slice 0, Call.source_Read 0, Call.Switch_ref_item_slice 3,
          Call.copy_fields false, Call.update_item_cache_if_changed 0,
          Call.init_sum_functions false, Call.Switch_ref_item_slice_leave,
          Call.source_Read 0, Call.update_item_cache_if_changed 0,
          Call.set_ref_item_slice 3]
          = [] ++ Call.set_ref_item_slice 0 :: t
        ∧ (0 : Nat) = 0
        ∧ (true = true → ∃ t1, t = Call.source_Read 0 :: t1) :=
  ⟨(C20_aggregate_slice_discipline (simEnv (fun n : Nat => n) (fun _ => true) true)
      (fun _ _ => rfl) 5 ⟨true, false, 0, 0⟩ ⟨false, false, 0, 0⟩
      ⟨(Sim.start [1, 2] : Sim Nat Nat), []⟩
      ⟨{ (Sim.start [] : Sim Nat Nat) with
          row := some 2, slice := 3, group_row := some 1, cache := some 2, count := 1 },
        [Call.set_ref_item_slice 0, Call.source_Read 0, Call.Switch_ref_item_slice 3,
          Call.copy_fields false, Call.update_item_cache_if_changed 0,
          Call.init_sum_functions false, Call.Switch_ref_item_slice_leave,
          Call.source_Read 0, Call.update_item_cache_if_changed 0,
          Call.set_ref_item_slice 3]⟩
      0 rfl rfl).1 rfl,
    (C20_aggregate_slice_discipline (simEnv (fun n : Nat => n) (fun _ => true) true)
      (fun _ _ => rfl) 5 ⟨true, false, 0, 0⟩ ⟨false, false, 0, 0⟩
      ⟨(Sim.start [1, 2] : Sim Nat Nat), []⟩
      ⟨{ (Sim.start [] : Sim Nat Nat) with
          row := some 2, slice := 3, group_row := some 1, cache := some 2, count := 1 },
        [Call.set_ref_item_slice 0, Call.source_Read 0, Call.Switch_ref_item_slice 3,
          Call.copy_fields false, Call.update_item_cache_if_changed 0,
          Call.init_sum_functions false, Call.Switch_ref_item_slice_leave,
          Call.source_Read 0, Call.update_item_cache_if_changed 0,
          Call.set_ref_item_slice 3]⟩
      0 rfl rfl).2 rfl⟩

/-! ## The row read ahead by `AggregateIterator::Read()` -/

section Lookahead

variable {α κ : Type} [DecidableEq κ] (key : α → κ) (pred : α → Bool) (grouped : Bool)

theorem AggregateIterator.readGroup_trace_nil (f : Nat) (it : AggregateIterator)
    (w : Sim α κ) (cs : List (Call Unit)) (g : α) (c : Nat) (h : InGroup key g c [] w) :
    AggregateIterator.readGroup (simEnv key pred grouped) (f + 1) it ⟨w, cs⟩
      = some (0, { it with m_eof := true },
          ⟨{ w with input := w.later, later := [], slice := 3 },
            cs ++ [Call.source_Read (-1), Call.set_ref_item_slice 3]⟩) := by
  obtain ⟨hin, haf, _, hg, hc⟩ := h
  simp [AggregateIterator.readGroup, m_source_Read, SwitchSlice, join_set_ref_item_slice,
    simEnv, hin, haf, hg, hc]

theorem AggregateIterator.readGroup_trace_same (f : Nat) (it : AggregateIterator)
    (w : Sim α κ) (cs : List (Call Unit)) (g r : α) (rs : List α) (c : Nat)
    (h : InGroup key g c (r :: rs) w) (hk : key r = key g) :
    AggregateIterator.readGroup (simEnv key pred grouped) (f + 1) it ⟨w, cs⟩
      = AggregateIterator.readGroup (simEnv key pred grouped) f it
          ⟨{ w with input := rs, row := some r, count := w.count + 1 },
            cs ++ [Call.source_Read 0, Call.update_item_cache_if_changed (-1),
              Call.update_sum_func false]⟩ := by
  obtain ⟨hin, haf, hca, hg, hc⟩ := h
  simp [AggregateIterator.readGroup, m_source_Read, update_item_cache_if_changed,
    update_sum_func, simEnv, hin, hca, hk]

theorem AggregateIterator.readGroup_trace_change (f : Nat) (it : AggregateIterator)
    (w : Sim α κ) (cs : List (Call Unit)) (g r : α) (rs : List α) (c : Nat)
    (h : InGroup key g c (r :: rs) w) (hk : key r ≠ key g) :
    AggregateIterator.readGroup (simEnv key pred grouped) (f + 1) it ⟨w, cs⟩
      = some (0, it,
          ⟨{ w with input := rs, row := some r, cache := some (key r), slice := 3 },
            cs ++ [Call.source_Read 0, Call.update_item_cache_if_changed 0,
              Call.set_ref_item_slice 3]⟩) := by
  obtain ⟨hin, haf, hca, hg, hc⟩ := h
  have hk1 : ¬ key g = key r := fun e => hk e.symm
  simp [AggregateIterator.readGroup, m_source_Read, update_item_cache_if_changed,
    SwitchSlice, join_set_ref_item_slice, simEnv, hin, haf, hca, hg, hc, hk1]

theorem AggregateIterator.Read_trace_next_group (F : Nat) (it : AggregateIterator)
    (w : Sim α κ) (cs : List (Call Unit)) (r : α)
    (he : it.m_eof = false) (hfr : it.m_first_row = false)
    (hrow : w.row = some r) (hca : w.cache = some (key r)) :
    AggregateIterator.Read (simEnv key pred grouped) F it ⟨w, cs⟩
      = AggregateIterator.readGroup (simEnv key pred grouped) F it
          ⟨{ w with
              slice := it.m_input_slice, saved_slice := it.m_input_slice,
              group_row := some r, count := 1 },
            cs ++ [Call.set_ref_item_slice it.m_input_slice, Call.Switch_ref_item_slice 3,
              Call.copy_fields false, Call.update_item_cache_if_changed (-1),
              Call.init_sum_functions false, Call.Switch_ref_item_slice_leave]⟩ := by
  simp [AggregateIterator.Read, AggregateIterator.newGroup, AggregateIterator.startGroup,
    SwitchSlice, join_set_ref_item_slice, slice_switch, slice_switch_leave, copy_fields,
    update_item_cache_if_changed, init_sum_functions, simEnv, he, hfr, hrow, hca]

theorem AggregateIterator.Read_trace_first (F : Nat) (it : AggregateIterator)
    (w : Sim α κ) (cs : List (Call Unit)) (r : α) (rs : List α)
    (he : it.m_eof = false) (hfr : it.m_first_row = true)
    (hin : w.input = r :: rs) (hca : w.cache = none) :
    AggregateIterator.Read (simEnv key pred grouped) F it ⟨w, cs⟩
      = AggregateIterator.readGroup (simEnv key pred grouped) F
          { it with m_first_row := false }
          ⟨{ w with
              input := rs, row := some r, slice := it.m_input_slice,
              saved_slice := it.m_input_slice, group_row := some r, cache := some (key r),
              count := 1 },
            cs ++ [Call.set_ref_item_slice it.m_input_slice, Call.source_Read 0,
              Call.Switch_ref_item_slice 3, Call.copy_fields false,
              Call.update_item_cache_if_changed 0, Call.init_sum_functions false,
              Call.Switch_ref_item_slice_leave]⟩ := by
  simp [AggregateIterator.Read, AggregateIterator.newGroup, AggregateIterator.startGroup,
    SwitchSlice, join_set_ref_item_slice, slice_switch, slice_switch_leave, copy_fields,
    update_item_cache_if_changed, init_sum_functions, m_source_Read, simEnv, he, hfr, hin,
    hca]

/-- From inside a group until the `Read()` that returns -1, the calls made
are those of `aggCalls`. -/
theorem AggregateIterator.aggregate_drain_trace (F : Nat) :
    ∀ (rs : List α) (g : α) (c f1 f2 : Nat) (it : AggregateIterator) (w : Sim α κ)
      (cs : List (Call Unit)),
      InGroup key g c rs w → it.m_eof = false → it.m_first_row = false →
      it.m_save_nullinfo = 0 →
      rs.length < F → rs.length < f1 → rs.length < f2 →
      ∃ outs s, drainFrom
            (fun s => AggregateIterator.readGroup (simEnv key pred grouped) f1 s.1 s.2)
            (AggregateIterator.step (simEnv key pred grouped) F) countOut f2 (it, ⟨w, cs⟩)
          = some (outs, -1, s)
        ∧ s.2.calls = cs ++ aggCalls key it.m_input_slice g rs := by
  intro rs
  induction rs with
  | nil =>
    intro g c f1 f2 it w cs hw he hfr hnull _ h1 h2
    obtain ⟨f1, rfl⟩ : ∃ n, f1 = n + 1 := ⟨f1 - 1, by simp at h1; omega⟩
    obtain ⟨f2, rfl⟩ : ∃ n, f2 = n + 1 := ⟨f2 - 1, by simp at h2; omega⟩
    have h := AggregateIterator.readGroup_trace_nil key pred grouped f1 it w cs g c hw
    have h2 : AggregateIterator.step (simEnv key pred grouped) F
        ({ it with m_eof := true },
          ⟨{ w with input := w.later, later := [], slice := 3 },
            cs ++ [Call.source_Read (-1), Call.set_ref_item_slice 3]⟩)
        = some (-1, { it with m_eof := true, m_save_nullinfo := 0 },
            ⟨{ w with input := w.later, later := [], slice := 3 },
              cs ++ [Call.source_Read (-1), Call.set_ref_item_slice 3]⟩) := by
      simp only [AggregateIterator.step]
      rw [AggregateIterator.Read_eof _ _ _ _ rfl]
      simp [hnull]
    have hd := drain_stop (AggregateIterator.step (simEnv key pred grouped) F) countOut f2
      _ _ (-1) h2 (by decide)
    have hfin : drainFrom
        (fun s => AggregateIterator.readGroup (simEnv key pred grouped) (f1 + 1) s.1 s.2)
        (AggregateIterator.step (simEnv key pred grouped) F) countOut (f2 + 1) (it, ⟨w, cs⟩)
        = some ([countOut ({ it with m_eof := true },
              (⟨{ w with input := w.later, later := [], slice := 3 },
                cs ++ [Call.source_Read (-1), Call.set_ref_item_slice 3]⟩ :
                  Exec (Sim α κ) Unit))], -1,
            ({ it with m_eof := true, m_save_nullinfo := 0 },
              ⟨{ w with input := w.later, later := [], slice := 3 },
                cs ++ [Call.source_Read (-1), Call.set_ref_item_slice 3]⟩)) := by
      simp only [drainFrom, h, if_true, hd]
    exact ⟨_, _, hfin, by simp [aggCalls]⟩
  | cons r rs ih =>
    intro g c f1 f2 it w cs hw he hfr hnull hF h1 h2
    simp only [List.length_cons] at hF h1 h2
    obtain ⟨f1, rfl⟩ : ∃ n, f1 = n + 1 := ⟨f1 - 1, by omega⟩
    by_cases hk : key r = key g
    · have h := AggregateIterator.readGroup_trace_same key pred grouped f1 it w cs g r rs c
        hw hk
      obtain ⟨hin, haf, hca, hg, hc⟩ := hw
      obtain ⟨outs, s, hs, hcalls⟩ := ih g (c + 1) f1 f2 it
        { w with input := rs, row := some r, count := w.count + 1 }
        (cs ++ [Call.source_Read 0, Call.update_item_cache_if_changed (-1),
          Call.update_sum_func false])
        ⟨rfl, haf, hca, hg, by simp [hc]⟩ he hfr hnull (by omega) (by omega) (by omega)
      refine ⟨outs, s, ?_, ?_⟩
      · rw [drainFrom_congr _
          (fun s => AggregateIterator.readGroup (simEnv key pred grouped) f1 s.1 s.2)
          _ _ _ _ (it, _) h, hs]
      · rw [hcalls]
        simp [aggCalls, hk]
    · obtain ⟨f2, rfl⟩ : ∃ n, f2 = n + 1 := ⟨f2 - 1, by omega⟩
      have h := AggregateIterator.readGroup_trace_change key pred grouped f1 it w cs g r rs c
        hw hk
      obtain ⟨hin, haf, hca, hg, hc⟩ := hw
      have hnext := AggregateIterator.Read_trace_next_group key pred grouped F it
        { w with input := rs, row := some r, cache := some (key r), slice := 3 }
        (cs ++ [Call.source_Read 0, Call.update_item_cache_if_changed 0,
          Call.set_ref_item_slice 3]) r he hfr rfl rfl
      obtain ⟨outs, s, hs, hcalls⟩ := ih r 1 F f2 it _ _
        (⟨rfl, haf, rfl, rfl, rfl⟩ : InGroup key r 1 rs
          { w with
            input := rs, row := some r, cache := some (key r),
            slice := it.m_input_slice, saved_slice := it.m_input_slice,
            group_row := some r, count := 1 })
        he hfr hnull (by omega) (by omega) (by omega)
      have hd : drain (AggregateIterator.step (simEnv key pred grouped) F) countOut (f2 + 1)
          (it, ⟨{ w with input := rs, row := some r, cache := some (key r), slice := 3 },
            cs ++ [Call.source_Read 0, Call.update_item_cache_if_changed 0,
              Call.set_ref_item_slice 3]⟩) = some (outs, -1, s) := by
        rw [drain_succ, drainFrom_congr
          (AggregateIterator.step (simEnv key pred grouped) F)
          (fun s => AggregateIterator.readGroup (simEnv key pred grouped) F s.1 s.2)
          _ _ _ (it, _) (it, _) hnext]
        exact hs
      refine ⟨countOut (it,
          (⟨{ w with input := rs, row := some r, cache := some (key r), slice := 3 },
            cs ++ [Call.source_Read 0, Call.update_item_cache_if_changed 0,
              Call.set_ref_item_slice 3]⟩ : Exec (Sim α κ) Unit)) :: outs, s, ?_, ?_⟩
      · simp only [drainFrom, h, if_true, hd]
      · rw [hcalls]
        simp [aggCalls, hk]

theorem filter_aggCalls (sl : Nat) :
    ∀ (rs : List α) (g : α),
      (aggCalls key sl g rs).filter Call.isReadOrCount = countEvents key (some (key g)) rs := by
  intro rs
  induction rs with
  | nil => intro g; simp [aggCalls, countEvents, Call.isReadOrCount]
  | cons r rs ih =>
    intro g
    by_cases hk : key r = key g
    · simp [aggCalls, countEvents, Call.isReadOrCount, hk, ih]
    · have hk1 : ¬ key g = key r := fun e => hk e.symm
      simp [aggCalls, countEvents, Call.isReadOrCount, hk, hk1, ih]

theorem filter_aggDrainCalls (sl : Nat) (rows : List α) :
    (aggDrainCalls key sl grouped rows).filter Call.isReadOrCount
      = countEvents key none rows := by
  cases rows with
  | nil => cases grouped <;> simp [aggDrainCalls, countEvents, Call.isReadOrCount]
  | cons r rs =>
    simp [aggDrainCalls, countEvents, Call.isReadOrCount, filter_aggCalls]

theorem countP_countEvents :
    ∀ (rows : List α) (prev : Option κ),
      (countEvents key prev rows).countP Call.isRead = rows.length + 1 := by
  intro rows
  induction rows with
  | nil => intro prev; simp [countEvents, Call.isRead]
  | cons r rs ih =>
    intro prev
    by_cases hp : prev = some (key r)
    · simp [countEvents, Call.isRead, hp, ih]
    · simp [countEvents, Call.isRead, hp, ih]

/-- The whole run over a child that returns `rows` and then -1: `Init()` and
then `Read()` until it returns -1. -/
theorem AggregateIterator.aggregate_run_trace (rows : List α) (it0 : AggregateIterator)
    (fuel : Nat) (hfuel : rows.length + 1 < fuel) :
    ∃ it1 x1 outs s,
      AggregateIterator.Init (simEnv key pred grouped) it0 ⟨Sim.start rows, []⟩
        = some (false, it1, x1)
      ∧ drain (AggregateIterator.step (simEnv key pred grouped) fuel) countOut fuel (it1, x1)
        = some (outs, -1, s)
      ∧ s.2.calls = Call.source_Init false :: aggDrainCalls key 0 grouped rows := by
  cases rows with
  | nil =>
    obtain ⟨f, rfl⟩ : ∃ n, fuel = n + 2 := ⟨fuel - 2, by simp at hfuel; omega⟩
    cases grouped with
    | true =>
      exact ⟨⟨true, false, 0, 0⟩, ⟨Sim.start [], [Call.source_Init false]⟩, _, _, rfl, rfl, rfl⟩
    | false =>
      have h1 : AggregateIterator.step (simEnv key pred false) (f + 2)
          (⟨true, false, 0, 0⟩, ⟨(Sim.start [] : Sim α κ), [Call.source_Init false]⟩)
          = some (0, ⟨false, true, 1, 0⟩,
              ⟨{ (Sim.start [] : Sim α κ) with null_row := true },
                [Call.source_Init false, Call.set_ref_item_slice 0, Call.source_Read (-1),
                  Call.no_rows_in_result (), Call.clear_fields 0 false]⟩) := by
        simp [AggregateIterator.step, AggregateIterator.Read, SwitchSlice,
          join_set_ref_item_slice, m_source_Read, item_no_rows_in_result, join_clear_fields,
          simEnv, Sim.start]
      have h2 : AggregateIterator.step (simEnv key pred false) (f + 2)
          (⟨false, true, 1, 0⟩,
            ⟨{ (Sim.start [] : Sim α κ) with null_row := true },
              [Call.source_Init false, Call.set_ref_item_slice 0, Call.source_Read (-1),
                Call.no_rows_in_result (), Call.clear_fields 0 false]⟩)
          = some (-1, ⟨false, true, 0, 0⟩,
              ⟨Sim.start [], [Call.source_Init false, Call.set_ref_item_slice 0,
                Call.source_Read (-1), Call.no_rows_in_result (), Call.clear_fields 0 false,
                Call.restore_fields 1]⟩) := by
        simp [AggregateIterator.step, AggregateIterator.Read, join_restore_fields, simEnv,
          Sim.start]
      exact ⟨⟨true, false, 0, 0⟩, ⟨Sim.start [], [Call.source_Init false]⟩, _, _, rfl,
        drain_row _ _ (f + 1) _ _ _ _ h1 (drain_stop _ _ f _ _ _ h2 (by decide)), rfl⟩
  | cons r rs =>
    simp only [List.length_cons] at hfuel
    obtain ⟨f, rfl⟩ : ∃ n, fuel = n + 1 := ⟨fuel - 1, by omega⟩
    have hfirst := AggregateIterator.Read_trace_first key pred grouped (f + 1)
      ⟨true, false, 0, 0⟩ (Sim.start (r :: rs)) [Call.source_Init false] r rs rfl rfl rfl rfl
    obtain ⟨outs, s, hs, hcalls⟩ := AggregateIterator.aggregate_drain_trace key pred grouped
      (f + 1) rs r 1 (f + 1) f ⟨false, false, 0, 0⟩ _ _
      (⟨rfl, rfl, rfl, rfl, rfl⟩ : InGroup key r 1 rs
        { (Sim.start (r :: rs) : Sim α κ) with
          input := rs, row := some r, slice := 0, saved_slice := 0, group_row := some r,
          cache := some (key r), count := 1 })
      rfl rfl rfl (by omega) (by omega) (by omega)
    refine ⟨⟨true, false, 0, 0⟩, ⟨Sim.start (r :: rs), [Call.source_Init false]⟩, outs, s,
      rfl, ?_, ?_⟩
    · rw [drain_succ, drainFrom_congr
        (AggregateIterator.step (simEnv key pred grouped) (f + 1))
        (fun s => AggregateIterator.readGroup (simEnv key pred grouped) (f + 1) s.1 s.2)
        _ _ _ (⟨true, false, 0, 0⟩, ⟨Sim.start (r :: rs), [Call.source_Init false]⟩)
        (⟨false, false, 0, 0⟩, _) hfirst]
      exact hs
    · rw [hcalls]
      simp [aggDrainCalls]

end Lookahead

theorem AggregateIterator.startGroup_shape (E : Env W ι) (y : Exec W ι) :
    ((AggregateIterator.startGroup E y).2.calls
        = y.calls ++ [Call.Switch_ref_item_slice E.REF_SLICE_ORDERED_GROUP_BY,
            Call.copy_fields true, Call.Switch_ref_item_slice_leave]
      ∧ (AggregateIterator.startGroup E y).1 = true)
    ∨ ∃ i b, (AggregateIterator.startGroup E y).2.calls
        = y.calls ++ [Call.Switch_ref_item_slice E.REF_SLICE_ORDERED_GROUP_BY,
            Call.copy_fields false, Call.update_item_cache_if_changed i,
            Call.init_sum_functions b, Call.Switch_ref_item_slice_leave]
      ∧ (AggregateIterator.startGroup E y).1 = b := by
  cases hc : (E.copy_fields (E.Switch_ref_item_slice E.REF_SLICE_ORDERED_GROUP_BY y.world)).1 with
  | true =>
    left
    simp [AggregateIterator.startGroup, slice_switch, slice_switch_leave, copy_fields, hc]
  | false =>
    right
    refine ⟨(E.update_item_cache_if_changed (E.copy_fields
        (E.Switch_ref_item_slice E.REF_SLICE_ORDERED_GROUP_BY y.world)).2).1,
      (E.init_sum_functions (E.update_item_cache_if_changed (E.copy_fields
        (E.Switch_ref_item_slice E.REF_SLICE_ORDERED_GROUP_BY y.world)).2).2).1, ?_⟩
    cases hi : (E.init_sum_functions (E.update_item_cache_if_changed (E.copy_fields
        (E.Switch_ref_item_slice E.REF_SLICE_ORDERED_GROUP_BY y.world)).2).2).1 <;>
      simp [AggregateIterator.startGroup, slice_switch, slice_switch_leave, copy_fields,
        update_item_cache_if_changed, init_sum_functions, hc, hi]

/-- A `Read()` in a state with neither `m_first_row` nor `m_eof` set makes the
calls of `SwitchSlice` and of the block that starts a group before any other. -/
theorem AggregateIterator.Read_group_init_first (E : Env W ι) (fuel : Nat)
    (it it1 : AggregateIterator) (x x1 : Exec W ι) (st : Int)
    (hfr : it.m_first_row = false) (heof : it.m_eof = false)
    (h : AggregateIterator.Read E fuel it x = some (st, it1, x1)) :
    ∃ t, x1.calls
        = (AggregateIterator.startGroup E (SwitchSlice E it.m_input_slice x)).2.calls ++ t
      ∧ ((AggregateIterator.startGroup E (SwitchSlice E it.m_input_slice x)).1 = true →
          t = []) := by
  unfold AggregateIterator.Read at h
  simp only [heof, hfr, Bool.false_eq_true, if_false] at h
  unfold AggregateIterator.newGroup at h
  simp only at h
  split at h
  · simp only [Option.some.injEq, Prod.mk.injEq] at h
    obtain ⟨_, _, rfl⟩ := h
    exact ⟨[], by simp, fun _ => rfl⟩
  · rename_i hg
    obtain ⟨t, ht, _⟩ := AggregateIterator.readGroup_calls E _ _ _ _ _ _ h
    exact ⟨t, ht, fun h1 => absurd h1 hg⟩

theorem countP_isRead_filter (l : List (Call ι)) :
    l.countP Call.isRead = (l.filter Call.isReadOrCount).countP Call.isRead := by
  induction l with
  | nil => rfl
  | cons c l ih =>
    cases c <;> simp [List.filter_cons, List.countP_cons, Call.isRead, Call.isReadOrCount, ih]

/-- C17: over a child that returns the `n` rows of `rows` and then -1, with
collaborators that do not fail, `Init()` followed by `Read()` until it returns
-1 makes `n + 1` calls of `Read()` on the child; and of the calls that read the
child or count a row, in their order, each `Read()` that returned a row is
followed by exactly one call that counts it, `init_sum_functions` for the
first row of a group and `update_sum_func` for any other row, before the next
`Read()` on the child.  Over any collaborators, a `Read()` after the first
(`m_first_row` not set) makes no call but at most `restore_fields` when
`m_eof` is set, so none on the child; otherwise its calls are those of
`SwitchSlice` to the input slice, then the block that starts the group
(`copy_fields`, `update_item_cache_if_changed`, `init_sum_functions`, inside
the scope guard), and only then the others, the child's `Read()` among them. -/
theorem C17_lookahead_row_consumed_once (E : Env W ι) {α κ : Type} [DecidableEq κ]
    (key : α → κ) (pred : α → Bool) (grouped : Bool) (rows : List α)
    (it0 : AggregateIterator) (fuel : Nat) (hfuel : rows.length + 1 < fuel) :
    (∃ it1 x1 outs s,
      AggregateIterator.Init (simEnv key pred grouped) it0 ⟨Sim.start rows, []⟩
        = some (false, it1, x1)
      ∧ drain (AggregateIterator.step (simEnv key pred grouped) fuel) countOut fuel (it1, x1)
        = some (outs, -1, s)
      ∧ s.2.calls.countP Call.isRead = rows.length + 1
      ∧ s.2.calls.filter Call.isReadOrCount = countEvents key none rows)
    ∧ (∀ (fuel1 : Nat) (it it1 : AggregateIterator) (x x1 : Exec W ι) (st : Int),
      it.m_first_row = false →
      AggregateIterator.Read E fuel1 it x = some (st, it1, x1) →
      (it.m_eof = true →
        x1.calls = x.calls ∨ x1.calls = x.calls ++ [Call.restore_fields it.m_save_nullinfo])
      ∧ (it.m_eof = false →
        ∃ a g t, x1.calls = x.calls ++ (a ++ g ++ t)
          ∧ (a = [] ∨ a = [Call.set_ref_item_slice it.m_input_slice])
          ∧ ((g = [Call.Switch_ref_item_slice E.REF_SLICE_ORDERED_GROUP_BY,
                Call.copy_fields true, Call.Switch_ref_item_slice_leave] ∧ t = [])
            ∨ ∃ i b, g = [Call.Switch_ref_item_slice E.REF_SLICE_ORDERED_GROUP_BY,
                Call.copy_fields false, Call.update_item_cache_if_changed i,
                Call.init_sum_functions b, Call.Switch_ref_item_slice_leave]
              ∧ (b = true → t = [])))) := by
  constructor
  · obtain ⟨it1, x1, outs, s, hInit, hdrain, hcalls⟩ :=
      AggregateIterator.aggregate_run_trace key pred grouped rows it0 fuel hfuel
    have hf : s.2.calls.filter Call.isReadOrCount = countEvents key none rows := by
      rw [hcalls, List.filter_cons]
      simp [Call.isReadOrCount, filter_aggDrainCalls]
    refine ⟨it1, x1, outs, s, hInit, hdrain, ?_, hf⟩
    rw [countP_isRead_filter, hf, countP_countEvents]
  · intro fuel1 it it1 x x1 st hfr h
    constructor
    · intro heof
      rw [AggregateIterator.Read_eof E fuel1 it x heof] at h
      simp only [Option.some.injEq, Prod.mk.injEq] at h
      obtain ⟨_, _, rfl⟩ := h
      by_cases h0 : it.m_save_nullinfo = 0
      · left
        simp [h0]
      · right
        simp [h0, join_restore_fields]
    · intro heof
      obtain ⟨t, ht, hfail⟩ :=
        AggregateIterator.Read_group_init_first E fuel1 it it1 x x1 st hfr heof h
      have ha : ∃ a, (SwitchSlice E it.m_input_slice x).calls = x.calls ++ a
          ∧ (a = [] ∨ a = [Call.set_ref_item_slice it.m_input_slice]) := by
        unfold SwitchSlice
        split
        · exact ⟨[Call.set_ref_item_slice it.m_input_slice], rfl, Or.inr rfl⟩
        · exact ⟨[], by simp, Or.inl rfl⟩
      obtain ⟨a, hacalls, ha⟩ := ha
      rcases AggregateIterator.startGroup_shape E (SwitchSlice E it.m_input_slice x) with
        ⟨hg, hb⟩ | ⟨i, b, hg, hb⟩
      · refine ⟨a, _, t, ?_, ha, Or.inl ⟨rfl, hfail hb⟩⟩
        rw [ht, hg, hacalls]
        simp
      · refine ⟨a, _, t, ?_, ha, Or.inr ⟨i, b, rfl, ?_⟩⟩
        · rw [ht, hg, hacalls]
          simp
        · intro hbt
          exact hfail (by rw [hb, hbt])

theorem C17_lookahead_row_consumed_once_witness :
    (∃ it1 x1 outs s,
      AggregateIterator.Init (simEnv (fun n : Nat => n) (fun _ => true) true)
          ⟨false, false, 0, 0⟩ ⟨Sim.start [1, 1, 2], []⟩
        = some (false, it1, x1)
      ∧ drain (AggregateIterator.step (simEnv (fun n : Nat => n) (fun _ => true) true) 5)
          countOut 5 (it1, x1)
        = some (outs, -1, s)
      ∧ s.2.calls.countP Call.isRead = 3 + 1
      ∧ s.2.calls.filter Call.isReadOrCount
        = [Call.source_Read 0, Call.init_sum_functions false, Call.source_Read 0,
            Call.update_sum_func false, Call.source_Read 0, Call.init_sum_functions false,
            Call.source_Read (-1)])
    ∧ ∃ a g t : List (Call Unit),
        [Call.set_ref_item_slice 0, Call.Switch_ref_item_slice 3, Call.copy_fields false,
          Call.update_item_cache_if_changed (-1), Call.init_sum_functions false,
          Call.Switch_ref_item_slice_leave, Call.source_Read (-1), Call.set_ref_item_slice 3]
          = [] ++ (a ++ g ++ t)
        ∧ (a = [] ∨ a = [Call.set_ref_item_slice 0])
        ∧ ((g = [Call.Switch_ref_item_slice 3, Call.copy_fields true,
              Call.Switch_ref_item_slice_leave] ∧ t = [])
          ∨ ∃ i b, g = [Call.Switch_ref_item_slice 3, Call.copy_fields false,
              Call.update_item_cache_if_changed i, Call.init_sum_functions b,
              Call.Switch_ref_item_slice_leave]
            ∧ (b = true → t = [])) :=
  ⟨(C17_lookahead_row_consumed_once (simEnv (fun n : Nat => n) (fun _ => true) true)
      (fun n : Nat => n) (fun _ => true) true [1, 1, 2] ⟨false, false, 0, 0⟩ 5
      (by decide)).1,
    ((C17_lookahead_row_consumed_once (simEnv (fun n : Nat => n) (fun _ => true) true)
      (fun n : Nat => n) (fun _ => true) true [1, 1, 2] ⟨false, false, 0, 0⟩ 5
      (by decide)).2 5 ⟨false, false, 0, 0⟩ ⟨false, true, 0, 0⟩
      ⟨{ (Sim.start [] : Sim Nat Nat) with
          row := some 2, cache := some 2, slice := 3, group_row := some 1, count := 1 }, []⟩
      ⟨{ (Sim.start [] : Sim Nat Nat) with
          row := some 2, cache := some 2, slice := 3, group_row := some 2, count := 1 },
        [Call.set_ref_item_slice 0, Call.Switch_ref_item_slice 3, Call.copy_fields false,
          Call.update_item_cache_if_changed (-1), Call.init_sum_functions false,
          Call.Switch_ref_item_slice_leave, Call.source_Read (-1),
          Call.set_ref_item_slice 3]⟩
      0 rfl rfl).2 rfl⟩

end CompositeIterators
